import Mathlib

/-!
# Minitar: a shallow embedding of the archive tool

The development follows the C sources `file_list.c`, `minitar.c` and
`minitar_main.c`.

Modelling conventions.

* A byte is a natural number; a C string is the list of bytes in front of the
  first NUL (`cstr`).
* `int` values are integers; every conversion of a wider value to `int`
  goes through `toInt32` (two's complement, 32 bits), every `unsigned`
  through `% 2^32`.
* The member files live in a `World` (what `fopen`, `stat`, `getpwuid` and
  `getgrgid` answer); the archive file is held apart from it as
  `Option (List Nat)` (`none`: no such file), so an archive is never one of
  its own members.  Opening an existing archive, `malloc` and writes to an
  open stream always succeed, and a stream shows its bytes as soon as they are
  written.
* Locals that C leaves uninitialised (`buffer`, `header`, `size`) are
  parameters holding their indeterminate first value (for the `int`, the
  `toInt32` of the parameter).
* A function that reaches a call without defined behaviour
  (`fclose` of a null or never assigned pointer, a negative byte count given
  to `fread`, signed overflow) ends in `Outcome.undefined`.
* The `name` array of a list node has `MAX_NAME_LEN` bytes and is followed in
  the struct by the pointer `next`.  A node that got a name of `MAX_NAME_LEN`
  bytes or more holds no NUL, and a read of its name as a C string runs on
  into that pointer: for the last node of a chain the pointer is null and its
  bytes end the string; for any other node the string goes on with the bytes
  of an address, which the model does not know (`c_string.runs_on`).  What
  depends on those bytes is `none`, or `Outcome.undefined` for a whole call.
* In the extractor `fopen(name, "w")` succeeds for every name that is not
  empty: the working directory takes every name.
-/

namespace Minitar

/-! ## Constants -/

/-- The constant `BLOCK_SIZE` of `minitar.h`. -/
abbrev BLOCK_SIZE : Nat := 512

/-- The constant `MAX_MSG_LEN` of `minitar.c`; the code uses it as the block size. -/
abbrev MAX_MSG_LEN : Nat := 512

/-- The constant `NUM_TRAILING_BLOCKS` of `minitar.c`. -/
abbrev NUM_TRAILING_BLOCKS : Nat := 2

/-- The constant `MAX_NAME_LEN` of `file_list.h`. -/
abbrev MAX_NAME_LEN : Nat := 32

/-- The constant `REGTYPE` of `minitar.h`: the character `0`. -/
abbrev REGTYPE : Nat := 48

/-- The constant `MAGIC` of `minitar.h`: the string `ustar`. -/
abbrev MAGIC : List Nat := [117, 115, 116, 97, 114]

/-! ## Machine integers, C strings, formatted output -/

/-- Conversion to a 32-bit two's complement `int`. -/
def toInt32 (z : Int) : Int := (z + 2147483648) % 4294967296 - 2147483648

/-- A run of `n` NUL bytes. -/
def zeros (n : Nat) : List Nat := List.replicate n 0

/-- The C string that starts at the head of a byte sequence. -/
def cstr (s : List Nat) : List Nat := s.takeWhile (fun b => b ≠ 0)

/-- The call `strncpy(dest, src, n)`: the `n` bytes left in `dest`: at most `n` bytes of
the string, then NULs up to `n`; no NUL at all when the string has `n` bytes or
more. -/
def strncpy (src : List Nat) (n : Nat) : List Nat :=
  (cstr src).take n ++ zeros (n - ((cstr src).take n).length)

/-- Octal digits (ASCII) of `v`, most significant first; `fuel` bounds their
number. -/
def octal_digits : Nat → Nat → List Nat
  | 0, _ => []
  | fuel + 1, v => if v < 8 then [48 + v] else octal_digits fuel (v / 8) ++ [48 + v % 8]

/-- What `%0<width>o` prints for the `unsigned` value `v % 2^32`: its octal
digits (at most 11), zero-padded on the left to `width`. -/
def printf_o (width : Nat) (v : Nat) : List Nat :=
  List.replicate (width - (octal_digits 11 (v % 4294967296)).length) 48
    ++ octal_digits 11 (v % 4294967296)

/-- The call `snprintf(field, n, ...)` into a zeroed field of `n` bytes, `s` being the
formatted text: the first `n - 1` characters of `s`, then NULs. -/
def snprintf (n : Nat) (s : List Nat) : List Nat :=
  s.take (n - 1) ++ zeros (n - (s.take (n - 1)).length)

/-- A `char` read as a number: `char` is signed on the x86-64 Linux target. -/
def schar (b : Nat) : Int :=
  if b % 256 < 128 then ((b % 256 : Nat) : Int) else ((b % 256 : Nat) : Int) - 256

/-! ## file_list.c -/

/-- The linked list `file_list_t`: `head` is the chain of nodes, each the 32
bytes of its `name` array; `size` is the counter. -/
structure file_list_t where
  head : List (List Nat)
  size : Int
deriving DecidableEq, Repr

/-- The function `file_list_init`. -/
def file_list_init : file_list_t := { head := [], size := 0 }

/-- The function `file_list_add` (with `malloc` succeeding, so the call returns 0): a new
last node holding `strncpy(name, file_name, MAX_NAME_LEN)`. -/
def file_list_add (list : file_list_t) (file_name : List Nat) : file_list_t :=
  match list.head with
  | [] => { head := [strncpy file_name MAX_NAME_LEN], size := 1 }
  | _ :: _ => { head := list.head ++ [strncpy file_name MAX_NAME_LEN], size := list.size + 1 }

/-- A C string as a call finds it in memory.  `bytes` are the bytes in front
of the first NUL, as far as they lie in the array read; `runs_on` tells that
the array holds no NUL and is followed by the bytes of a pointer that is not
null: the string goes on with bytes the model does not know. -/
structure c_string where
  bytes : List Nat
  runs_on : Bool
deriving DecidableEq, Repr

/-- The string a caller passes in an array of its own, which holds the
terminator. -/
def arg_string (file_name : List Nat) : c_string :=
  { bytes := cstr file_name, runs_on := false }

/-- The string at `node->name`, `last` telling whether `node->next` is null.
An array without a NUL is read on into the pointer `next`: the null pointer of
the last node ends the string there. -/
def node_string (node : List Nat) (last : Bool) : c_string :=
  { bytes := cstr node, runs_on := !decide (0 ∈ node) && !last }

/-- Whether `strcmp(a, b)` is 0.  Two strings the model knows to their end are
compared as they are.  A string that runs on into unknown bytes differs from
the other one if a known byte already differs; if its known bytes are the
beginning of the other string the comparison reaches the unknown bytes and
the model has no answer: `none`. -/
def strcmp_eq (a b : c_string) : Option Bool :=
  if a.runs_on = false ∧ b.runs_on = false then some (decide (a.bytes = b.bytes))
  else if (a.runs_on = true ∧ b.bytes.take a.bytes.length = a.bytes)
      ∨ (b.runs_on = true ∧ a.bytes.take b.bytes.length = b.bytes) then none
  else some false

/-- The loop of `file_list_contains` over the chain from `current` on. -/
def contains_loop (file_name : c_string) : List (List Nat) → Option Int
  | [] => some 0
  | node :: rest =>
    match strcmp_eq (node_string node rest.isEmpty) file_name with
    | none => none
    | some true => some 1
    | some false => contains_loop file_name rest

/-- The function `file_list_contains`: 1 when `strcmp` finds the name in a node, else 0;
`none` when a comparison depends on the bytes behind an array without a
NUL. -/
def file_list_contains (list : file_list_t) (file_name : c_string) : Option Int :=
  contains_loop file_name list.head

/-- The loop of `file_list_is_subset` over the chain of `l1` from `current` on. -/
def subset_loop (l2 : file_list_t) : List (List Nat) → Option Int
  | [] => some 1
  | node :: rest =>
    match file_list_contains l2 (node_string node rest.isEmpty) with
    | none => none
    | some r => if r = 0 then some 0 else subset_loop l2 rest

/-- The function `file_list_is_subset`. -/
def file_list_is_subset (l1 l2 : file_list_t) : Option Int :=
  subset_loop l2 l1.head

/-- The names held by a list: for each node the bytes of its array in front of
the first NUL. -/
def file_list_t.names (list : file_list_t) : List (List Nat) := list.head.map cstr

/-- The list `main` builds from its file arguments. -/
def file_list_of (names : List (List Nat)) : file_list_t :=
  names.foldl file_list_add file_list_init

/-! ## The tar header -/

/-- The struct `tar_header`; every field is a byte array. -/
structure tar_header where
  name : List Nat
  mode : List Nat
  uid : List Nat
  gid : List Nat
  size : List Nat
  mtime : List Nat
  chksum : List Nat
  typeflag : Nat
  linkname : List Nat
  magic : List Nat
  version : List Nat
  uname : List Nat
  gname : List Nat
  devmajor : List Nat
  devminor : List Nat
  prefix_ : List Nat
  padding : List Nat
deriving DecidableEq, Repr

/-- The header as the bytes of the struct, in field order. -/
def tar_header.bytes (h : tar_header) : List Nat :=
  h.name ++ h.mode ++ h.uid ++ h.gid ++ h.size ++ h.mtime ++ h.chksum ++ [h.typeflag]
    ++ h.linkname ++ h.magic ++ h.version ++ h.uname ++ h.gname ++ h.devmajor ++ h.devminor
    ++ h.prefix_ ++ h.padding

/-- The function `compute_checksum`: blank the field, add up the bytes of the
header as `char` values into an `unsigned`, print it with `%07o` into the
8-byte field, which the seven digits and the NUL fill. -/
def compute_checksum (header : tar_header) : tar_header :=
  let blank : tar_header := { header with chksum := List.replicate 8 32 }
  let sum : Int := (blank.bytes.map schar).sum % 4294967296
  { blank with chksum := snprintf 8 (printf_o 7 sum.toNat) }

/-- A regular file as `fopen` and `stat` see it; `st_size` is the length of
`content`, `dev_major` and `dev_minor` are `major(st_dev)` and
`minor(st_dev)`. -/
structure file_t where
  content : List Nat
  st_mode : Nat
  st_uid : Nat
  st_gid : Nat
  st_mtime : Int
  dev_major : Nat
  dev_minor : Nat
deriving DecidableEq, Repr

/-- The environment of the writer: the files that can be opened, keyed by
name, and the account databases behind `getpwuid` and `getgrgid`. -/
structure World where
  files : List (List Nat × file_t)
  passwd : List (Nat × List Nat)
  group : List (Nat × List Nat)
deriving DecidableEq, Repr

/-- The function `fill_tar_header`: `none` is the return value -1. -/
def fill_tar_header (w : World) (file_name : List Nat) : Option tar_header :=
  match w.files.lookup (cstr file_name) with
  | none => none
  | some f =>
    match w.passwd.lookup f.st_uid with
    | none => none
    | some pw_name =>
      match w.group.lookup f.st_gid with
      | none => none
      | some gr_name =>
        some (compute_checksum
          { name := strncpy file_name 100
            mode := snprintf 8 (printf_o 7 (f.st_mode % 4096))
            uid := snprintf 8 (printf_o 7 f.st_uid)
            gid := snprintf 8 (printf_o 7 f.st_gid)
            size := snprintf 12 (printf_o 11 f.content.length)
            mtime := snprintf 12 (printf_o 11 (f.st_mtime % 4294967296).toNat)
            chksum := zeros 8
            typeflag := REGTYPE
            linkname := zeros 100
            magic := strncpy MAGIC 6
            version := [48, 48]
            uname := strncpy pw_name 32
            gname := strncpy gr_name 32
            devmajor := snprintf 8 (printf_o 7 f.dev_major)
            devminor := snprintf 8 (printf_o 7 f.dev_minor)
            prefix_ := zeros 155
            padding := zeros 12 })

/-! ## Outcomes -/

/-- How a call ends: it returns `rc` leaving the state `st`; or it reaches
undefined behaviour in state `st`; or the loop budget of the model is spent. -/
inductive Outcome (α : Type) where
  | returned (rc : Int) (st : α) : Outcome α
  | undefined (st : α) : Outcome α
  | out_of_fuel : Outcome α
deriving DecidableEq, Repr

/-! ## The writer: create and append -/

/-- The function `fread` of at most `n` bytes from a stream whose unread bytes are `rest`:
the bytes read replace the front of `buffer`. -/
def fread (buffer : List Nat) (n : Nat) (rest : List Nat) : List Nat :=
  rest.take n ++ buffer.drop (rest.take n).length

/-- The function `remove_trailing_bytes`: `lseek(fd, -nbytes, SEEK_END)` fails when the file
is shorter than `nbytes`; otherwise the file is cut at that offset. -/
def remove_trailing_bytes (file : Option (List Nat)) (nbytes : Nat) : Int × Option (List Nat) :=
  match file with
  | none => (-1, none)
  | some a => if a.length < nbytes then (-1, some a) else (0, some (a.take (a.length - nbytes)))

/-- The copy loop of `helper` (`while (size > 0)`): `rest` is what is unread
of the member, `out` what has been written to the archive.  Returns the buffer
and the archive bytes. -/
def copy_loop : Nat → Int → List Nat → List Nat → List Nat → List Nat × List Nat
  | 0, _, _, buffer, out => (buffer, out)
  | fuel + 1, size, rest, buffer, out =>
    if size > 0 then
      if size ≥ MAX_MSG_LEN then
        copy_loop fuel (size - MAX_MSG_LEN) (rest.drop MAX_MSG_LEN)
          (fread buffer MAX_MSG_LEN rest) (out ++ (fread buffer MAX_MSG_LEN rest).take MAX_MSG_LEN)
      else
        copy_loop fuel 0 (rest.drop size.toNat)
          (fread (zeros MAX_MSG_LEN) size.toNat rest)
          (out ++ (fread (zeros MAX_MSG_LEN) size.toNat rest).take MAX_MSG_LEN)
    else (buffer, out)

/-- The `for` loop of `helper` over the nodes of the list: for each member the
header, then the content in blocks.  `out` is what the archive stream has
received.  `fopen(current->name, "r")` is given the string at the node: when
that string runs on into the bytes of `next`, the name asked for is not known
and the call ends as undefined; a name that cannot be opened leads to the
`fclose` of the null pointer. -/
def helper_loop (w : World) : List (List Nat) → List Nat → List Nat → Outcome (List Nat)
  | [], _, out => Outcome.returned 0 out
  | node :: nodes, buffer, out =>
    if (node_string node nodes.isEmpty).runs_on then Outcome.undefined out
    else
      match w.files.lookup (cstr node) with
      | none => Outcome.undefined out
      | some f =>
        match fill_tar_header w node with
        | none => Outcome.returned (-1) out
        | some temp_header =>
          if toInt32 f.content.length = -1 then
            Outcome.returned (-1) (out ++ temp_header.bytes)
          else
            helper_loop w nodes
              (copy_loop (toInt32 f.content.length).toNat (toInt32 f.content.length) f.content
                buffer (out ++ temp_header.bytes)).1
              (copy_loop (toInt32 f.content.length).toNat (toInt32 f.content.length) f.content
                buffer (out ++ temp_header.bytes)).2

/-- The two footer blocks `helper` writes after the members. -/
def footer : List Nat := zeros MAX_MSG_LEN ++ zeros MAX_MSG_LEN

/-- The function `helper`: mode `c` opens the archive with `w` (created or emptied), any
other mode with `a` (created when missing, writes go to the end) and removes
the last 1024 bytes first.  The nodes visited are the first `size` of the
chain. -/
def helper (w : World) (archive : Option (List Nat)) (files : file_list_t) (mode : Char)
    (buffer : List Nat) : Outcome (Option (List Nat)) :=
  if mode = 'c' then
    match helper_loop w (files.head.take files.size.toNat) buffer [] with
    | Outcome.returned 0 out => Outcome.returned 0 (some (out ++ footer))
    | Outcome.returned _ out => Outcome.returned (-1) (some out)
    | Outcome.undefined out => Outcome.undefined (some out)
    | Outcome.out_of_fuel => Outcome.out_of_fuel
  else
    match remove_trailing_bytes (some (archive.getD [])) (MAX_MSG_LEN * NUM_TRAILING_BLOCKS) with
    | (0, some a) =>
      match helper_loop w (files.head.take files.size.toNat) buffer a with
      | Outcome.returned 0 out => Outcome.returned 0 (some (out ++ footer))
      | Outcome.returned _ out => Outcome.returned (-1) (some out)
      | Outcome.undefined out => Outcome.undefined (some out)
      | Outcome.out_of_fuel => Outcome.out_of_fuel
    | (_, a) => Outcome.returned (-1) a

/-- The function `create_archive`. -/
def create_archive (w : World) (archive : Option (List Nat)) (files : file_list_t)
    (buffer : List Nat) : Outcome (Option (List Nat)) :=
  match helper w archive files 'c' buffer with
  | Outcome.returned 0 a => Outcome.returned 0 a
  | Outcome.returned _ a => Outcome.returned (-1) a
  | o => o

/-- The function `append_files_to_archive`. -/
def append_files_to_archive (w : World) (archive : Option (List Nat)) (files : file_list_t)
    (buffer : List Nat) : Outcome (Option (List Nat)) :=
  match helper w archive files 'a' buffer with
  | Outcome.returned 0 a => Outcome.returned 0 a
  | Outcome.returned _ a => Outcome.returned (-1) a
  | o => o

/-! ## The reader: list and extract -/

/-- The function `isspace` in the C locale. -/
def isspace (c : Nat) : Bool := c = 32 || (9 ≤ c && c ≤ 13)

/-- Value of the character `c` as a digit in `base`, if it is one. -/
def digit_val (base c : Nat) : Option Nat :=
  let v := if 48 ≤ c ∧ c ≤ 57 then c - 48
    else if 97 ≤ c ∧ c ≤ 102 then c - 87
    else if 65 ≤ c ∧ c ≤ 70 then c - 55
    else base
  if v < base then some v else none

/-- The digits in `base` at the head of `s`, as values. -/
def scan_digits (base : Nat) : List Nat → List Nat
  | [] => []
  | c :: s =>
    match digit_val base c with
    | some v => v :: scan_digits base s
    | none => []

/-- The number with the given digits in `base`, most significant first. -/
def digits_value (base : Nat) (ds : List Nat) : Nat := ds.foldl (fun acc d => acc * base + d) 0

/-- What `%i` finds in `s` after white space and sign: hexadecimal after `0x`,
octal after `0`, else decimal; `none` without a digit. -/
def scan_unsigned (s : List Nat) : Option Nat :=
  match s with
  | 48 :: 120 :: t => if scan_digits 16 t = [] then none else some (digits_value 16 (scan_digits 16 t))
  | 48 :: 88 :: t => if scan_digits 16 t = [] then none else some (digits_value 16 (scan_digits 16 t))
  | 48 :: t => some (digits_value 8 (scan_digits 8 (48 :: t)))
  | t => if scan_digits 10 t = [] then none else some (digits_value 10 (scan_digits 10 t))

/-- The value `strtol` hands back: clamped to the range of `long`. -/
def clamp_long (z : Int) : Int :=
  if z > 9223372036854775807 then 9223372036854775807
  else if z < -9223372036854775808 then -9223372036854775808 else z

/-- The call `sscanf(field, "%i", &size)`: the new value of `size`.  `field` is the
bytes from the start of the field to the end of the buffer, `old` the value
`size` had; a failed conversion leaves it. -/
def sscanf_i (field : List Nat) (old : Int) : Int :=
  match (cstr field).dropWhile isspace with
  | 45 :: t =>
    match scan_unsigned t with
    | some v => toInt32 (clamp_long (-(v : Int)))
    | none => old
  | 43 :: t =>
    match scan_unsigned t with
    | some v => toInt32 (clamp_long (v : Int))
    | none => old
  | t =>
    match scan_unsigned t with
    | some v => toInt32 (clamp_long (v : Int))
    | none => old

/-- Offset of the `size` field in the header. -/
abbrev SIZE_OFFSET : Nat := 124

/-- The budget of iterations for the traversal loops: a position below
`2^32` is passed after `2^23` steps of 512 bytes. -/
abbrev LOOP_BUDGET : Nat := 8388608

/-- The `while` loop of `get_archive_file_list`.  `a` is the archive, `end_`
the `int` holding its length, `pos` the stream position (`ftell`), `header`
the last block read, `size` the last size parsed.  The product in the third
`fseek` stays below `2^31`, as `size < end_ - pos - 1024` there. -/
def list_loop (a : List Nat) (end_ : Int) :
    Nat → Int → List Nat → Int → file_list_t → Outcome file_list_t
  | 0, _, _, _, _ => Outcome.out_of_fuel
  | fuel + 1, pos, header, size, files =>
    if pos + size + (MAX_MSG_LEN * 2 : Nat) < end_ then
      if size ≤ MAX_MSG_LEN then
        list_loop a end_ fuel
          (pos + MAX_MSG_LEN + ((a.drop (pos + MAX_MSG_LEN).toNat).take MAX_MSG_LEN).length)
          (fread header MAX_MSG_LEN (a.drop (pos + MAX_MSG_LEN).toNat))
          (sscanf_i ((fread header MAX_MSG_LEN (a.drop (pos + MAX_MSG_LEN).toNat)).drop SIZE_OFFSET) size)
          (file_list_add files (fread header MAX_MSG_LEN (a.drop (pos + MAX_MSG_LEN).toNat)))
      else if size % MAX_MSG_LEN = 0 then
        list_loop a end_ fuel
          (pos + size + ((a.drop (pos + size).toNat).take MAX_MSG_LEN).length)
          (fread header MAX_MSG_LEN (a.drop (pos + size).toNat))
          (sscanf_i ((fread header MAX_MSG_LEN (a.drop (pos + size).toNat)).drop SIZE_OFFSET) size)
          (file_list_add files (fread header MAX_MSG_LEN (a.drop (pos + size).toNat)))
      else
        list_loop a end_ fuel
          (pos + MAX_MSG_LEN * (size / MAX_MSG_LEN + 1)
            + ((a.drop (pos + MAX_MSG_LEN * (size / MAX_MSG_LEN + 1)).toNat).take MAX_MSG_LEN).length)
          (fread header MAX_MSG_LEN (a.drop (pos + MAX_MSG_LEN * (size / MAX_MSG_LEN + 1)).toNat))
          (sscanf_i ((fread header MAX_MSG_LEN
            (a.drop (pos + MAX_MSG_LEN * (size / MAX_MSG_LEN + 1)).toNat)).drop SIZE_OFFSET) size)
          (file_list_add files (fread header MAX_MSG_LEN
            (a.drop (pos + MAX_MSG_LEN * (size / MAX_MSG_LEN + 1)).toNat)))
    else Outcome.returned 0 files

/-- The function `get_archive_file_list`: `header` and `size` are the first values of the
uninitialised locals.  A missing archive leads to `fclose(NULL)`. -/
def get_archive_file_list (archive : Option (List Nat)) (files : file_list_t)
    (header : List Nat) (size : Int) : Outcome file_list_t :=
  match archive with
  | none => Outcome.undefined files
  | some a =>
    if toInt32 a.length = -1 then Outcome.returned (-1) files
    else
      list_loop a (toInt32 a.length) LOOP_BUDGET
        ((a.take MAX_MSG_LEN).length : Nat)
        (fread header MAX_MSG_LEN a)
        (sscanf_i ((fread header MAX_MSG_LEN a).drop SIZE_OFFSET) (toInt32 size))
        (file_list_add files (fread header MAX_MSG_LEN a))

/-- The files written by the extractor: (name, content) pairs, the most
recently opened first. -/
abbrev Disk := List (List Nat × List Nat)

/-- The call `fopen(name, "w")`: a fresh empty file of that name. -/
def fopen_w (disk : Disk) (name : List Nat) : Disk := (name, []) :: disk

/-- The function `fwrite` to the stream opened last. -/
def fwrite_last (disk : Disk) (bytes : List Nat) : Disk :=
  match disk with
  | [] => []
  | (name, content) :: rest => (name, content ++ bytes) :: rest

/-- The content a name has on disk: that of the stream opened last under the
name. -/
def Disk.read (disk : Disk) (name : List Nat) : Option (List Nat) := disk.lookup name

/-- The call `fseek(stream, offset, SEEK_CUR)`: the new position; a negative target
makes the call fail and leaves the position. -/
def fseek_cur (pos offset : Int) : Int := if pos + offset < 0 then pos else pos + offset

/-- The `for` loops of the extractor: `count` times read a block of the
archive into `buffer` and write the buffer to the output.  Returns the
position, the buffer and the output disk. -/
def copy_blocks (a : List Nat) : Nat → Int → List Nat → Disk → Int × List Nat × Disk
  | 0, pos, buffer, disk => (pos, buffer, disk)
  | count + 1, pos, buffer, disk =>
    copy_blocks a count
      (pos + ((a.drop pos.toNat).take MAX_MSG_LEN).length)
      (fread buffer MAX_MSG_LEN (a.drop pos.toNat))
      (fwrite_last disk ((fread buffer MAX_MSG_LEN (a.drop pos.toNat)).take MAX_MSG_LEN))

/-- What one pass of the body of the extractor's loop leads to, up to the
read of the next header. -/
inductive EntryResult where
  | next (pos : Int) (buffer : List Nat) (disk : Disk) : EntryResult
  | stop (o : Outcome Disk) : EntryResult
deriving DecidableEq, Repr

/-- The tail common to the three branches: with the stream at `pos1` after the
reads, seek back by `size`, check the block alignment, seek forward by
`advance`. -/
def seek_next (pos1 size advance : Int) (buffer : List Nat) (disk : Disk) : EntryResult :=
  if toInt32 (fseek_cur pos1 (-size)) % MAX_MSG_LEN ≠ 0 then
    EntryResult.stop (Outcome.returned (-1) disk)
  else if fseek_cur (fseek_cur pos1 (-size)) advance = toInt32 (fseek_cur pos1 (-size)) then
    EntryResult.stop (Outcome.returned (-1) disk)
  else EntryResult.next (fseek_cur (fseek_cur pos1 (-size)) advance) buffer disk

/-- The body of the extractor's loop for the entry whose header was just read:
open the output file (an empty name cannot be opened, and the error path
closes the null pointer; every other name is taken by the working directory),
copy `size` bytes, move to the next header. -/
def extract_entry (a : List Nat) (pos : Int) (header : List Nat) (size : Int)
    (buffer : List Nat) (disk : Disk) : EntryResult :=
  if cstr header = [] then EntryResult.stop (Outcome.undefined disk)
  else if size < MAX_MSG_LEN then
    if size < 0 then EntryResult.stop (Outcome.undefined (fopen_w disk (cstr header)))
    else
      seek_next (pos + ((a.drop pos.toNat).take size.toNat).length) size MAX_MSG_LEN
        (fread buffer size.toNat (a.drop pos.toNat))
        (fwrite_last (fopen_w disk (cstr header))
          ((fread buffer size.toNat (a.drop pos.toNat)).take size.toNat))
  else if size % MAX_MSG_LEN = 0 then
    match copy_blocks a (size / MAX_MSG_LEN).toNat pos buffer (fopen_w disk (cstr header)) with
    | (pos1, buffer1, disk1) =>
      seek_next pos1 size (MAX_MSG_LEN * (size / MAX_MSG_LEN)) buffer1 disk1
  else
    match copy_blocks a (size / MAX_MSG_LEN).toNat pos buffer (fopen_w disk (cstr header)) with
    | (pos1, buffer1, disk1) =>
      seek_next (pos1 + ((a.drop pos1.toNat).take (size % MAX_MSG_LEN).toNat).length) size
        (MAX_MSG_LEN * (size / MAX_MSG_LEN + 1))
        (fread buffer1 (size % MAX_MSG_LEN).toNat (a.drop pos1.toNat))
        (fwrite_last disk1
          ((fread buffer1 (size % MAX_MSG_LEN).toNat (a.drop pos1.toNat)).take
            (size % MAX_MSG_LEN).toNat))

/-- The `while` loop of `extract_files_from_archive`; `opened` tells whether
`new_ptr` has been assigned.  After the loop `fclose(new_ptr)` is called. -/
def extract_loop (a : List Nat) (end_ : Int) :
    Nat → Int → List Nat → Int → List Nat → Bool → Disk → Outcome Disk
  | 0, _, _, _, _, _, _ => Outcome.out_of_fuel
  | fuel + 1, pos, header, size, buffer, opened, disk =>
    if pos + size + (MAX_MSG_LEN * 2 : Nat) < end_ then
      match extract_entry a pos header size buffer disk with
      | EntryResult.stop o => o
      | EntryResult.next pos1 buffer1 disk1 =>
        extract_loop a end_ fuel
          (pos1 + ((a.drop pos1.toNat).take MAX_MSG_LEN).length)
          (fread header MAX_MSG_LEN (a.drop pos1.toNat))
          (sscanf_i ((fread header MAX_MSG_LEN (a.drop pos1.toNat)).drop SIZE_OFFSET) size)
          buffer1 true disk1
    else if opened then Outcome.returned 0 disk
    else Outcome.undefined disk

/-- The function `extract_files_from_archive`: `disk` is what the working directory holds,
`buffer`, `header` and `size` the first values of the uninitialised locals. -/
def extract_files_from_archive (archive : Option (List Nat)) (disk : Disk)
    (buffer header : List Nat) (size : Int) : Outcome Disk :=
  match archive with
  | none => Outcome.undefined disk
  | some a =>
    if toInt32 a.length = -1 then Outcome.returned (-1) disk
    else
      extract_loop a (toInt32 a.length) LOOP_BUDGET
        ((a.take MAX_MSG_LEN).length : Nat)
        (fread header MAX_MSG_LEN a)
        (sscanf_i ((fread header MAX_MSG_LEN a).drop SIZE_OFFSET) (toInt32 size))
        buffer false disk

/-! ## minitar_main.c -/

/-- What `main` acts on: the archive file named by `argv[3]`, the files of the
working directory written by an extraction, and the names printed by the list
mode (diagnostics are left out). -/
structure Machine where
  archive : Option (List Nat)
  disk : Disk
  stdout : List (List Nat)
deriving DecidableEq, Repr

/-- The first values of the locals the callees of `main` leave
uninitialised. -/
structure Locals where
  buffer : List Nat
  header : List Nat
  size : Int
deriving DecidableEq, Repr

/-- The `for` loop of the update branch of `main` over the requested nodes:
`some true` when `checker` stays 0, `some false` when a name is not found and
the loop breaks, `none` when a lookup has no answer in the model. -/
def update_check (new_list : file_list_t) : List (List Nat) → Option Bool
  | [] => some true
  | node :: rest =>
    match file_list_contains new_list (node_string node rest.isEmpty) with
    | none => none
    | some r => if r = 0 then some false else update_check new_list rest

/-- The update branch of `main`: list the archive into `new_list`, look every
requested name up in it, append when none is missing.  The exit status is the
`rc` of the outcome. -/
def main_update (w : World) (m : Machine) (files : file_list_t) (l : Locals) : Outcome Machine :=
  match get_archive_file_list m.archive file_list_init l.header l.size with
  | Outcome.returned 0 new_list =>
    match update_check new_list (files.head.take files.size.toNat) with
    | none => Outcome.undefined m
    | some true =>
      match append_files_to_archive w m.archive files l.buffer with
      | Outcome.returned 0 a => Outcome.returned 0 { m with archive := a }
      | Outcome.returned _ a => Outcome.returned 1 { m with archive := a }
      | Outcome.undefined a => Outcome.undefined { m with archive := a }
      | Outcome.out_of_fuel => Outcome.out_of_fuel
    | some false => Outcome.returned 0 m
  | Outcome.returned _ _ => Outcome.returned 1 m
  | Outcome.undefined _ => Outcome.undefined m
  | Outcome.out_of_fuel => Outcome.out_of_fuel

/-- The `for` loop of the list branch of `main`: `printf("%s\n", current->name)`
for each node; a string that runs on into the bytes of `next` cannot be
printed by the model. -/
def print_names (stdout : List (List Nat)) : List (List Nat) → Outcome (List (List Nat))
  | [] => Outcome.returned 0 stdout
  | node :: rest =>
    if (node_string node rest.isEmpty).runs_on then Outcome.undefined stdout
    else print_names (stdout ++ [cstr node]) rest

/-- The function `main`: `argv[1]` selects the mode, `argv[3]` names the archive (held in
the machine), the arguments from `argv[4]` on are the member names. -/
def main (argv : List (List Nat)) (w : World) (m : Machine) (l : Locals) : Outcome Machine :=
  if argv.length < 4 then Outcome.returned 0 m
  else if cstr (argv.getD 1 []) = [45, 99] then
    match create_archive w m.archive (file_list_of (argv.drop 4)) l.buffer with
    | Outcome.returned 0 a => Outcome.returned 0 { m with archive := a }
    | Outcome.returned _ a => Outcome.returned 1 { m with archive := a }
    | Outcome.undefined a => Outcome.undefined { m with archive := a }
    | Outcome.out_of_fuel => Outcome.out_of_fuel
  else if cstr (argv.getD 1 []) = [45, 97] then
    match append_files_to_archive w m.archive (file_list_of (argv.drop 4)) l.buffer with
    | Outcome.returned 0 a => Outcome.returned 0 { m with archive := a }
    | Outcome.returned _ a => Outcome.returned 1 { m with archive := a }
    | Outcome.undefined a => Outcome.undefined { m with archive := a }
    | Outcome.out_of_fuel => Outcome.out_of_fuel
  else if cstr (argv.getD 1 []) = [45, 116] then
    match get_archive_file_list m.archive (file_list_of (argv.drop 4)) l.header l.size with
    | Outcome.returned 0 files =>
      match print_names m.stdout (files.head.take files.size.toNat) with
      | Outcome.returned _ out => Outcome.returned 0 { m with stdout := out }
      | Outcome.undefined out => Outcome.undefined { m with stdout := out }
      | Outcome.out_of_fuel => Outcome.out_of_fuel
    | Outcome.returned _ _ => Outcome.returned 1 m
    | Outcome.undefined _ => Outcome.undefined m
    | Outcome.out_of_fuel => Outcome.out_of_fuel
  else if cstr (argv.getD 1 []) = [45, 117] then
    main_update w m (file_list_of (argv.drop 4)) l
  else if cstr (argv.getD 1 []) = [45, 120] then
    match extract_files_from_archive m.archive m.disk l.buffer l.header l.size with
    | Outcome.returned 0 d => Outcome.returned 0 { m with disk := d }
    | Outcome.returned _ d => Outcome.returned 1 { m with disk := d }
    | Outcome.undefined d => Outcome.undefined { m with disk := d }
    | Outcome.out_of_fuel => Outcome.out_of_fuel
  else Outcome.returned 0 m

/-! ## The archive layout in the words of the specification -/

/-- Number of bytes a content of `n` bytes takes in the archive:
`ceil(n / 512) * 512`. -/
def padded_size (n : Nat) : Nat := (n + 511) / 512 * 512

/-- The record of one member as the specification describes it: the header,
the content, zero bytes up to the next multiple of 512. -/
def record (w : World) (node : List Nat) : List Nat :=
  match fill_tar_header w node, w.files.lookup (cstr node) with
  | some h, some f => h.bytes ++ f.content ++ zeros (padded_size f.content.length - f.content.length)
  | _, _ => []

/-- The records of the members, in order. -/
def layout (w : World) : List (List Nat) → List Nat
  | [] => []
  | node :: nodes => record w node ++ layout w nodes

/-- Size in bytes of the member a node names (0 when there is none). -/
def member_size (w : World) (node : List Nat) : Nat :=
  match w.files.lookup (cstr node) with
  | some f => f.content.length
  | none => 0

/-- The member can be archived: it exists, its owner and group have names,
and its length fits the `int` the writer keeps it in. -/
def member_ok (w : World) (node : List Nat) : Bool :=
  match w.files.lookup (cstr node) with
  | some f => (fill_tar_header w node).isSome && decide (f.content.length < 2147483648)
  | none => false

/-- A sequence of appends to the archive an earlier call left, each with its
member list and the first value of its buffer; a call that does not return 0
ends the sequence. -/
def append_all (w : World) :
    Outcome (Option (List Nat)) → List (List (List Nat) × List Nat) → Outcome (Option (List Nat))
  | o, [] => o
  | Outcome.returned 0 a, step :: steps =>
    append_all w (append_files_to_archive w a (file_list_of step.1) step.2) steps
  | o, _ :: _ => o

/-- The state a call ends in, if it ends. -/
def Outcome.final {α : Type} : Outcome α → Option α
  | Outcome.returned _ st => some st
  | Outcome.undefined st => some st
  | Outcome.out_of_fuel => none

/-- The names the lister finds in an archive. -/
def listed_names (archive : Option (List Nat)) (l : Locals) : List (List Nat) :=
  match (get_archive_file_list archive file_list_init l.header l.size).final with
  | some files => files.names
  | none => []

/-! ## Sample files -/

/-- A regular file with the given content, mode 0644, owner and group 1000. -/
def sample_file (content : List Nat) : file_t :=
  { content := content, st_mode := 33188, st_uid := 1000, st_gid := 1000,
    st_mtime := 1700000000, dev_major := 8, dev_minor := 1 }

/-- A world holding the given (name, content) pairs, with the account `u` of
id 1000 and the group `g` of id 1000. -/
def sample_world (files : List (List Nat × List Nat)) : World :=
  { files := files.map (fun p => (p.1, sample_file p.2)),
    passwd := [(1000, [117])], group := [(1000, [103])] }

/-- The file name `x`. -/
def name_x : List Nat := [120]

/-- The file name `y`. -/
def name_y : List Nat := [121]

/-- The file name `z`. -/
def name_z : List Nat := [122]

/-- The five bytes `hello`. -/
def hello : List Nat := [104, 101, 108, 108, 111]

/-- The scenario of the specification: `x` of 5 bytes, `y` of 600 bytes, `z`
of 0 bytes. -/
def world_xyz : World :=
  sample_world [(name_x, hello), (name_y, List.replicate 600 97), (name_z, [])]

/-- A world whose file `x` has `2^31` bytes. -/
def world_big : World :=
  { files := [(name_x, sample_file (List.replicate 2147483648 0))],
    passwd := [(1000, [117])], group := [(1000, [103])] }

/-- The archive file a call of the writer leaves. -/
def archive_after (o : Outcome (Option (List Nat))) : Option (List Nat) :=
  match o.final with
  | some a => a
  | none => none

/-- A world whose only file is `x` with the given content. -/
def world_x (content : List Nat) : World := sample_world [(name_x, content)]

/-- The archive `create_archive` writes for the single member `x` with the
given content. -/
def archive_x (content : List Nat) : Option (List Nat) :=
  archive_after (create_archive (world_x content) none (file_list_of [name_x]) [])

/-- The archive A of the scenario: created from `x` (5 bytes) and `y` (600
bytes). -/
def archive_xy : Option (List Nat) :=
  archive_after (create_archive world_xyz none (file_list_of [name_x, name_y]) [])

/-- A after the append of `z` (0 bytes). -/
def archive_xyz : Option (List Nat) :=
  archive_after (append_files_to_archive world_xyz archive_xy (file_list_of [name_z]) [])

/-- A world with `x` holding `hello` and `y` holding 512 bytes. -/
def world_x_y512 : World := sample_world [(name_x, hello), (name_y, List.replicate 512 97)]

/-- The archive created from `x` (5 bytes) and `y` (512 bytes). -/
def archive_x_y512 : Option (List Nat) :=
  archive_after (create_archive world_x_y512 none (file_list_of [name_x, name_y]) [])

/-- The locals all empty or zero. -/
def locals0 : Locals := { buffer := [], header := [], size := 0 }

/-- The command line `minitar -u -f a x`. -/
def argv_update_x : List (List Nat) := [[109], [45, 117], [45, 102], [97], name_x]

/-- The archive of `x` holding `hello`, after `x` was replaced by `content`
and appended again. -/
def archive_x_twice (content : List Nat) : Option (List Nat) :=
  archive_after (append_files_to_archive (world_x content) (archive_x hello)
    (file_list_of [name_x]) [])

/-- The command line `minitar -u -f a w`. -/
def argv_update_w : List (List Nat) := [[109], [45, 117], [45, 102], [97], [119]]

/-- How `helper` ends after its loop over the members: on success the footer is
written, and in every case closing the archive leaves the bytes written so
far. -/
def finish_archive (o : Outcome (List Nat)) : Outcome (Option (List Nat)) :=
  match o with
  | Outcome.returned 0 out => Outcome.returned 0 (some (out ++ footer))
  | Outcome.returned _ out => Outcome.returned (-1) (some out)
  | Outcome.undefined out => Outcome.undefined (some out)
  | Outcome.out_of_fuel => Outcome.out_of_fuel

/-- The members an archive holds after a create with `fs0` and the appends
`steps`: the lists joined in the order of the calls. -/
def all_members (fs0 : List (List Nat)) (steps : List (List (List Nat) × List Nat)) :
    List (List Nat) :=
  steps.foldl (fun acc step => acc ++ step.1) fs0

/-- The appends of `z`, then of `x`, each with an empty buffer. -/
def steps_z_x : List (List (List Nat) × List Nat) := [([name_z], []), ([name_x], [])]

/-- The archive after the create with `x`, `y` and the appends of `z` and of
`x`. -/
def archive_xyzx : Option (List Nat) :=
  archive_after (append_all world_xyz
    (create_archive world_xyz none (file_list_of [name_x, name_y]) []) steps_z_x)

/-! ## Definitions for the header and the file list -/

/-- The function `file_list_add` with its return value: when `malloc` fails
the call returns 1 and the list is as it was, else it returns 0 and the list
has the new node. -/
def file_list_add_status (malloc_ok : Bool) (list : file_list_t) (file_name : List Nat) :
    Int × file_list_t :=
  if malloc_ok then (0, file_list_add list file_name) else (1, list)

/-- The number a field holds when its string is read as octal digits. -/
def octal_value (field : List Nat) : Nat := digits_value 8 (scan_digits 8 (cstr field))

/-- A field of `digits + 1` bytes that holds exactly `digits` octal digits
followed by a NUL. -/
def octal_field (digits : Nat) (field : List Nat) : Prop :=
  field.length = digits + 1 ∧ (∀ c ∈ field.take digits, 48 ≤ c ∧ c ≤ 55)
    ∧ field.drop digits = [0]

/-- The sum the specification asks for: the bytes of the header as unsigned
values in 0..255, the checksum field counted as eight spaces. -/
def unsigned_sum (h : tar_header) : Nat :=
  (({ h with chksum := List.replicate 8 32 } : tar_header).bytes.map (fun b => b % 256)).sum

/-- The field widths of the struct `tar_header`. -/
def ustar_sized (h : tar_header) : Prop :=
  h.name.length = 100 ∧ h.mode.length = 8 ∧ h.uid.length = 8 ∧ h.gid.length = 8
    ∧ h.size.length = 12 ∧ h.mtime.length = 12 ∧ h.chksum.length = 8
    ∧ h.linkname.length = 100 ∧ h.magic.length = 6 ∧ h.version.length = 2
    ∧ h.uname.length = 32 ∧ h.gname.length = 32 ∧ h.devmajor.length = 8
    ∧ h.devminor.length = 8 ∧ h.prefix_.length = 155 ∧ h.padding.length = 12

/-- The header `fill_tar_header` produces for a name, the all-empty header
when it fails. -/
def header_of (w : World) (file_name : List Nat) : tar_header :=
  match fill_tar_header w file_name with
  | some h => h
  | none =>
    { name := [], mode := [], uid := [], gid := [], size := [], mtime := [], chksum := [],
      typeflag := 0, linkname := [], magic := [], version := [], uname := [], gname := [],
      devmajor := [], devminor := [], prefix_ := [], padding := [] }

/-- How `main` ends after the call of `append_files_to_archive` in the update
and append modes. -/
def report_append (m : Machine) (o : Outcome (Option (List Nat))) : Outcome Machine :=
  match o with
  | Outcome.returned 0 a => Outcome.returned 0 { m with archive := a }
  | Outcome.returned _ a => Outcome.returned 1 { m with archive := a }
  | Outcome.undefined a => Outcome.undefined { m with archive := a }
  | Outcome.out_of_fuel => Outcome.out_of_fuel

/-- The header `fill_tar_header` builds before the checksum is computed, from
the file and the names of its owner and group. -/
def raw_header (file_name : List Nat) (f : file_t) (pw_name gr_name : List Nat) : tar_header :=
  { name := strncpy file_name 100
    mode := snprintf 8 (printf_o 7 (f.st_mode % 4096))
    uid := snprintf 8 (printf_o 7 f.st_uid)
    gid := snprintf 8 (printf_o 7 f.st_gid)
    size := snprintf 12 (printf_o 11 f.content.length)
    mtime := snprintf 12 (printf_o 11 (f.st_mtime % 4294967296).toNat)
    chksum := zeros 8
    typeflag := REGTYPE
    linkname := zeros 100
    magic := strncpy MAGIC 6
    version := [48, 48]
    uname := strncpy pw_name 32
    gname := strncpy gr_name 32
    devmajor := snprintf 8 (printf_o 7 f.dev_major)
    devminor := snprintf 8 (printf_o 7 f.dev_minor)
    prefix_ := zeros 155
    padding := zeros 12 }

/-- The list the lister returns for the archive of `x`, `y`, `z`. -/
def listed_xyz : file_list_t := file_list_of [name_x, name_y, name_z]

/-- The machine whose archive lists `x`, `y`, `z`, with nothing extracted or
printed. -/
def machine_xyz : Machine := { archive := archive_xyz, disk := [], stdout := [] }

/-- The command line `minitar -a -f a z`. -/
def argv_append_z : List (List Nat) := [[109], [45, 97], [45, 102], [97], name_z]

/-- A file that belongs to the user and group of id `8^7`. -/
def file_big_uid : file_t :=
  { content := hello, st_mode := 33188, st_uid := 2097152, st_gid := 2097152,
    st_mtime := 1700000000, dev_major := 8, dev_minor := 1 }

/-- A world whose file `x` belongs to the user and group of id `8^7`. -/
def world_big_uid : World :=
  { files := [(name_x, file_big_uid)], passwd := [(2097152, [117])],
    group := [(2097152, [103])] }

/-- The two bytes of the file name `é` in UTF-8. -/
def name_e_acute : List Nat := [195, 169]

/-- A world whose only file is named `é`. -/
def world_e_acute : World := sample_world [(name_e_acute, hello)]

/-- A world whose file `x` has `2^30` bytes. -/
def world_gib : World :=
  { files := [(name_x, sample_file (List.replicate 1073741824 0))],
    passwd := [(1000, [117])], group := [(1000, [103])] }

/-- A world with the empty file `z` and the file `x` holding `hello`. -/
def world_zx : World := sample_world [(name_z, []), (name_x, hello)]

/-- The archive created from `z` (0 bytes) and `x` (5 bytes), in this order. -/
def archive_zx : Option (List Nat) :=
  archive_after (create_archive world_zx none (file_list_of [name_z, name_x]) [])

/-- The bytes the lister seeks forward after the header of an entry of the
given size: the three branches of its loop. -/
def list_advance (size : Int) : Int :=
  if size ≤ MAX_MSG_LEN then MAX_MSG_LEN
  else if size % MAX_MSG_LEN = 0 then size
  else MAX_MSG_LEN * (size / MAX_MSG_LEN + 1)

/-- The bytes the extractor moves forward from the end of the header of an
entry of the given size: the last `fseek` of the three branches of its
loop. -/
def extract_advance (size : Int) : Int :=
  if size < MAX_MSG_LEN then MAX_MSG_LEN
  else if size % MAX_MSG_LEN = 0 then MAX_MSG_LEN * (size / MAX_MSG_LEN)
  else MAX_MSG_LEN * (size / MAX_MSG_LEN + 1)

/-! ## Definitions for the last claims -/

/-- The checksum field in the words of the specification: 8 bytes holding 6
octal digits followed by terminators, each a NUL or a space. -/
def six_digit_checksum (field : List Nat) : Prop :=
  field.length = 8 ∧ (∀ c ∈ field.take 6, 48 ≤ c ∧ c ≤ 55)
    ∧ (∀ c ∈ field.drop 6, c = 0 ∨ c = 32)

/-- The sum `compute_checksum` prints: the bytes of the header as `char`
values, the checksum field blank, added into an `unsigned`. -/
def checksum_sum (h : tar_header) : Nat :=
  ((({ h with chksum := List.replicate 8 32 } : tar_header).bytes.map schar).sum
    % 4294967296).toNat

/-- A file name of 40 bytes, all `a`. -/
def name_40 : List Nat := List.replicate 40 97

/-- A file name of 101 bytes, all `a`. -/
def name_101 : List Nat := List.replicate 101 97

/-- A world whose only file has the name of 101 bytes. -/
def world_long_name : World := sample_world [(name_101, hello)]

/-- A member name that no file of the sample world has. -/
def name_w : List Nat := [119]

/-- A world in which `x` can be described and `y` exists but belongs to a user
the account database does not know. -/
def world_unknown_owner : World :=
  { files := [(name_x, sample_file hello),
      (name_y, { sample_file hello with st_uid := 4242 })],
    passwd := [(1000, [117])], group := [(1000, [103])] }

/-- The offsets at which the passes of the lister's loop read a header: the
loop of `list_loop`, recording where each `fread` of a header starts. -/
def list_offsets (a : List Nat) (end_ : Int) : Nat → Int → List Nat → Int → List Int
  | 0, _, _, _ => []
  | fuel + 1, pos, header, size =>
    if pos + size + (MAX_MSG_LEN * 2 : Nat) < end_ then
      (pos + list_advance size) ::
        list_offsets a end_ fuel
          (pos + list_advance size
            + ((a.drop (pos + list_advance size).toNat).take MAX_MSG_LEN).length)
          (fread header MAX_MSG_LEN (a.drop (pos + list_advance size).toNat))
          (sscanf_i ((fread header MAX_MSG_LEN
            (a.drop (pos + list_advance size).toNat)).drop SIZE_OFFSET) size)
    else []

/-- The offsets at which the passes of the extractor's loop read a header: the
loop of `extract_loop`, recording where each `fread` of a header starts. -/
def extract_offsets (a : List Nat) (end_ : Int) :
    Nat → Int → List Nat → Int → List Nat → Disk → List Int
  | 0, _, _, _, _, _ => []
  | fuel + 1, pos, header, size, buffer, disk =>
    if pos + size + (MAX_MSG_LEN * 2 : Nat) < end_ then
      match extract_entry a pos header size buffer disk with
      | EntryResult.stop _ => []
      | EntryResult.next pos1 buffer1 disk1 =>
        pos1 ::
          extract_offsets a end_ fuel
            (pos1 + ((a.drop pos1.toNat).take MAX_MSG_LEN).length)
            (fread header MAX_MSG_LEN (a.drop pos1.toNat))
            (sscanf_i ((fread header MAX_MSG_LEN (a.drop pos1.toNat)).drop SIZE_OFFSET) size)
            buffer1 disk1
    else []

/-- All the offsets at which `get_archive_file_list` reads a header: 0, then
those of its loop. -/
def list_header_offsets (a : List Nat) (header : List Nat) (size : Int) : List Int :=
  0 :: list_offsets a (toInt32 a.length) LOOP_BUDGET ((a.take MAX_MSG_LEN).length : Nat)
    (fread header MAX_MSG_LEN a)
    (sscanf_i ((fread header MAX_MSG_LEN a).drop SIZE_OFFSET) (toInt32 size))

/-- All the offsets at which `extract_files_from_archive` reads a header: 0,
then those of its loop. -/
def extract_header_offsets (a : List Nat) (disk : Disk) (buffer header : List Nat)
    (size : Int) : List Int :=
  0 :: extract_offsets a (toInt32 a.length) LOOP_BUDGET ((a.take MAX_MSG_LEN).length : Nat)
    (fread header MAX_MSG_LEN a)
    (sscanf_i ((fread header MAX_MSG_LEN a).drop SIZE_OFFSET) (toInt32 size))
    buffer disk

/-- The loop of `list_loop` with the conversion of the size field left open:
`parse field old` is any function of the bytes of the field and of the
previous size, with an unbounded integer as its value.  With `sscanf_i` for
`parse` this is `list_loop`. -/
def list_loop_parsing (parse : List Nat → Int → Int) (a : List Nat) (end_ : Int) :
    Nat → Int → List Nat → Int → file_list_t → Outcome file_list_t
  | 0, _, _, _, _ => Outcome.out_of_fuel
  | fuel + 1, pos, header, size, files =>
    if pos + size + (MAX_MSG_LEN * 2 : Nat) < end_ then
      list_loop_parsing parse a end_ fuel
        (pos + list_advance size
          + ((a.drop (pos + list_advance size).toNat).take MAX_MSG_LEN).length)
        (fread header MAX_MSG_LEN (a.drop (pos + list_advance size).toNat))
        (parse ((fread header MAX_MSG_LEN
          (a.drop (pos + list_advance size).toNat)).drop SIZE_OFFSET) size)
        (file_list_add files (fread header MAX_MSG_LEN
          (a.drop (pos + list_advance size).toNat)))
    else Outcome.returned 0 files

/-- A file name of 32 bytes, all `a`: as long as the `name` array of a node. -/
def name_32 : List Nat := List.replicate 32 97

/-- A world with a file of the 32-byte name and the file `x`, both holding
`hello`. -/
def world_name_32 : World := sample_world [(name_32, hello), (name_x, hello)]

/-- The archive created from the file of the 32-byte name alone. -/
def archive_32 : Option (List Nat) :=
  archive_after (create_archive world_name_32 none (file_list_of [name_32]) [])

/-- The archive of the 32-byte name after the append of `x`. -/
def archive_32_x : Option (List Nat) :=
  archive_after (append_files_to_archive world_name_32 archive_32 (file_list_of [name_x]) [])

/-- The machine whose archive holds the file of the 32-byte name and `x`. -/
def machine_32_x : Machine := { archive := archive_32_x, disk := [], stdout := [] }

/-- The command line `minitar -u -f a aaaaaaaaaaaaaaaaaaaaaaaaaaaaaaaa`. -/
def argv_update_32 : List (List Nat) := [[109], [45, 117], [45, 102], [97], name_32]

/-- An archive of 3584 bytes whose blocks at 0 and 1024 hold the name `x` and
nothing else: the size fields are empty and `sscanf` converts nothing. -/
def archive_unsized : List Nat :=
  ([120] ++ zeros 511) ++ zeros 512 ++ ([120] ++ zeros 511) ++ zeros 2048

/-- Locals that start with the size 77. -/
def locals_77 : Locals := { buffer := [], header := [], size := 77 }

/-! ## Basic facts -/

theorem toInt32_of_lt (n : Nat) (h : n < 2147483648) : toInt32 (n : Int) = (n : Int) := by
  unfold toInt32
  omega

theorem toInt32_range (z : Int) : -2147483648 ≤ toInt32 z ∧ toInt32 z < 2147483648 := by
  unfold toInt32
  omega

theorem toInt32_le_self (n : Nat) : toInt32 (n : Int) ≤ (n : Int) := by
  unfold toInt32
  omega

theorem length_zeros (n : Nat) : (zeros n).length = n := by
  simp [zeros]

theorem length_strncpy (src : List Nat) (n : Nat) : (strncpy src n).length = n := by
  simp only [strncpy, List.length_append, length_zeros, List.length_take]
  omega

theorem length_snprintf (n : Nat) (s : List Nat) : (snprintf n s).length = n := by
  simp only [snprintf, List.length_append, length_zeros, List.length_take]
  omega

theorem length_bytes_compute_checksum (h : tar_header) :
    (compute_checksum h).bytes.length
      = h.name.length + h.mode.length + h.uid.length + h.gid.length + h.size.length
        + h.mtime.length + 8 + 1 + h.linkname.length + h.magic.length + h.version.length
        + h.uname.length + h.gname.length + h.devmajor.length + h.devminor.length
        + h.prefix_.length + h.padding.length := by
  simp only [compute_checksum, tar_header.bytes, List.length_append, length_snprintf,
    List.length_singleton]

/-- Every header `fill_tar_header` produces is 512 bytes long. -/
theorem length_bytes_fill_tar_header (w : World) (file_name : List Nat) (h : tar_header)
    (hfill : fill_tar_header w file_name = some h) : h.bytes.length = 512 := by
  unfold fill_tar_header at hfill
  split at hfill
  · exact absurd hfill (by simp)
  · split at hfill
    · exact absurd hfill (by simp)
    · split at hfill
      · exact absurd hfill (by simp)
      · simp only [Option.some.injEq] at hfill
        subst hfill
        rw [length_bytes_compute_checksum]
        simp [length_strncpy, length_snprintf, length_zeros]

theorem copy_loop_nonpos (fuel : Nat) (size : Int) (hs : size ≤ 0) (rest buffer out : List Nat) :
    copy_loop fuel size rest buffer out = (buffer, out) := by
  cases fuel with
  | zero => rfl
  | succ k =>
    have h : ¬ size > 0 := by omega
    simp only [copy_loop, h, if_false]

theorem take_fread_full (buffer rest : List Nat) (n : Nat) (h : n ≤ rest.length) :
    (fread buffer n rest).take n = rest.take n := by
  unfold fread
  rw [List.take_append_of_le_length (by simp [List.length_take]; omega)]
  rw [List.take_take, Nat.min_self]

theorem fread_zeros_short (rest : List Nat) (h : rest.length < 512) :
    (fread (zeros 512) rest.length rest).take 512 = rest ++ zeros (512 - rest.length) := by
  unfold fread
  rw [List.take_length]
  have : (zeros 512).drop rest.length = zeros (512 - rest.length) := by
    unfold zeros
    rw [List.drop_replicate]
  rw [this, List.take_of_length_le]
  rw [List.length_append, length_zeros]
  omega

theorem copy_loop_content (fuel : Nat) : ∀ (rest buffer out : List Nat), rest.length ≤ fuel →
    (copy_loop fuel (rest.length : Int) rest buffer out).2
      = out ++ rest ++ zeros ((512 - rest.length % 512) % 512) := by
  induction fuel with
  | zero =>
    intro rest buffer out h
    have : rest = [] := List.eq_nil_of_length_eq_zero (by omega)
    subst this
    simp [copy_loop, zeros]
  | succ k ih =>
    intro rest buffer out h
    by_cases h0 : rest.length = 0
    · have : rest = [] := List.eq_nil_of_length_eq_zero h0
      subst this
      simp [copy_loop, zeros]
    · have hpos : ((rest.length : Nat) : Int) > 0 := by omega
      by_cases hfull : 512 ≤ rest.length
      · have hge : ((rest.length : Nat) : Int) ≥ ((MAX_MSG_LEN : Nat) : Int) := by
          simp only [MAX_MSG_LEN]; omega
        have hlen : ((rest.length : Nat) : Int) - ((MAX_MSG_LEN : Nat) : Int)
            = (((rest.drop MAX_MSG_LEN).length : Nat) : Int) := by
          simp only [MAX_MSG_LEN, List.length_drop]; omega
        simp only [copy_loop, hpos, hge, if_true]
        rw [hlen, ih _ _ _ (by simp only [MAX_MSG_LEN, List.length_drop]; omega)]
        rw [take_fread_full _ _ _ hfull]
        have hmod : (rest.drop MAX_MSG_LEN).length % 512 = rest.length % 512 := by
          simp only [MAX_MSG_LEN, List.length_drop]; omega
        rw [hmod]
        simp only [List.append_assoc, MAX_MSG_LEN]
        rw [← List.append_assoc (rest.take 512), List.take_append_drop]
      · have hlt : ¬ ((rest.length : Nat) : Int) ≥ ((MAX_MSG_LEN : Nat) : Int) := by
          simp only [MAX_MSG_LEN]; omega
        simp only [copy_loop, hpos, hlt, if_true, if_false]
        rw [copy_loop_nonpos _ _ (le_refl 0)]
        simp only [Int.toNat_ofNat, MAX_MSG_LEN]
        rw [fread_zeros_short _ (by omega)]
        have hpad : (512 - rest.length % 512) % 512 = 512 - rest.length := by omega
        rw [hpad, List.append_assoc]

/-- The budget never ends the copy loop: with `size.toNat` steps or more the
result is the same. -/
theorem copy_loop_fuel (fuel : Nat) : ∀ (fuel2 : Nat) (size : Int) (rest buffer out : List Nat),
    size.toNat ≤ fuel → size.toNat ≤ fuel2 →
    copy_loop fuel size rest buffer out = copy_loop fuel2 size rest buffer out := by
  induction fuel with
  | zero =>
    intro fuel2 size rest buffer out h _
    have hs : size ≤ 0 := by omega
    rw [copy_loop_nonpos _ _ hs, copy_loop_nonpos _ _ hs]
  | succ k ih =>
    intro fuel2 size rest buffer out h h2
    by_cases hs : size ≤ 0
    · rw [copy_loop_nonpos _ _ hs, copy_loop_nonpos _ _ hs]
    · cases fuel2 with
      | zero => omega
      | succ k2 =>
        have hpos : size > 0 := by omega
        unfold copy_loop
        simp only [hpos, if_true]
        by_cases hfull : size ≥ ((MAX_MSG_LEN : Nat) : Int)
        · simp only [hfull, if_true]
          apply ih
          · simp only [MAX_MSG_LEN] at hfull ⊢
            omega
          · simp only [MAX_MSG_LEN] at hfull ⊢
            omega
        · simp only [hfull, if_false]
          rw [copy_loop_nonpos _ _ (le_refl 0), copy_loop_nonpos _ _ (le_refl 0)]

theorem padded_size_sub (n : Nat) : padded_size n - n = (512 - n % 512) % 512 := by
  unfold padded_size
  omega

/-- The name of a node that holds a terminator is read to its end. -/
theorem node_string_terminated (node : List Nat) (last : Bool) (h : 0 ∈ node) :
    (node_string node last).runs_on = false := by
  simp [node_string, h]

/-- The name of the last node is read to its end. -/
theorem node_string_last (node : List Nat) : (node_string node true).runs_on = false := by
  simp [node_string]

theorem helper_loop_ok (w : World) : ∀ (nodes : List (List Nat)) (buffer out : List Nat),
    (∀ node ∈ nodes, 0 ∈ node) → (∀ node ∈ nodes, member_ok w node = true) →
    helper_loop w nodes buffer out = Outcome.returned 0 (out ++ layout w nodes) := by
  intro nodes
  induction nodes with
  | nil =>
    intro buffer out _ _
    simp [helper_loop, layout]
  | cons node nodes ih =>
    intro buffer out hterm hok
    have h1 := hok node (List.mem_cons_self _ _)
    have hrest : ∀ n ∈ nodes, member_ok w n = true :=
      fun n hn => hok n (List.mem_cons_of_mem _ hn)
    have hrun := node_string_terminated node nodes.isEmpty (hterm node (List.mem_cons_self _ _))
    unfold member_ok at h1
    split at h1
    · rename_i f hlookup
      simp only [Bool.and_eq_true, decide_eq_true_eq] at h1
      obtain ⟨hdr, hh⟩ := Option.isSome_iff_exists.mp h1.1
      have hi : toInt32 (f.content.length : Int) = (f.content.length : Int) :=
        toInt32_of_lt _ h1.2
      have hne : ¬ ((f.content.length : Nat) : Int) = -1 := by omega
      simp only [helper_loop, hrun, Bool.false_eq_true, hlookup, hh, hi, hne, if_false,
        Int.toNat_ofNat]
      rw [ih _ _ (fun n hn => hterm n (List.mem_cons_of_mem _ hn)) hrest,
        copy_loop_content _ _ _ _ (le_refl _)]
      simp only [layout, record, hlookup, hh, padded_size_sub, List.append_assoc]
    · exact absurd h1 (by simp)

theorem footer_eq : footer = zeros 1024 := by
  unfold footer zeros
  exact (List.replicate_add 512 512 0).symm

theorem take_size_of_eq (files : file_list_t) (hsize : files.size = (files.head.length : Int)) :
    files.head.take files.size.toNat = files.head := by
  rw [hsize, Int.toNat_ofNat, List.take_length]

theorem create_archive_of_loop (w : World) (archive : Option (List Nat)) (files : file_list_t)
    (buffer out : List Nat)
    (h : helper_loop w (files.head.take files.size.toNat) buffer [] = Outcome.returned 0 out) :
    create_archive w archive files buffer = Outcome.returned 0 (some (out ++ zeros 1024)) := by
  simp only [create_archive, helper, if_true, h, footer_eq]

theorem length_record (w : World) (node : List Nat) (hok : member_ok w node = true) :
    (record w node).length = 512 + padded_size (member_size w node) := by
  unfold member_ok at hok
  split at hok
  · rename_i f hlookup
    simp only [Bool.and_eq_true, decide_eq_true_eq] at hok
    obtain ⟨hdr, hh⟩ := Option.isSome_iff_exists.mp hok.1
    have hlen := length_bytes_fill_tar_header w node hdr hh
    have hpad : f.content.length ≤ padded_size f.content.length := by
      unfold padded_size
      omega
    simp only [record, member_size, hlookup, hh, List.length_append, length_zeros, hlen]
    omega
  · exact absurd hok (by simp)

theorem length_layout (w : World) : ∀ (nodes : List (List Nat)),
    (∀ node ∈ nodes, member_ok w node = true) →
    (layout w nodes).length
      = (nodes.map (fun node => 512 + padded_size (member_size w node))).sum := by
  intro nodes
  induction nodes with
  | nil => intro _; simp [layout]
  | cons node nodes ih =>
    intro hok
    simp only [layout, List.length_append, List.map_cons, List.sum_cons]
    rw [length_record w node (hok node (List.mem_cons_self _ _)),
      ih (fun n hn => hok n (List.mem_cons_of_mem _ hn))]

theorem create_archive_ok (w : World) (archive : Option (List Nat)) (files : file_list_t)
    (buffer : List Nat) (hsize : files.size = (files.head.length : Int))
    (hterm : ∀ node ∈ files.head, 0 ∈ node)
    (hok : ∀ node ∈ files.head, member_ok w node = true) :
    create_archive w archive files buffer
      = Outcome.returned 0 (some (layout w files.head ++ zeros 1024)) := by
  have hloop := helper_loop_ok w files.head buffer [] hterm hok
  rw [← take_size_of_eq files hsize] at hloop
  rw [create_archive_of_loop w archive files buffer _ hloop, take_size_of_eq files hsize]
  simp

theorem append_of_loop (w : World) (old : List Nat) (files : file_list_t)
    (buffer out : List Nat) (hlen : 1024 ≤ old.length)
    (h : helper_loop w (files.head.take files.size.toNat) buffer (old.take (old.length - 1024))
      = Outcome.returned 0 out) :
    append_files_to_archive w (some old) files buffer
      = Outcome.returned 0 (some (out ++ zeros 1024)) := by
  have hlt : ¬ old.length < 1024 := by omega
  have hc : ¬ ('a' = 'c') := by decide
  simp only [append_files_to_archive, helper, hc, if_false, remove_trailing_bytes,
    Option.getD_some, MAX_MSG_LEN, NUM_TRAILING_BLOCKS, Nat.reduceMul, hlt, h, footer_eq]

theorem append_ok (w : World) (old : List Nat) (files : file_list_t) (buffer : List Nat)
    (hlen : 1024 ≤ old.length) (hsize : files.size = (files.head.length : Int))
    (hterm : ∀ node ∈ files.head, 0 ∈ node)
    (hok : ∀ node ∈ files.head, member_ok w node = true) :
    append_files_to_archive w (some old) files buffer
      = Outcome.returned 0
          (some (old.take (old.length - 1024) ++ layout w files.head ++ zeros 1024)) := by
  have hloop := helper_loop_ok w files.head buffer (old.take (old.length - 1024)) hterm hok
  rw [← take_size_of_eq files hsize] at hloop
  rw [append_of_loop w old files buffer _ hlen hloop, take_size_of_eq files hsize]

theorem append_short (w : World) (old : List Nat) (files : file_list_t) (buffer : List Nat)
    (hlen : old.length < 1024) :
    append_files_to_archive w (some old) files buffer = Outcome.returned (-1) (some old) := by
  have hc : ¬ ('a' = 'c') := by decide
  simp only [append_files_to_archive, helper, hc, if_false, remove_trailing_bytes,
    Option.getD_some, MAX_MSG_LEN, NUM_TRAILING_BLOCKS, Nat.reduceMul, hlen, if_true]

/-! ## Facts about the file list -/

theorem file_list_add_head (list : file_list_t) (file_name : List Nat) :
    (file_list_add list file_name).head = list.head ++ [strncpy file_name MAX_NAME_LEN] := by
  unfold file_list_add
  split
  · rename_i h
    simp [h]
  · rfl

theorem file_list_add_size (list : file_list_t) (file_name : List Nat)
    (h : list.size = (list.head.length : Int)) :
    (file_list_add list file_name).size = list.size + 1 := by
  unfold file_list_add
  split
  · rename_i hnil
    rw [hnil] at h
    simp [h]
  · rfl

theorem foldl_file_list_add (names : List (List Nat)) : ∀ (acc : file_list_t),
    acc.size = (acc.head.length : Int) →
    (names.foldl file_list_add acc).head
        = acc.head ++ names.map (fun n => strncpy n MAX_NAME_LEN)
      ∧ (names.foldl file_list_add acc).size = acc.size + (names.length : Int) := by
  induction names with
  | nil => intro acc _; simp
  | cons n names ih =>
    intro acc h
    have hs := file_list_add_size acc n h
    have hh := file_list_add_head acc n
    have hinv : (file_list_add acc n).size = ((file_list_add acc n).head.length : Int) := by
      rw [hs, hh, h, List.length_append, List.length_singleton]
      push_cast
      rfl
    obtain ⟨h1, h2⟩ := ih (file_list_add acc n) hinv
    simp only [List.foldl_cons, h1, h2, hh, hs, List.map_cons, List.append_assoc,
      List.singleton_append, List.length_cons]
    constructor
    · trivial
    · push_cast
      omega

theorem file_list_of_head (names : List (List Nat)) :
    (file_list_of names).head = names.map (fun n => strncpy n MAX_NAME_LEN) := by
  have h := (foldl_file_list_add names file_list_init rfl).1
  simpa [file_list_of, file_list_init] using h

theorem file_list_of_size (names : List (List Nat)) :
    (file_list_of names).size = ((file_list_of names).head.length : Int) := by
  have h := (foldl_file_list_add names file_list_init rfl).2
  rw [file_list_of_head, List.length_map]
  simpa [file_list_of, file_list_init] using h

theorem file_list_of_nodes (names : List (List Nat)) :
    (file_list_of names).head.take (file_list_of names).size.toNat
      = names.map (fun n => strncpy n MAX_NAME_LEN) := by
  rw [take_size_of_eq _ (file_list_of_size names), file_list_of_head]

/-- Two strings known to their end are compared byte by byte. -/
theorem strcmp_eq_closed (a b : c_string) (ha : a.runs_on = false) (hb : b.runs_on = false) :
    strcmp_eq a b = some (decide (a.bytes = b.bytes)) := by
  simp [strcmp_eq, ha, hb]

/-- On a chain of nodes that all hold a terminator, a name known to its end is
found exactly when it is the name of a node. -/
theorem contains_loop_terminated (q : c_string) (hq : q.runs_on = false) :
    ∀ (nodes : List (List Nat)), (∀ node ∈ nodes, 0 ∈ node) →
    contains_loop q nodes = some (if q.bytes ∈ nodes.map cstr then 1 else 0) := by
  intro nodes
  induction nodes with
  | nil =>
    intro _
    simp [contains_loop]
  | cons node rest ih =>
    intro hterm
    have hrun := node_string_terminated node rest.isEmpty (hterm node (List.mem_cons_self _ _))
    have hcmp := strcmp_eq_closed (node_string node rest.isEmpty) q hrun hq
    have hbytes : (node_string node rest.isEmpty).bytes = cstr node := rfl
    rw [hbytes] at hcmp
    simp only [contains_loop, hcmp]
    by_cases heq : cstr node = q.bytes
    · simp [heq]
    · have hne : ¬ q.bytes = cstr node := fun h => heq h.symm
      simp only [heq, decide_False, List.map_cons, List.mem_cons, hne, false_or]
      exact ih (fun n hn => hterm n (List.mem_cons_of_mem _ hn))

theorem file_list_contains_terminated (list : file_list_t) (file_name : List Nat)
    (hterm : ∀ node ∈ list.head, 0 ∈ node) :
    file_list_contains list (arg_string file_name)
      = some (if cstr file_name ∈ list.names then 1 else 0) :=
  contains_loop_terminated (arg_string file_name) rfl list.head hterm

theorem sscanf_i_lower (field : List Nat) (old : Int) (h : -2147483648 ≤ old) :
    -2147483648 ≤ sscanf_i field old := by
  unfold sscanf_i
  split
  · split
    · exact (toInt32_range _).1
    · exact h
  · split
    · exact (toInt32_range _).1
    · exact h
  · split
    · exact (toInt32_range _).1
    · exact h

theorem list_loop_returns (a : List Nat) (end_ : Int) : ∀ (fuel : Nat) (pos : Int)
    (header : List Nat) (size : Int) (files : file_list_t),
    0 < fuel → -2147483648 ≤ size →
    end_ + 2147483648 - 1024 - pos ≤ 512 * ((fuel : Int) - 1) →
    ∃ fl, list_loop a end_ fuel pos header size files = Outcome.returned 0 fl := by
  intro fuel
  induction fuel with
  | zero => intro _ _ _ _ h; exact absurd h (by decide)
  | succ k ih =>
    intro pos header size files _ hsize hfuel
    unfold list_loop
    by_cases hc : pos + size + ((MAX_MSG_LEN * 2 : Nat) : Int) < end_
    · simp only [hc, if_true]
      have hc2 : pos + size + 1024 < end_ := by simpa [MAX_MSG_LEN] using hc
      have hk : 0 < k := by
        push_cast at hfuel
        omega
      by_cases h1 : size ≤ ((MAX_MSG_LEN : Nat) : Int)
      · simp only [h1, if_true]
        apply ih _ _ _ _ hk (sscanf_i_lower _ _ hsize)
        simp only [MAX_MSG_LEN]
        push_cast at hfuel ⊢
        omega
      · simp only [h1, if_false]
        have h1b : 512 < size := by simpa [MAX_MSG_LEN] using h1
        by_cases h2 : size % ((MAX_MSG_LEN : Nat) : Int) = 0
        · simp only [h2, if_true]
          apply ih _ _ _ _ hk (sscanf_i_lower _ _ hsize)
          push_cast at hfuel ⊢
          omega
        · simp only [h2, if_false]
          apply ih _ _ _ _ hk (sscanf_i_lower _ _ hsize)
          simp only [MAX_MSG_LEN]
          push_cast at hfuel ⊢
          omega
    · simp only [hc, if_false]
      exact ⟨files, rfl⟩

/-- On an archive that exists the lister always returns: 0 with the list, or
-1 when `ftell` seems to fail. -/
theorem get_archive_file_list_returns (a : List Nat) (files : file_list_t) (header : List Nat)
    (size : Int) :
    get_archive_file_list (some a) files header size = Outcome.returned (-1) files
      ∨ ∃ fl, get_archive_file_list (some a) files header size = Outcome.returned 0 fl := by
  unfold get_archive_file_list
  by_cases h : toInt32 (a.length : Int) = -1
  · left
    simp only [h, if_true]
  · right
    simp only [h, if_false]
    apply list_loop_returns
    · decide
    · exact sscanf_i_lower _ _ (toInt32_range _).1
    · have := (toInt32_range (a.length : Int)).2
      simp only [LOOP_BUDGET]
      push_cast
      omega

/-! ## The update mode -/

theorem copy_loop_buffer_indep (fuel : Nat) : ∀ (size : Int) (rest b b2 out : List Nat),
    size ≤ (rest.length : Int) →
    (copy_loop fuel size rest b out).2 = (copy_loop fuel size rest b2 out).2 := by
  induction fuel with
  | zero => intro size rest b b2 out _; rfl
  | succ k ih =>
    intro size rest b b2 out hle
    unfold copy_loop
    by_cases hpos : size > 0
    · simp only [hpos, if_true]
      by_cases hfull : size ≥ ((MAX_MSG_LEN : Nat) : Int)
      · simp only [hfull, if_true]
        have hlen : 512 ≤ rest.length := by
          simp only [MAX_MSG_LEN] at hfull
          omega
        rw [take_fread_full b rest MAX_MSG_LEN hlen, take_fread_full b2 rest MAX_MSG_LEN hlen]
        apply ih
        simp only [MAX_MSG_LEN, List.length_drop]
        omega
      · simp only [hfull, if_false]
    · simp only [hpos, if_false]

theorem helper_loop_buffer_indep (w : World) : ∀ (nodes : List (List Nat)) (b b2 out : List Nat),
    helper_loop w nodes b out = helper_loop w nodes b2 out := by
  intro nodes
  induction nodes with
  | nil => intro b b2 out; rfl
  | cons node nodes ih =>
    intro b b2 out
    by_cases hrun : (node_string node nodes.isEmpty).runs_on = true
    · simp only [helper_loop, hrun, if_true]
    · have hrun2 : (node_string node nodes.isEmpty).runs_on = false := by simpa using hrun
      cases hl : w.files.lookup (cstr node) with
      | none => simp only [helper_loop, hrun2, Bool.false_eq_true, if_false, hl]
      | some f =>
        cases hh : fill_tar_header w node with
        | none => simp only [helper_loop, hrun2, Bool.false_eq_true, if_false, hl, hh]
        | some hdr =>
          simp only [helper_loop, hrun2, Bool.false_eq_true, if_false, hl, hh]
          rw [copy_loop_buffer_indep _ _ _ b b2 _ (toInt32_le_self _)]
          split
          · rfl
          · exact ih _ _ _

/-- The loop over two lists joined goes on with the second where the loop over
the first ended, when the names of the first are read to their end wherever
their nodes stand. -/
theorem helper_loop_append (w : World) : ∀ (ns1 : List (List Nat)) (b out r : List Nat),
    (∀ node ∈ ns1, 0 ∈ node) →
    helper_loop w ns1 b out = Outcome.returned 0 r →
    ∀ ns2, helper_loop w (ns1 ++ ns2) b out = helper_loop w ns2 b r := by
  intro ns1
  induction ns1 with
  | nil =>
    intro b out r _ h ns2
    simp only [helper_loop, Outcome.returned.injEq, true_and] at h
    rw [h]
    rfl
  | cons node nodes ih =>
    intro b out r hterm h ns2
    rw [List.cons_append]
    have h0 := hterm node (List.mem_cons_self _ _)
    have hrun1 := node_string_terminated node nodes.isEmpty h0
    have hrun2 := node_string_terminated node (nodes ++ ns2).isEmpty h0
    cases hl : w.files.lookup (cstr node) with
    | none =>
      simp only [helper_loop, hrun1, Bool.false_eq_true, if_false, hl] at h
      exact absurd h (by simp)
    | some f =>
      cases hh : fill_tar_header w node with
      | none =>
        simp only [helper_loop, hrun1, Bool.false_eq_true, if_false, hl, hh] at h
        exact absurd h (by simp)
      | some hdr =>
        simp only [helper_loop, hrun1, hrun2, Bool.false_eq_true, if_false, hl, hh] at h ⊢
        by_cases hne : toInt32 (f.content.length : Int) = -1
        · simp only [hne, if_true] at h
          exact absurd h (by simp)
        · simp only [hne, if_false] at h ⊢
          rw [ih _ _ _ (fun n hn => hterm n (List.mem_cons_of_mem _ hn)) h ns2]
          exact helper_loop_buffer_indep w ns2 _ _ _

theorem finish_archive_of_ne (rc : Int) (out : List Nat) (h : rc ≠ 0) :
    finish_archive (Outcome.returned rc out) = Outcome.returned (-1) (some out) := by
  simp [finish_archive, h]

theorem finish_archive_idem (o : Outcome (List Nat)) :
    (match finish_archive o with
      | Outcome.returned 0 a => Outcome.returned 0 a
      | Outcome.returned _ a => Outcome.returned (-1) a
      | o2 => o2) = finish_archive o := by
  cases o with
  | returned rc out =>
    by_cases h : rc = 0
    · subst h; rfl
    · rw [finish_archive_of_ne rc out h]
      rfl
  | undefined out => rfl
  | out_of_fuel => rfl

theorem create_archive_eq_finish (w : World) (archive : Option (List Nat)) (files : file_list_t)
    (buffer : List Nat) :
    create_archive w archive files buffer
      = finish_archive (helper_loop w (files.head.take files.size.toNat) buffer []) := by
  have h : helper w archive files 'c' buffer
      = finish_archive (helper_loop w (files.head.take files.size.toNat) buffer []) := by
    simp only [helper, if_true, finish_archive]
  unfold create_archive
  rw [h]
  exact finish_archive_idem _

theorem append_eq_finish (w : World) (old : List Nat) (files : file_list_t) (buffer : List Nat)
    (hlen : 1024 ≤ old.length) :
    append_files_to_archive w (some old) files buffer
      = finish_archive (helper_loop w (files.head.take files.size.toNat) buffer
          (old.take (old.length - 1024))) := by
  have hlt : ¬ old.length < 1024 := by omega
  have hc : ¬ ('a' = 'c') := by decide
  have h : helper w (some old) files 'a' buffer
      = finish_archive (helper_loop w (files.head.take files.size.toNat) buffer
          (old.take (old.length - 1024))) := by
    simp only [helper, hc, if_false, remove_trailing_bytes, Option.getD_some, MAX_MSG_LEN,
      NUM_TRAILING_BLOCKS, Nat.reduceMul, hlt, finish_archive]
  unfold append_files_to_archive
  rw [h]
  exact finish_archive_idem _

theorem finish_archive_returned_zero (o : Outcome (List Nat)) (a : Option (List Nat))
    (h : finish_archive o = Outcome.returned 0 a) :
    ∃ out, o = Outcome.returned 0 out ∧ a = some (out ++ zeros 1024) := by
  cases o with
  | returned rc out =>
    by_cases hrc : rc = 0
    · subst hrc
      refine ⟨out, rfl, ?_⟩
      simp only [finish_archive, Outcome.returned.injEq, true_and, footer_eq] at h
      exact h.symm
    · rw [finish_archive_of_ne rc out hrc] at h
      exact absurd (Outcome.returned.inj h).1 (by decide)
  | undefined out => simp [finish_archive] at h
  | out_of_fuel => simp [finish_archive] at h

/-- A name shorter than the array leaves a terminator in it. -/
theorem strncpy_terminated (name : List Nat) (n : Nat) (h : (cstr name).length < n) :
    0 ∈ strncpy name n := by
  unfold strncpy
  rw [List.take_of_length_le (Nat.le_of_lt h)]
  apply List.mem_append_right
  unfold zeros
  rw [List.mem_replicate]
  exact ⟨by omega, rfl⟩

theorem nodes_terminated (names : List (List Nat))
    (h : ∀ name ∈ names, (cstr name).length < MAX_NAME_LEN) :
    ∀ node ∈ names.map (fun n => strncpy n MAX_NAME_LEN), 0 ∈ node := by
  intro node hnode
  obtain ⟨name, hname, rfl⟩ := List.mem_map.mp hnode
  exact strncpy_terminated name MAX_NAME_LEN (h name hname)

/-- An append to the archive a successful create left ends as the create of
the two lists joined does, when the names of the first list are shorter than
`MAX_NAME_LEN`. -/
theorem append_after_create (w : World) (archive : Option (List Nat))
    (fs0 fs1 : List (List Nat)) (b0 b1 : List Nat) (a0 : Option (List Nat))
    (hshort : ∀ name ∈ fs0, (cstr name).length < MAX_NAME_LEN)
    (h : create_archive w archive (file_list_of fs0) b0 = Outcome.returned 0 a0) :
    append_files_to_archive w a0 (file_list_of fs1) b1
      = create_archive w archive (file_list_of (fs0 ++ fs1)) b0 := by
  rw [create_archive_eq_finish] at h
  obtain ⟨out, hloop, ha⟩ := finish_archive_returned_zero _ _ h
  subst ha
  have hlen : 1024 ≤ (out ++ zeros 1024).length := by
    rw [List.length_append, length_zeros]
    omega
  have htake : (out ++ zeros 1024).take ((out ++ zeros 1024).length - 1024) = out := by
    rw [List.length_append, length_zeros, Nat.add_sub_cancel, List.take_left]
  rw [append_eq_finish w _ _ _ hlen, create_archive_eq_finish, htake, file_list_of_nodes,
    file_list_of_nodes, List.map_append]
  rw [file_list_of_nodes] at hloop
  rw [helper_loop_append w _ _ _ _ (nodes_terminated fs0 hshort) hloop,
    helper_loop_buffer_indep w _ b1 b0]

theorem mem_all_members : ∀ (steps : List (List (List Nat) × List Nat))
    (fs0 : List (List Nat)) (name : List Nat),
    name ∈ fs0 → name ∈ all_members fs0 steps := by
  intro steps
  induction steps with
  | nil => intro fs0 name h; exact h
  | cons step steps ih =>
    intro fs0 name h
    exact ih (fs0 ++ step.1) name (List.mem_append_left _ h)

theorem create_then_appends (w : World) (archive : Option (List Nat)) (b0 : List Nat) :
    ∀ (steps : List (List (List Nat) × List Nat)) (fs0 : List (List Nat))
      (a : Option (List Nat)),
    (∀ name ∈ all_members fs0 steps, (cstr name).length < MAX_NAME_LEN) →
    append_all w (create_archive w archive (file_list_of fs0) b0) steps = Outcome.returned 0 a →
    create_archive w archive (file_list_of (all_members fs0 steps)) b0
      = Outcome.returned 0 a := by
  intro steps
  induction steps with
  | nil =>
    intro fs0 a _ h
    simpa [append_all, all_members] using h
  | cons step steps ih =>
    intro fs0 a hshort h
    have hshort0 : ∀ name ∈ fs0, (cstr name).length < MAX_NAME_LEN :=
      fun name hname => hshort name (mem_all_members (step :: steps) fs0 name hname)
    cases hc : create_archive w archive (file_list_of fs0) b0 with
    | returned rc a0 =>
      rw [hc] at h
      by_cases hrc : rc = 0
      · subst hrc
        simp only [append_all] at h
        rw [append_after_create w archive fs0 step.1 b0 step.2 a0 hshort0 hc] at h
        exact ih (fs0 ++ step.1) a hshort h
      · rw [append_all] at h
        · exact absurd (Outcome.returned.inj h).1 hrc
        · intro a1 heq
          exact hrc (Outcome.returned.inj heq).1
    | undefined a0 =>
      rw [hc] at h
      simp [append_all] at h
    | out_of_fuel =>
      rw [hc] at h
      simp [append_all] at h

/-! ## The writer: layout, size, append -/

/-- C5 (as amended): for every list of member files that can be archived, each
shorter than `2^31` bytes and with a name shorter than `MAX_NAME_LEN` bytes (so
that its node holds the terminator), `create_archive` returns 0 and the
archive is, for each member in the order of the list, its header, its content
and zero bytes up to the next multiple of 512, followed by 1024 zero bytes;
every header is 512 bytes long.  The empty list is included. -/
theorem create_archive_layout (w : World) (archive : Option (List Nat)) (files : file_list_t)
    (buffer : List Nat) (hsize : files.size = (files.head.length : Int))
    (hterm : ∀ node ∈ files.head, 0 ∈ node)
    (hok : ∀ node ∈ files.head, member_ok w node = true) :
    create_archive w archive files buffer
        = Outcome.returned 0 (some (layout w files.head ++ zeros 1024))
      ∧ ∀ node ∈ files.head, ∀ h, fill_tar_header w node = some h → h.bytes.length = 512 :=
  ⟨create_archive_ok w archive files buffer hsize hterm hok,
    fun node _ h hh => length_bytes_fill_tar_header w node h hh⟩

/-- C6 (as amended): for every list of member files that can be archived, each
shorter than `2^31` bytes and with a name shorter than `MAX_NAME_LEN` bytes (so
that its node holds the terminator), the archive `create_archive` writes has
length `sum (512 + ceil(s_i / 512) * 512) + 1024`. -/
theorem create_archive_size (w : World) (archive : Option (List Nat)) (files : file_list_t)
    (buffer : List Nat) (hsize : files.size = (files.head.length : Int))
    (hterm : ∀ node ∈ files.head, 0 ∈ node)
    (hok : ∀ node ∈ files.head, member_ok w node = true) :
    ∃ a, create_archive w archive files buffer = Outcome.returned 0 (some a)
      ∧ a.length
        = (files.head.map (fun node => 512 + padded_size (member_size w node))).sum + 1024 := by
  refine ⟨_, create_archive_ok w archive files buffer hsize hterm hok, ?_⟩
  rw [List.length_append, length_zeros, length_layout w files.head hok]

/-- C7 (as amended): for every archive of length `n ≥ 1024` and every list of
member files that can be archived, each shorter than `2^31` bytes and with a
name shorter than `MAX_NAME_LEN` bytes (so that its node holds the
terminator), `append_files_to_archive` returns 0, the first `n - 1024` bytes of
the archive are unchanged, the records of the members follow in order, then
1024 zero bytes; the length grows by `sum (512 + ceil(s_i / 512) * 512)`. -/
theorem append_keeps_entries (w : World) (old : List Nat) (files : file_list_t)
    (buffer : List Nat) (hlen : 1024 ≤ old.length)
    (hsize : files.size = (files.head.length : Int))
    (hterm : ∀ node ∈ files.head, 0 ∈ node)
    (hok : ∀ node ∈ files.head, member_ok w node = true) :
    ∃ a, append_files_to_archive w (some old) files buffer = Outcome.returned 0 (some a)
      ∧ a = old.take (old.length - 1024) ++ layout w files.head ++ zeros 1024
      ∧ a.take (old.length - 1024) = old.take (old.length - 1024)
      ∧ a.length
        = old.length + (files.head.map (fun node => 512 + padded_size (member_size w node))).sum := by
  refine ⟨_, append_ok w old files buffer hlen hsize hterm hok, rfl, ?_, ?_⟩
  · rw [List.append_assoc, List.take_append_of_le_length (by simp [List.length_take]),
      List.take_take, Nat.min_self]
  · simp only [List.length_append, length_zeros, length_layout w files.head hok,
      List.length_take]
    omega

/-- C9: for every existing archive shorter than 1024 bytes and every member
list, `append_files_to_archive` returns -1 and the bytes of the archive are
unchanged. -/
theorem append_too_small_fails (w : World) (old : List Nat) (files : file_list_t)
    (buffer : List Nat) (hlen : old.length < 1024) :
    append_files_to_archive w (some old) files buffer = Outcome.returned (-1) (some old) :=
  append_short w old files buffer hlen

theorem sample_size_ok : (file_list_of [name_x, name_y]).size
    = ((file_list_of [name_x, name_y]).head.length : Int) := by decide

theorem sample_members_ok :
    ∀ node ∈ (file_list_of [name_x, name_y]).head, member_ok world_xyz node = true := by decide!

theorem sample_nodes_terminated :
    ∀ node ∈ (file_list_of [name_x, name_y]).head, 0 ∈ node := by decide

theorem helper_loop_single_wrapped (w : World) (node : List Nat) (f : file_t) (hdr : tar_header)
    (buffer out : List Nat) (hl : w.files.lookup (cstr node) = some f)
    (hh : fill_tar_header w node = some hdr) (hneg : toInt32 (f.content.length : Int) ≤ 0)
    (hne : toInt32 (f.content.length : Int) ≠ -1) :
    helper_loop w [node] buffer out = Outcome.returned 0 (out ++ hdr.bytes) := by
  have hrun : (node_string node ([] : List (List Nat)).isEmpty).runs_on = false :=
    node_string_last node
  simp only [helper_loop, hrun, Bool.false_eq_true, hl, hh, hne, if_false,
    copy_loop_nonpos _ _ hneg]

theorem big_lookup :
    world_big.files.lookup (cstr (strncpy name_x MAX_NAME_LEN))
      = some (sample_file (List.replicate 2147483648 0)) := by
  rfl

theorem big_header : (fill_tar_header world_big (strncpy name_x MAX_NAME_LEN)).isSome = true := by
  rfl

theorem big_size :
    toInt32 ((sample_file (List.replicate 2147483648 0)).content.length : Int) = -2147483648 := by
  show toInt32 ((List.replicate 2147483648 0).length : Int) = -2147483648
  rw [List.length_replicate]
  decide

theorem big_nodes :
    (file_list_of [name_x]).head.take (file_list_of [name_x]).size.toNat
      = [strncpy name_x MAX_NAME_LEN] := by
  decide

theorem big_head : (file_list_of [name_x]).head = [strncpy name_x MAX_NAME_LEN] := by
  decide

theorem big_member_size : member_size world_big (strncpy name_x MAX_NAME_LEN) = 2147483648 := by
  unfold member_size
  rw [big_lookup]
  show (List.replicate 2147483648 0).length = 2147483648
  rw [List.length_replicate]

theorem big_loop (out : List Nat) (buffer : List Nat) :
    ∃ hdr, fill_tar_header world_big (strncpy name_x MAX_NAME_LEN) = some hdr
      ∧ hdr.bytes.length = 512
      ∧ helper_loop world_big [strncpy name_x MAX_NAME_LEN] buffer out
          = Outcome.returned 0 (out ++ hdr.bytes) := by
  obtain ⟨hdr, hh⟩ := Option.isSome_iff_exists.mp big_header
  refine ⟨hdr, hh, length_bytes_fill_tar_header _ _ _ hh, ?_⟩
  apply helper_loop_single_wrapped world_big _ _ hdr buffer out big_lookup hh
  · rw [big_size]; decide
  · rw [big_size]; decide

theorem big_create :
    ∃ hdr, fill_tar_header world_big (strncpy name_x MAX_NAME_LEN) = some hdr
      ∧ hdr.bytes.length = 512
      ∧ create_archive world_big none (file_list_of [name_x]) []
          = Outcome.returned 0 (some (hdr.bytes ++ zeros 1024)) := by
  obtain ⟨hdr, hh, hlen, hloop⟩ := big_loop [] []
  refine ⟨hdr, hh, hlen, ?_⟩
  rw [← big_nodes] at hloop
  rw [create_archive_of_loop world_big none (file_list_of [name_x]) [] _ hloop]
  simp

theorem big_sum : ((file_list_of [name_x]).head.map
    (fun node => 512 + padded_size (member_size world_big node))).sum = 512 + 2147483648 := by
  rw [big_head]
  simp only [List.map_cons, List.map_nil, List.sum_cons, List.sum_nil, big_member_size]
  rfl

theorem big_record_length :
    2147483648 ≤ (layout world_big (file_list_of [name_x]).head).length := by
  obtain ⟨hdr, hh, _, _⟩ := big_loop [] []
  rw [big_head]
  simp only [layout, record, hh, big_lookup, List.length_append, List.length_nil]
  have : (sample_file (List.replicate 2147483648 0)).content.length = 2147483648 := by
    show (List.replicate 2147483648 0).length = 2147483648
    rw [List.length_replicate]
  omega

/-- C5, counterexample: a member of `2^31` bytes.  `create_archive` returns 0
and the archive is the header followed at once by the 1024 zero bytes: the
content is not in it. -/
theorem create_archive_layout_fails_for_big_member :
    (∃ hdr, fill_tar_header world_big (strncpy name_x MAX_NAME_LEN) = some hdr
      ∧ create_archive world_big none (file_list_of [name_x]) []
          = Outcome.returned 0 (some (hdr.bytes ++ zeros 1024)))
    ∧ create_archive world_big none (file_list_of [name_x]) []
        ≠ Outcome.returned 0
            (some (layout world_big (file_list_of [name_x]).head ++ zeros 1024)) := by
  obtain ⟨hdr, hh, hlen, hc⟩ := big_create
  refine ⟨⟨hdr, hh, hc⟩, ?_⟩
  rw [hc]
  intro heq
  have h1 := congrArg List.length (Option.some.inj (Outcome.returned.inj heq).2)
  have h2 := big_record_length
  simp only [List.length_append, length_zeros, hlen] at h1
  omega

/-- C6, counterexample: for a member of `2^31` bytes the archive written has
1536 bytes, not `512 + 2^31 + 1024`. -/
theorem create_archive_size_fails_for_big_member :
    ∃ a, create_archive world_big none (file_list_of [name_x]) [] = Outcome.returned 0 (some a)
      ∧ a.length = 1536
      ∧ a.length ≠ ((file_list_of [name_x]).head.map
          (fun node => 512 + padded_size (member_size world_big node))).sum + 1024 := by
  obtain ⟨hdr, _, hlen, hc⟩ := big_create
  refine ⟨_, hc, ?_, ?_⟩
  · rw [List.length_append, length_zeros, hlen]
  · rw [List.length_append, length_zeros, hlen, big_sum]
    decide

/-- C7, counterexample: appending a member of `2^31` bytes to an archive of
1024 bytes succeeds and makes the archive grow by 512 bytes only. -/
theorem append_growth_fails_for_big_member :
    ∃ a, append_files_to_archive world_big (some (zeros 1024)) (file_list_of [name_x]) []
        = Outcome.returned 0 (some a)
      ∧ a.length = 1024 + 512
      ∧ a.length ≠ (zeros 1024).length + ((file_list_of [name_x]).head.map
          (fun node => 512 + padded_size (member_size world_big node))).sum := by
  obtain ⟨hdr, _, hlen, hloop⟩ := big_loop (List.take ((zeros 1024).length - 1024) (zeros 1024)) []
  rw [← big_nodes] at hloop
  have hc := append_of_loop world_big (zeros 1024) (file_list_of [name_x]) [] _
    (by rw [length_zeros]) hloop
  have hl : (List.take ((zeros 1024).length - 1024) (zeros 1024) ++ hdr.bytes ++ zeros 1024).length
      = 1536 := by
    simp only [List.length_append, length_zeros, hlen, List.length_take]
    rfl
  refine ⟨_, hc, ?_, ?_⟩
  · rw [hl]
  · rw [hl, big_sum, length_zeros]
    decide

/-- C5, witness: `x` of 5 bytes and `y` of 600 bytes. -/
theorem create_archive_layout_witness :
    (file_list_of [name_x, name_y]).size = ((file_list_of [name_x, name_y]).head.length : Int)
    ∧ (∀ node ∈ (file_list_of [name_x, name_y]).head, 0 ∈ node)
    ∧ (∀ node ∈ (file_list_of [name_x, name_y]).head, member_ok world_xyz node = true)
    ∧ (create_archive world_xyz none (file_list_of [name_x, name_y]) []
        = Outcome.returned 0
          (some (layout world_xyz (file_list_of [name_x, name_y]).head ++ zeros 1024))
      ∧ ∀ node ∈ (file_list_of [name_x, name_y]).head, ∀ h,
          fill_tar_header world_xyz node = some h → h.bytes.length = 512) :=
  ⟨sample_size_ok, sample_nodes_terminated, sample_members_ok,
    create_archive_layout world_xyz none (file_list_of [name_x, name_y]) [] sample_size_ok
      sample_nodes_terminated sample_members_ok⟩

/-- C6, witness: for `x` of 5 bytes and `y` of 600 bytes the archive has 3584
bytes. -/
theorem create_archive_size_witness :
    (file_list_of [name_x, name_y]).size = ((file_list_of [name_x, name_y]).head.length : Int)
    ∧ (∀ node ∈ (file_list_of [name_x, name_y]).head, 0 ∈ node)
    ∧ (∀ node ∈ (file_list_of [name_x, name_y]).head, member_ok world_xyz node = true)
    ∧ ((file_list_of [name_x, name_y]).head.map
        (fun node => 512 + padded_size (member_size world_xyz node))).sum + 1024 = 3584
    ∧ ∃ a, create_archive world_xyz none (file_list_of [name_x, name_y]) []
          = Outcome.returned 0 (some a)
        ∧ a.length = ((file_list_of [name_x, name_y]).head.map
            (fun node => 512 + padded_size (member_size world_xyz node))).sum + 1024 :=
  ⟨sample_size_ok, sample_nodes_terminated, sample_members_ok, by decide!,
    create_archive_size world_xyz none (file_list_of [name_x, name_y]) [] sample_size_ok
      sample_nodes_terminated sample_members_ok⟩

/-- C7, witness: appending the empty file `z` to the archive of `x` and `y`,
3584 bytes long, adds 512 bytes. -/
theorem append_keeps_entries_witness :
    1024 ≤ (archive_xy.getD []).length
    ∧ (file_list_of [name_z]).size = ((file_list_of [name_z]).head.length : Int)
    ∧ (∀ node ∈ (file_list_of [name_z]).head, 0 ∈ node)
    ∧ (∀ node ∈ (file_list_of [name_z]).head, member_ok world_xyz node = true)
    ∧ (archive_xy.getD []).length = 3584
    ∧ ((file_list_of [name_z]).head.map
        (fun node => 512 + padded_size (member_size world_xyz node))).sum = 512
    ∧ ∃ a, append_files_to_archive world_xyz (some (archive_xy.getD [])) (file_list_of [name_z]) []
          = Outcome.returned 0 (some a)
        ∧ a = (archive_xy.getD []).take ((archive_xy.getD []).length - 1024)
            ++ layout world_xyz (file_list_of [name_z]).head ++ zeros 1024
        ∧ a.take ((archive_xy.getD []).length - 1024)
            = (archive_xy.getD []).take ((archive_xy.getD []).length - 1024)
        ∧ a.length = (archive_xy.getD []).length + ((file_list_of [name_z]).head.map
            (fun node => 512 + padded_size (member_size world_xyz node))).sum :=
  ⟨by decide!, by decide, by decide, by decide!, by decide!, by decide!,
    append_keeps_entries world_xyz (archive_xy.getD []) (file_list_of [name_z]) []
      (by decide!) (by decide) (by decide) (by decide!)⟩

/-- C9, witness: an archive of 1023 bytes. -/
theorem append_too_small_fails_witness :
    (zeros 1023).length < 1024
    ∧ append_files_to_archive world_xyz (some (zeros 1023)) (file_list_of [name_z]) []
        = Outcome.returned (-1) (some (zeros 1023)) :=
  ⟨by rw [length_zeros]; decide,
    append_too_small_fails world_xyz (zeros 1023) (file_list_of [name_z]) []
      (by rw [length_zeros]; decide)⟩

/-! ## The reader on the scenarios of the specification -/

/-- C1, failing input: the single member `x` of length 0, and of length 512.
The archive is written, and the extractor leaves its loop before the first
pass: no file `x` is written.  With `x` of 5 bytes in front of `y` of 512
bytes the extractor returns 0 and has written `x` only. -/
theorem roundtrip_loses_block_aligned_member :
    create_archive (world_x []) none (file_list_of [name_x]) []
        = Outcome.returned 0 (archive_x [])
      ∧ (archive_x []).map List.length = some 1536
      ∧ extract_files_from_archive (archive_x []) [] [] [] 0 = Outcome.undefined []
      ∧ create_archive (world_x (List.replicate 512 97)) none (file_list_of [name_x]) []
        = Outcome.returned 0 (archive_x (List.replicate 512 97))
      ∧ (archive_x (List.replicate 512 97)).map List.length = some 2048
      ∧ extract_files_from_archive (archive_x (List.replicate 512 97)) [] [] [] 0
        = Outcome.undefined []
      ∧ create_archive world_x_y512 none (file_list_of [name_x, name_y]) []
        = Outcome.returned 0 archive_x_y512
      ∧ extract_files_from_archive archive_x_y512 [] [] [] 0
        = Outcome.returned 0 [(name_x, hello)] := by
  decide!

/-- C2, failing input: `x` of 5 bytes and `y` of 600 bytes.  The lister adds
three names: `x`, `y` and the empty name it reads from the first footer
block. -/
theorem list_after_create_adds_empty_name :
    create_archive world_xyz none (file_list_of [name_x, name_y]) []
        = Outcome.returned 0 archive_xy
      ∧ archive_xy.map List.length = some 3584
      ∧ get_archive_file_list archive_xy file_list_init [] 0
        = Outcome.returned 0
            { head := [strncpy name_x 32, strncpy name_y 32, zeros 32], size := 3 }
      ∧ listed_names archive_xy locals0 = [name_x, name_y, []] := by
  decide!

/-- C3, failing input: the scenario.  After the append of the empty `z` the
list is `x, y, z`; after the update of `x` the lister steps over the second
header of `x` and takes its content block for a header: the fourth name is
`hello`, the content of `x`. -/
theorem list_after_update_misses_header :
    append_files_to_archive world_xyz archive_xy (file_list_of [name_z]) []
        = Outcome.returned 0 archive_xyz
      ∧ archive_xyz.map List.length = some 4096
      ∧ listed_names archive_xyz locals0 = [name_x, name_y, name_z]
      ∧ (main argv_update_x world_xyz { archive := archive_xyz, disk := [], stdout := [] }
          locals0).final.map (fun m => m.archive.map List.length) = some (some 5120)
      ∧ (main argv_update_x world_xyz { archive := archive_xyz, disk := [], stdout := [] }
          locals0).final.map (fun m => listed_names m.archive locals0)
        = some [name_x, name_y, name_z, hello] := by
  decide!

/-- C4, failing input: `x` holding `hello` is archived, then replaced by 512
bytes (or by nothing) and appended again.  The extractor writes the first
entry only and returns 0: `x` on disk is `hello`. -/
theorem extract_keeps_earlier_entry :
    (archive_x_twice (List.replicate 512 97)).map List.length = some 3072
      ∧ listed_names (archive_x_twice (List.replicate 512 97)) locals0 = [name_x, name_x]
      ∧ extract_files_from_archive (archive_x_twice (List.replicate 512 97)) [] [] [] 0
        = Outcome.returned 0 [(name_x, hello)]
      ∧ extract_files_from_archive (archive_x_twice []) [] [] [] 0
        = Outcome.returned 0 [(name_x, hello)] := by
  decide!

/-- C8 (as amended): for every member list `fs0` and every sequence of
appends, each with its member list, all names being shorter than
`MAX_NAME_LEN` bytes, when the create and every append return 0 the archive is
byte for byte the one `create_archive` writes for the lists joined: the output
of the member loop over all the members, followed by the 1024 zero bytes of
one footer. -/
theorem exactly_one_footer (w : World) (archive : Option (List Nat)) (fs0 : List (List Nat))
    (b0 : List Nat) (steps : List (List (List Nat) × List Nat)) (a : Option (List Nat))
    (hshort : ∀ name ∈ all_members fs0 steps, (cstr name).length < MAX_NAME_LEN)
    (h : append_all w (create_archive w archive (file_list_of fs0) b0) steps
      = Outcome.returned 0 a) :
    create_archive w archive (file_list_of (all_members fs0 steps)) b0 = Outcome.returned 0 a
      ∧ ∃ out, helper_loop w
            ((all_members fs0 steps).map (fun n => strncpy n MAX_NAME_LEN)) b0 []
          = Outcome.returned 0 out
        ∧ a = some (out ++ zeros 1024) := by
  have hc := create_then_appends w archive b0 steps fs0 a hshort h
  refine ⟨hc, ?_⟩
  rw [create_archive_eq_finish, file_list_of_nodes] at hc
  exact finish_archive_returned_zero _ _ hc

/-- C8, witness: the create with `x`, `y`, then the append of `z`, then the
append of `x`. -/
theorem exactly_one_footer_witness :
    (∀ name ∈ all_members [name_x, name_y] steps_z_x, (cstr name).length < MAX_NAME_LEN)
    ∧ append_all world_xyz (create_archive world_xyz none (file_list_of [name_x, name_y]) [])
        steps_z_x = Outcome.returned 0 archive_xyzx
    ∧ archive_xyzx.map List.length = some 5120
    ∧ create_archive world_xyz none
        (file_list_of (all_members [name_x, name_y] steps_z_x)) []
      = Outcome.returned 0 archive_xyzx
    ∧ ∃ out, helper_loop world_xyz
          ((all_members [name_x, name_y] steps_z_x).map (fun n => strncpy n MAX_NAME_LEN)) [] []
        = Outcome.returned 0 out
      ∧ archive_xyzx = some (out ++ zeros 1024) :=
  ⟨by decide, by decide!, by decide!,
    exactly_one_footer world_xyz none [name_x, name_y] [] steps_z_x archive_xyzx (by decide)
      (by decide!)⟩

/-- C8, counterexample: the create with the file of the 32-byte name, then the
append of `x`.  Both calls return 0, each with a list of one node, and leave
an archive of 3072 bytes.  In the single call with both members the node of
the 32-byte name is not the last one: `fopen` reads its name on into the
pointer `next`, and the call does not write that archive. -/
theorem one_create_differs_for_long_name :
    append_all world_name_32 (create_archive world_name_32 none (file_list_of [name_32]) [])
        [([name_x], [])] = Outcome.returned 0 archive_32_x
      ∧ archive_32_x.map List.length = some 3072
      ∧ all_members [name_32] [([name_x], [])] = [name_32, name_x]
      ∧ create_archive world_name_32 none
          (file_list_of (all_members [name_32] [([name_x], [])])) []
        = Outcome.undefined (some []) := by
  decide!

/-! ## The header: checksum and fixed fields -/

theorem compute_checksum_idem (h : tar_header) :
    compute_checksum (compute_checksum h) = compute_checksum h := by
  cases h
  simp only [compute_checksum]

theorem fill_tar_header_checksummed (w : World) (file_name : List Nat) (h : tar_header)
    (hfill : fill_tar_header w file_name = some h) : ∃ h0, h = compute_checksum h0 := by
  unfold fill_tar_header at hfill
  split at hfill
  · exact absurd hfill (by simp)
  · split at hfill
    · exact absurd hfill (by simp)
    · split at hfill
      · exact absurd hfill (by simp)
      · exact ⟨_, (Option.some.inj hfill).symm⟩

theorem sample_header_x :
    fill_tar_header world_xyz name_x = some (header_of world_xyz name_x) := by
  decide!

/-- C13: for every header `fill_tar_header` produces, running
`compute_checksum` again on it leaves the header as it is: the checksum field
computed anew equals the stored one, and so do the 512 bytes. -/
theorem checksum_fixed_point (w : World) (file_name : List Nat) (h : tar_header)
    (hfill : fill_tar_header w file_name = some h) :
    compute_checksum h = h ∧ (compute_checksum h).chksum = h.chksum
      ∧ (compute_checksum h).bytes = h.bytes := by
  obtain ⟨h0, rfl⟩ := fill_tar_header_checksummed w file_name h hfill
  rw [compute_checksum_idem]
  exact ⟨rfl, rfl, rfl⟩

/-- C13, witness: the header of `x` in the sample world. -/
theorem checksum_fixed_point_witness :
    fill_tar_header world_xyz name_x = some (header_of world_xyz name_x)
    ∧ compute_checksum (header_of world_xyz name_x) = header_of world_xyz name_x
    ∧ (compute_checksum (header_of world_xyz name_x)).chksum
        = (header_of world_xyz name_x).chksum
    ∧ (compute_checksum (header_of world_xyz name_x)).bytes
        = (header_of world_xyz name_x).bytes :=
  ⟨sample_header_x, checksum_fixed_point world_xyz name_x _ sample_header_x⟩

theorem fill_tar_header_eq (w : World) (file_name : List Nat) (h : tar_header)
    (hfill : fill_tar_header w file_name = some h) :
    ∃ f pw_name gr_name, w.files.lookup (cstr file_name) = some f
      ∧ w.passwd.lookup f.st_uid = some pw_name ∧ w.group.lookup f.st_gid = some gr_name
      ∧ h = compute_checksum (raw_header file_name f pw_name gr_name) := by
  unfold fill_tar_header at hfill
  split at hfill
  · exact absurd hfill (by simp)
  · rename_i f hf
    split at hfill
    · exact absurd hfill (by simp)
    · rename_i pw hpw
      split at hfill
      · exact absurd hfill (by simp)
      · rename_i gr hgr
        exact ⟨f, pw, gr, hf, hpw, hgr, (Option.some.inj hfill).symm⟩

theorem strncpy_magic : strncpy MAGIC 6 = [117, 115, 116, 97, 114, 0] := by
  decide

theorem ustar_sized_fill (w : World) (file_name : List Nat) (h : tar_header)
    (hfill : fill_tar_header w file_name = some h) : ustar_sized h := by
  obtain ⟨f, pw, gr, _, _, _, rfl⟩ := fill_tar_header_eq w file_name h hfill
  simp only [ustar_sized, compute_checksum, raw_header, length_strncpy, length_snprintf,
    length_zeros, List.length_cons, List.length_nil]
  decide

/-- The fields of a header lie in its bytes at the offsets of the struct. -/
theorem bytes_slices (h : tar_header) (hs : ustar_sized h) :
    h.bytes.take 100 = h.name
      ∧ (h.bytes.drop 100).take 8 = h.mode
      ∧ (h.bytes.drop 108).take 8 = h.uid
      ∧ (h.bytes.drop 116).take 8 = h.gid
      ∧ (h.bytes.drop 124).take 12 = h.size
      ∧ (h.bytes.drop 136).take 12 = h.mtime
      ∧ (h.bytes.drop 148).take 8 = h.chksum
      ∧ (h.bytes.drop 156).take 1 = [h.typeflag]
      ∧ (h.bytes.drop 157).take 100 = h.linkname
      ∧ (h.bytes.drop 257).take 6 = h.magic
      ∧ (h.bytes.drop 263).take 2 = h.version
      ∧ (h.bytes.drop 265).take 32 = h.uname
      ∧ (h.bytes.drop 297).take 32 = h.gname
      ∧ (h.bytes.drop 329).take 8 = h.devmajor
      ∧ (h.bytes.drop 337).take 8 = h.devminor
      ∧ (h.bytes.drop 345).take 155 = h.prefix_
      ∧ (h.bytes.drop 500).take 12 = h.padding := by
  cases h
  simp only [ustar_sized] at hs
  obtain ⟨h1, h2, h3, h4, h5, h6, h7, h8, h9, h10, h11, h12, h13, h14, h15, h16⟩ := hs
  simp only [tar_header.bytes, List.append_assoc, List.drop_append_eq_append_drop,
    List.take_append_eq_append_take, List.length_drop, List.length_take, List.length_cons,
    List.length_nil, h1, h2, h3, h4, h5, h6, h7, h8, h9, h10, h11, h12, h13, h14, h15, h16]
  simp [List.drop_eq_nil_of_le, List.take_of_length_le, h1, h2, h3, h4, h5, h6, h7, h8, h9,
    h10, h11, h12, h13, h14, h15, h16]

/-- C16: for every header `fill_tar_header` produces, `typeflag` is the
character `0`, `magic` is `ustar` and a NUL, `version` is the two characters
`00`, and `linkname`, `prefix` and `padding` are all zero bytes; these fields
lie at the offsets 156, 257, 263, 157, 345 and 500 of the 512 bytes. -/
theorem fixed_header_fields (w : World) (file_name : List Nat) (h : tar_header)
    (hfill : fill_tar_header w file_name = some h) :
    (h.typeflag = 48 ∧ h.magic = [117, 115, 116, 97, 114, 0] ∧ h.version = [48, 48]
      ∧ h.linkname = zeros 100 ∧ h.prefix_ = zeros 155 ∧ h.padding = zeros 12)
    ∧ ((h.bytes.drop 156).take 1 = [48]
      ∧ (h.bytes.drop 257).take 6 = [117, 115, 116, 97, 114, 0]
      ∧ (h.bytes.drop 263).take 2 = [48, 48]
      ∧ (h.bytes.drop 157).take 100 = zeros 100
      ∧ (h.bytes.drop 345).take 155 = zeros 155
      ∧ (h.bytes.drop 500).take 12 = zeros 12) := by
  have hs := bytes_slices h (ustar_sized_fill w file_name h hfill)
  obtain ⟨f, pw, gr, _, _, _, rfl⟩ := fill_tar_header_eq w file_name h hfill
  have hf : (compute_checksum (raw_header file_name f pw gr)).typeflag = 48
      ∧ (compute_checksum (raw_header file_name f pw gr)).magic = [117, 115, 116, 97, 114, 0]
      ∧ (compute_checksum (raw_header file_name f pw gr)).version = [48, 48]
      ∧ (compute_checksum (raw_header file_name f pw gr)).linkname = zeros 100
      ∧ (compute_checksum (raw_header file_name f pw gr)).prefix_ = zeros 155
      ∧ (compute_checksum (raw_header file_name f pw gr)).padding = zeros 12 :=
    ⟨rfl, strncpy_magic, rfl, rfl, rfl, rfl⟩
  refine ⟨hf, ?_, ?_, ?_, ?_, ?_, ?_⟩
  · rw [hs.2.2.2.2.2.2.2.1, hf.1]
  · rw [hs.2.2.2.2.2.2.2.2.2.1, hf.2.1]
  · rw [hs.2.2.2.2.2.2.2.2.2.2.1, hf.2.2.1]
  · rw [hs.2.2.2.2.2.2.2.2.1, hf.2.2.2.1]
  · rw [hs.2.2.2.2.2.2.2.2.2.2.2.2.2.2.2.1, hf.2.2.2.2.1]
  · rw [hs.2.2.2.2.2.2.2.2.2.2.2.2.2.2.2.2, hf.2.2.2.2.2]

/-- C16, witness: the header of `x` in the sample world. -/
theorem fixed_header_fields_witness :
    fill_tar_header world_xyz name_x = some (header_of world_xyz name_x)
    ∧ (((header_of world_xyz name_x).typeflag = 48
        ∧ (header_of world_xyz name_x).magic = [117, 115, 116, 97, 114, 0]
        ∧ (header_of world_xyz name_x).version = [48, 48]
        ∧ (header_of world_xyz name_x).linkname = zeros 100
        ∧ (header_of world_xyz name_x).prefix_ = zeros 155
        ∧ (header_of world_xyz name_x).padding = zeros 12)
      ∧ (((header_of world_xyz name_x).bytes.drop 156).take 1 = [48]
        ∧ ((header_of world_xyz name_x).bytes.drop 257).take 6 = [117, 115, 116, 97, 114, 0]
        ∧ ((header_of world_xyz name_x).bytes.drop 263).take 2 = [48, 48]
        ∧ ((header_of world_xyz name_x).bytes.drop 157).take 100 = zeros 100
        ∧ ((header_of world_xyz name_x).bytes.drop 345).take 155 = zeros 155
        ∧ ((header_of world_xyz name_x).bytes.drop 500).take 12 = zeros 12)) :=
  ⟨sample_header_x, fixed_header_fields world_xyz name_x _ sample_header_x⟩

/-! ## The file list: adding a name -/

theorem cstr_cons_ne (c : Nat) (s : List Nat) (hc : c ≠ 0) : cstr (c :: s) = c :: cstr s := by
  unfold cstr
  rw [List.takeWhile_cons]
  simp [hc]

theorem cstr_cons_nul (s : List Nat) : cstr (0 :: s) = [] := by
  unfold cstr
  rw [List.takeWhile_cons]
  simp

theorem cstr_append_nul (s rest : List Nat) (h : 0 ∉ s) : cstr (s ++ 0 :: rest) = s := by
  induction s with
  | nil => exact cstr_cons_nul rest
  | cons c s ih =>
    have hc : c ≠ 0 := fun hc => h (by simp [hc])
    have hs : 0 ∉ s := fun hs => h (List.mem_cons_of_mem _ hs)
    rw [List.cons_append, cstr_cons_ne _ _ hc, ih hs]

theorem cstr_of_no_nul (s : List Nat) (h : 0 ∉ s) : cstr s = s := by
  induction s with
  | nil => rfl
  | cons c s ih =>
    have hc : c ≠ 0 := fun hc => h (by simp [hc])
    have hs : 0 ∉ s := fun hs => h (List.mem_cons_of_mem _ hs)
    rw [cstr_cons_ne _ _ hc, ih hs]

theorem cstr_strncpy (name : List Nat) (n : Nat) (h0 : 0 ∉ name) (hlen : name.length < n) :
    cstr (strncpy name n) = name := by
  unfold strncpy
  rw [cstr_of_no_nul name h0, List.take_of_length_le (by omega)]
  obtain ⟨k, hk⟩ : ∃ k, n - name.length = k + 1 := ⟨n - name.length - 1, by omega⟩
  rw [hk]
  show cstr (name ++ List.replicate (k + 1) 0) = name
  rw [List.replicate_succ]
  exact cstr_append_nul name _ h0

/-- C20: for every list whose counter equals its number of nodes (as it does
after `file_list_init` and after every `file_list_add`) and every name that
fits the node (a C string of fewer than `MAX_NAME_LEN` bytes), a
`file_list_add` whose `malloc` succeeds returns 0, leaves the nodes already in
the list as they were and in their order, puts the name last, whether or not
it is in the list already, and adds 1 to the counter, which again equals the
number of nodes, as it does in the list `file_list_init` leaves. -/
theorem file_list_add_appends (list : file_list_t) (name : List Nat)
    (hinv : list.size = (list.head.length : Int)) (h0 : 0 ∉ name)
    (hfit : name.length < MAX_NAME_LEN) :
    (file_list_add_status true list name).1 = 0
      ∧ (file_list_add_status true list name).2 = file_list_add list name
      ∧ (file_list_add list name).head.take list.head.length = list.head
      ∧ (file_list_add list name).names = list.names ++ [name]
      ∧ (file_list_add list name).size = list.size + 1
      ∧ (file_list_add list name).size = ((file_list_add list name).head.length : Int)
      ∧ file_list_init.size = (file_list_init.head.length : Int) := by
  have hh := file_list_add_head list name
  have hs := file_list_add_size list name hinv
  refine ⟨rfl, rfl, ?_, ?_, hs, ?_, rfl⟩
  · rw [hh, List.take_left]
  · rw [file_list_t.names, hh, List.map_append, List.map_cons, List.map_nil,
      cstr_strncpy name MAX_NAME_LEN h0 hfit]
    rfl
  · rw [hs, hh, hinv, List.length_append, List.length_singleton]
    push_cast
    rfl

/-- C20, witness: `x` added to the list that holds `x` and `y`. -/
theorem file_list_add_appends_witness :
    (file_list_of [name_x, name_y]).size = ((file_list_of [name_x, name_y]).head.length : Int)
    ∧ 0 ∉ name_x ∧ name_x.length < MAX_NAME_LEN
    ∧ (file_list_of [name_x, name_y]).names = [name_x, name_y]
    ∧ ((file_list_add_status true (file_list_of [name_x, name_y]) name_x).1 = 0
      ∧ (file_list_add_status true (file_list_of [name_x, name_y]) name_x).2
          = file_list_add (file_list_of [name_x, name_y]) name_x
      ∧ (file_list_add (file_list_of [name_x, name_y]) name_x).head.take
          (file_list_of [name_x, name_y]).head.length = (file_list_of [name_x, name_y]).head
      ∧ (file_list_add (file_list_of [name_x, name_y]) name_x).names
          = (file_list_of [name_x, name_y]).names ++ [name_x]
      ∧ (file_list_add (file_list_of [name_x, name_y]) name_x).size
          = (file_list_of [name_x, name_y]).size + 1
      ∧ (file_list_add (file_list_of [name_x, name_y]) name_x).size
          = ((file_list_add (file_list_of [name_x, name_y]) name_x).head.length : Int)
      ∧ file_list_init.size = (file_list_init.head.length : Int)) :=
  ⟨by decide, by decide, by decide, by decide,
    file_list_add_appends (file_list_of [name_x, name_y]) name_x (by decide) (by decide)
      (by decide)⟩

/-! ## The copy loop of the writer -/

/-- C18 (as amended): for every content of size `s` with `0 ≤ s < 2^31`, the
copy loop of the writer, started as `helper` starts it with `size` the `int`
that holds `s`, emits the `s` content bytes followed by zero bytes up to
`ceil(s / 512)` blocks of 512 bytes: the bytes written number
`ceil(s / 512) * 512`, which is at least `s` and less than `s + 512`; for
`s = 0` nothing is written; and a larger loop budget changes nothing. -/
theorem copy_loop_blocks (content buffer out : List Nat)
    (hs : content.length < 2147483648) :
    (copy_loop (toInt32 content.length).toNat (toInt32 content.length) content buffer out).2
        = out ++ (content ++ zeros (padded_size content.length - content.length))
      ∧ (content ++ zeros (padded_size content.length - content.length)).length
        = (content.length + 511) / 512 * 512
      ∧ content.length ≤ (content.length + 511) / 512 * 512
      ∧ (content.length + 511) / 512 * 512 - content.length < 512
      ∧ (content.length = 0 →
        (copy_loop (toInt32 content.length).toNat (toInt32 content.length) content buffer
          out).2 = out)
      ∧ ∀ fuel, (toInt32 content.length).toNat ≤ fuel →
        copy_loop fuel (toInt32 content.length) content buffer out
          = copy_loop (toInt32 content.length).toNat (toInt32 content.length) content buffer
              out := by
  rw [toInt32_of_lt _ hs, Int.toNat_ofNat]
  have hc := copy_loop_content content.length content buffer out (le_refl _)
  have hp : content.length ≤ padded_size content.length := by
    unfold padded_size
    omega
  refine ⟨?_, ?_, ?_, ?_, ?_, ?_⟩
  · rw [hc, padded_size_sub, List.append_assoc]
  · rw [List.length_append, length_zeros]
    unfold padded_size at hp ⊢
    omega
  · omega
  · omega
  · intro h0
    have hnil : content = [] := List.eq_nil_of_length_eq_zero h0
    subst hnil
    rfl
  · intro fuel hfuel
    exact copy_loop_fuel fuel content.length _ _ _ _ (by simpa using hfuel) (by simp)

/-- C18, witness: the five bytes `hello` make one block. -/
theorem copy_loop_blocks_witness :
    hello.length < 2147483648
      ∧ (copy_loop (toInt32 hello.length).toNat (toInt32 hello.length) hello [] []).2
        = hello ++ zeros 507
      ∧ ((copy_loop (toInt32 hello.length).toNat (toInt32 hello.length) hello [] []).2
          = [] ++ (hello ++ zeros (padded_size hello.length - hello.length))
        ∧ (hello ++ zeros (padded_size hello.length - hello.length)).length
          = (hello.length + 511) / 512 * 512
        ∧ hello.length ≤ (hello.length + 511) / 512 * 512
        ∧ (hello.length + 511) / 512 * 512 - hello.length < 512
        ∧ (hello.length = 0 →
          (copy_loop (toInt32 hello.length).toNat (toInt32 hello.length) hello [] []).2 = [])
        ∧ ∀ fuel, (toInt32 hello.length).toNat ≤ fuel →
          copy_loop fuel (toInt32 hello.length) hello [] []
            = copy_loop (toInt32 hello.length).toNat (toInt32 hello.length) hello [] []) :=
  ⟨by decide, by decide!, copy_loop_blocks hello [] [] (by decide)⟩

/-- C18, counterexample: a content of `2^31` bytes.  The `int` that holds its
size is `-2^31`, the loop `while (size > 0)` does not run, and the copy loop
emits no block at all, where `ceil(s / 512)` is 4194304. -/
theorem copy_loop_emits_nothing_at_two_gib :
    (List.replicate 2147483648 0).length = 2147483648
      ∧ toInt32 ((List.replicate 2147483648 0).length : Int) = -2147483648
      ∧ (copy_loop (toInt32 ((List.replicate 2147483648 0).length : Int)).toNat
          (toInt32 ((List.replicate 2147483648 0).length : Int))
          (List.replicate 2147483648 0) [] []).2 = []
      ∧ (2147483648 + 511) / 512 = 4194304 := by
  have hlen : (List.replicate 2147483648 0).length = 2147483648 := List.length_replicate _ _
  have hint : toInt32 ((List.replicate 2147483648 0).length : Int) = -2147483648 := by
    rw [hlen]
    decide
  refine ⟨hlen, hint, ?_, by decide⟩
  rw [hint, copy_loop_nonpos _ _ (by decide)]

/-! ## The update mode: acceptance and exit status -/

/-- The loop of the update mode is the loop of `file_list_is_subset`. -/
theorem update_check_eq_subset (new_list : file_list_t) : ∀ (nodes : List (List Nat)),
    update_check new_list nodes
      = (subset_loop new_list nodes).map (fun r => decide (r = 1)) := by
  intro nodes
  induction nodes with
  | nil => rfl
  | cons node rest ih =>
    simp only [update_check, subset_loop]
    cases hc : file_list_contains new_list (node_string node rest.isEmpty) with
    | none => rfl
    | some r =>
      simp only
      by_cases hr : r = 0
      · rw [if_pos hr, if_pos hr]
        rfl
      · rw [if_neg hr, if_neg hr]
        exact ih

/-- On chains of nodes that all hold a terminator the subset loop is 1 exactly
when every name of the first chain is a name of the second list. -/
theorem subset_loop_terminated (l2 : file_list_t) (h2 : ∀ node ∈ l2.head, 0 ∈ node) :
    ∀ (nodes : List (List Nat)), (∀ node ∈ nodes, 0 ∈ node) →
    subset_loop l2 nodes
      = some (if ∀ name ∈ nodes.map cstr, name ∈ l2.names then 1 else 0) := by
  intro nodes
  induction nodes with
  | nil =>
    intro _
    simp [subset_loop]
  | cons node rest ih =>
    intro hterm
    have hrun := node_string_terminated node rest.isEmpty (hterm node (List.mem_cons_self _ _))
    have hc : file_list_contains l2 (node_string node rest.isEmpty)
        = some (if cstr node ∈ l2.names then 1 else 0) :=
      contains_loop_terminated (node_string node rest.isEmpty) hrun l2.head h2
    simp only [subset_loop, hc]
    by_cases hin : cstr node ∈ l2.names
    · have h10 : ¬ ((1 : Int) = 0) := by decide
      simp only [hin, if_true, h10, if_false, List.map_cons, List.forall_mem_cons, true_and]
      exact ih (fun n hn => hterm n (List.mem_cons_of_mem _ hn))
    · simp only [hin, if_false, if_true, List.map_cons, List.forall_mem_cons, false_and]

theorem file_list_is_subset_terminated (l1 l2 : file_list_t)
    (h1 : ∀ node ∈ l1.head, 0 ∈ node) (h2 : ∀ node ∈ l2.head, 0 ∈ node) :
    file_list_is_subset l1 l2
      = some (if ∀ name ∈ l1.names, name ∈ l2.names then 1 else 0) :=
  subset_loop_terminated l2 h2 l1.head h1

theorem main_update_eq (w : World) (m : Machine) (files : file_list_t) (l : Locals)
    (new_list : file_list_t) (hsize : files.size = (files.head.length : Int))
    (hlist : get_archive_file_list m.archive file_list_init l.header l.size
      = Outcome.returned 0 new_list) :
    main_update w m files l
      = match file_list_is_subset files new_list with
        | none => Outcome.undefined m
        | some r =>
          if r = 1 then report_append m (append_files_to_archive w m.archive files l.buffer)
          else Outcome.returned 0 m := by
  unfold main_update
  rw [hlist]
  simp only [take_size_of_eq files hsize, update_check_eq_subset]
  unfold file_list_is_subset
  cases hs : subset_loop new_list files.head with
  | none => rfl
  | some r =>
    by_cases hr : r = 1
    · simp only [Option.map_some', hr, decide_True, if_true]
      rfl
    · simp only [Option.map_some', hr, decide_False, if_false]

theorem main_eq_main_update (argv : List (List Nat)) (w : World) (m : Machine) (l : Locals)
    (hargc : 4 ≤ argv.length) (hmode : cstr (argv.getD 1 []) = [45, 117]) :
    main argv w m l = main_update w m (file_list_of (argv.drop 4)) l := by
  have hlen : ¬ argv.length < 4 := by omega
  unfold main
  rw [if_neg hlen]
  simp only [hmode]
  simp

/-- C12 (as amended): for every requested list and every archive the lister
returns a list for, the loop of the update mode is the loop of
`file_list_is_subset (requested, listed)`: `main` calls
`append_files_to_archive`, with the requested list, exactly when that call
returns 1, ends at once with nothing changed when it returns 0, and depends on
the bytes behind a name array without a terminator when the subset test does.
When all names, requested and listed, are shorter than `MAX_NAME_LEN` bytes,
the subset test returns 1 exactly when every requested name is among the
listed names, and 0 otherwise. -/
theorem update_acceptance (argv : List (List Nat)) (w : World) (m : Machine) (l : Locals)
    (new_list : file_list_t) (hargc : 4 ≤ argv.length)
    (hmode : cstr (argv.getD 1 []) = [45, 117])
    (hlist : get_archive_file_list m.archive file_list_init l.header l.size
      = Outcome.returned 0 new_list)
    (hreq : ∀ name ∈ argv.drop 4, (cstr name).length < MAX_NAME_LEN)
    (hlisted : ∀ node ∈ new_list.head, 0 ∈ node) :
    main argv w m l
        = (match file_list_is_subset (file_list_of (argv.drop 4)) new_list with
          | none => Outcome.undefined m
          | some r =>
            if r = 1 then
              report_append m
                (append_files_to_archive w m.archive (file_list_of (argv.drop 4)) l.buffer)
            else Outcome.returned 0 m)
      ∧ file_list_is_subset (file_list_of (argv.drop 4)) new_list
        = some (if ∀ name ∈ (file_list_of (argv.drop 4)).names, name ∈ new_list.names
            then 1 else 0)
      ∧ main argv w m l
        = (if ∀ name ∈ (file_list_of (argv.drop 4)).names, name ∈ new_list.names then
            report_append m
              (append_files_to_archive w m.archive (file_list_of (argv.drop 4)) l.buffer)
          else Outcome.returned 0 m) := by
  have hmain : main argv w m l
      = (match file_list_is_subset (file_list_of (argv.drop 4)) new_list with
        | none => Outcome.undefined m
        | some r =>
          if r = 1 then
            report_append m
              (append_files_to_archive w m.archive (file_list_of (argv.drop 4)) l.buffer)
          else Outcome.returned 0 m) := by
    rw [main_eq_main_update argv w m l hargc hmode]
    exact main_update_eq w m _ l new_list (file_list_of_size _) hlist
  have hsub := file_list_is_subset_terminated (file_list_of (argv.drop 4)) new_list
    (by rw [file_list_of_head]; exact nodes_terminated _ hreq) hlisted
  refine ⟨hmain, hsub, ?_⟩
  rw [hmain, hsub]
  by_cases hall : ∀ name ∈ (file_list_of (argv.drop 4)).names, name ∈ new_list.names
  · rw [if_pos hall, if_pos hall]
    exact if_pos rfl
  · have h01 : ¬ ((0 : Int) = 1) := by decide
    rw [if_neg hall, if_neg hall]
    exact if_neg h01

/-- C12, witness: the update of `x` on the archive that lists `x`, `y`, `z`:
the subset test is 1 and the append is made. -/
theorem update_acceptance_witness :
    4 ≤ argv_update_x.length
    ∧ cstr (argv_update_x.getD 1 []) = [45, 117]
    ∧ get_archive_file_list machine_xyz.archive file_list_init locals0.header locals0.size
        = Outcome.returned 0 listed_xyz
    ∧ (∀ name ∈ argv_update_x.drop 4, (cstr name).length < MAX_NAME_LEN)
    ∧ (∀ node ∈ listed_xyz.head, 0 ∈ node)
    ∧ file_list_is_subset (file_list_of (argv_update_x.drop 4)) listed_xyz = some 1
    ∧ (main argv_update_x world_xyz machine_xyz locals0
        = (match file_list_is_subset (file_list_of (argv_update_x.drop 4)) listed_xyz with
          | none => Outcome.undefined machine_xyz
          | some r =>
            if r = 1 then
              report_append machine_xyz
                (append_files_to_archive world_xyz machine_xyz.archive
                  (file_list_of (argv_update_x.drop 4)) locals0.buffer)
            else Outcome.returned 0 machine_xyz)
      ∧ file_list_is_subset (file_list_of (argv_update_x.drop 4)) listed_xyz
        = some (if ∀ name ∈ (file_list_of (argv_update_x.drop 4)).names,
            name ∈ listed_xyz.names then 1 else 0)
      ∧ main argv_update_x world_xyz machine_xyz locals0
        = (if ∀ name ∈ (file_list_of (argv_update_x.drop 4)).names, name ∈ listed_xyz.names
          then
            report_append machine_xyz
              (append_files_to_archive world_xyz machine_xyz.archive
                (file_list_of (argv_update_x.drop 4)) locals0.buffer)
          else Outcome.returned 0 machine_xyz)) :=
  ⟨by decide, by decide, by decide!, by decide, by decide, by decide,
    update_acceptance argv_update_x world_xyz machine_xyz locals0 listed_xyz (by decide)
      (by decide) (by decide!) (by decide) (by decide)⟩

/-- C12, counterexample: `minitar -u -f a` with the 32-byte name on the
archive that holds the file of that name and `x`.  The lister returns the
32-byte name, `x` and the empty name, so the requested name is among the
listed names; but its node in the listed chain holds no terminator and is not
the last one, `strcmp` reads on into the pointer `next`, and neither the
subset test nor the loop of `main` has the answer 1: `main` does not make the
append, which would return 0 and leave 4096 bytes. -/
theorem update_of_listed_long_name :
    listed_names machine_32_x.archive locals0 = [name_32, name_x, []]
      ∧ (∀ name ∈ (file_list_of (argv_update_32.drop 4)).names,
          name ∈ listed_names machine_32_x.archive locals0)
      ∧ (get_archive_file_list machine_32_x.archive file_list_init locals0.header
          locals0.size).final.map
            (fun listed => file_list_is_subset (file_list_of (argv_update_32.drop 4)) listed)
          = some none
      ∧ main argv_update_32 world_name_32 machine_32_x locals0
        = Outcome.undefined machine_32_x
      ∧ report_append machine_32_x
          (append_files_to_archive world_name_32 machine_32_x.archive
            (file_list_of (argv_update_32.drop 4)) locals0.buffer)
        ≠ Outcome.undefined machine_32_x
      ∧ (append_files_to_archive world_name_32 machine_32_x.archive
          (file_list_of (argv_update_32.drop 4)) locals0.buffer).final.map
            (Option.map List.length) = some (some 4096) := by
  decide!

/-- C11, failing input: `minitar -u -f a w` on the archive that lists `x`,
`y`, `z`.  The update is rejected, nothing is written, and `main` returns 0.
The sibling failure of the append mode, on an archive of 1023 bytes, returns
1. -/
theorem rejected_update_exits_zero :
    [119] ∉ listed_names archive_xyz locals0
      ∧ main argv_update_w world_xyz { archive := archive_xyz, disk := [], stdout := [] } locals0
        = Outcome.returned 0 { archive := archive_xyz, disk := [], stdout := [] }
      ∧ main argv_append_z world_xyz { archive := some (zeros 1023), disk := [], stdout := [] }
          locals0
        = Outcome.returned 1 { archive := some (zeros 1023), disk := [], stdout := [] } := by
  decide!

/-! ## Octal fields -/

theorem octal_digits_chars (fuel : Nat) : ∀ (v : Nat), ∀ c ∈ octal_digits fuel v,
    48 ≤ c ∧ c ≤ 55 := by
  induction fuel with
  | zero => intro v c hc; simp [octal_digits] at hc
  | succ k ih =>
    intro v c hc
    unfold octal_digits at hc
    by_cases hv : v < 8
    · simp only [hv, if_true, List.mem_singleton] at hc
      omega
    · simp only [hv, if_false, List.mem_append, List.mem_singleton] at hc
      rcases hc with hc | hc
      · exact ih _ c hc
      · omega

theorem digits_value_append (base : Nat) (ds : List Nat) (d : Nat) :
    digits_value base (ds ++ [d]) = digits_value base ds * base + d := by
  simp [digits_value, List.foldl_append]

theorem octal_digits_value (fuel : Nat) : ∀ (v k : Nat), 1 ≤ k → k ≤ fuel → v < 8 ^ k →
    (octal_digits fuel v).length ≤ k
      ∧ digits_value 8 ((octal_digits fuel v).map (fun c => c - 48)) = v := by
  induction fuel with
  | zero => intro v k h1 h2 _; omega
  | succ n ih =>
    intro v k h1 h2 hv
    unfold octal_digits
    by_cases h8 : v < 8
    · simp only [h8, if_true, List.length_singleton, List.map_cons, List.map_nil]
      refine ⟨h1, ?_⟩
      simp [digits_value]
    · simp only [h8, if_false, List.length_append, List.length_singleton, List.map_append,
        List.map_cons, List.map_nil]
      obtain ⟨j, rfl⟩ : ∃ j, k = j + 1 := ⟨k - 1, by omega⟩
      have hj : 1 ≤ j := by
        by_contra hj0
        have : j = 0 := by omega
        subst this
        simp at hv
        omega
      have hdiv : v / 8 < 8 ^ j := by
        rw [Nat.div_lt_iff_lt_mul (by decide)]
        rw [pow_succ] at hv
        exact hv
      obtain ⟨hl, hval⟩ := ih (v / 8) j hj (by omega) hdiv
      refine ⟨by omega, ?_⟩
      rw [digits_value_append, hval]
      omega

theorem scan_digits_octal (l : List Nat) (h : ∀ c ∈ l, 48 ≤ c ∧ c ≤ 55) :
    scan_digits 8 l = l.map (fun c => c - 48) := by
  induction l with
  | nil => rfl
  | cons c l ih =>
    have hc := h c (List.mem_cons_self _ _)
    have hd : digit_val 8 c = some (c - 48) := by
      unfold digit_val
      have h1 : 48 ≤ c ∧ c ≤ 57 := ⟨hc.1, by omega⟩
      have h2 : c - 48 < 8 := by omega
      simp only [h1, and_self, if_true, h2]
    rw [scan_digits, hd]
    simp only [List.map_cons]
    rw [ih (fun c hc => h c (List.mem_cons_of_mem _ hc))]

theorem digits_value_zeros (n : Nat) (ds : List Nat) :
    digits_value 8 (List.replicate n 0 ++ ds) = digits_value 8 ds := by
  induction n with
  | zero => simp
  | succ k ih =>
    rw [List.replicate_succ, List.cons_append]
    simp only [digits_value, List.foldl_cons, Nat.zero_mul, Nat.add_zero] at ih ⊢
    exact ih

theorem printf_o_chars (width v : Nat) : ∀ c ∈ printf_o width v, 48 ≤ c ∧ c ≤ 55 := by
  intro c hc
  unfold printf_o at hc
  rw [List.mem_append] at hc
  rcases hc with hc | hc
  · have := List.eq_of_mem_replicate hc
    omega
  · exact octal_digits_chars _ _ c hc

theorem printf_o_length_ge (width v : Nat) : width ≤ (printf_o width v).length := by
  unfold printf_o
  rw [List.length_append, List.length_replicate]
  omega

theorem printf_o_exact (width v : Nat) (h1 : 1 ≤ width) (h2 : width ≤ 11)
    (hv : v % 4294967296 < 8 ^ width) :
    (printf_o width v).length = width
      ∧ digits_value 8 ((printf_o width v).map (fun c => c - 48)) = v % 4294967296 := by
  obtain ⟨hl, hval⟩ := octal_digits_value 11 (v % 4294967296) width h1 h2 hv
  unfold printf_o
  constructor
  · rw [List.length_append, List.length_replicate]
    omega
  · rw [List.map_append, List.map_replicate]
    show digits_value 8 (List.replicate _ 0 ++ _) = _
    rw [digits_value_zeros, hval]

theorem snprintf_printf_o (width v : Nat) :
    snprintf (width + 1) (printf_o width v) = (printf_o width v).take width ++ [0] := by
  have hl := printf_o_length_ge width v
  unfold snprintf
  rw [Nat.add_sub_cancel, List.length_take, Nat.min_eq_left hl, Nat.add_sub_cancel_left]
  rfl

theorem octal_field_snprintf (width v : Nat) :
    octal_field width (snprintf (width + 1) (printf_o width v)) := by
  have hl := printf_o_length_ge width v
  have hlt : ((printf_o width v).take width).length = width := by
    rw [List.length_take, Nat.min_eq_left hl]
  rw [snprintf_printf_o]
  refine ⟨?_, ?_, ?_⟩
  · rw [List.length_append, hlt, List.length_singleton]
  · intro c hc
    rw [List.take_append_of_le_length (by omega), List.take_take, Nat.min_self] at hc
    exact printf_o_chars width v c (List.mem_of_mem_take hc)
  · rw [List.drop_append_of_le_length (by omega), List.drop_of_length_le (by omega)]
    rfl

theorem octal_value_snprintf (width v : Nat) (h1 : 1 ≤ width) (h2 : width ≤ 11)
    (hv : v % 4294967296 < 8 ^ width) :
    octal_value (snprintf (width + 1) (printf_o width v)) = v % 4294967296 := by
  obtain ⟨hl, hval⟩ := printf_o_exact width v h1 h2 hv
  have h0 : 0 ∉ printf_o width v := by
    intro h0
    have := (printf_o_chars width v 0 h0).1
    omega
  rw [snprintf_printf_o, List.take_of_length_le (by omega)]
  unfold octal_value
  rw [cstr_append_nul _ _ h0, scan_digits_octal _ (printf_o_chars width v), hval]

/-- C15 (as amended): for every file `fill_tar_header` describes, the fields
mode, uid, gid, devmajor and devminor are each exactly 7 octal digits followed
by a NUL, the fields size and mtime exactly 11 octal digits followed by a NUL;
the octal value of mode is the permission bits `& 07777`; that of uid, gid,
devmajor and devminor is the value encoded when this is below `8^7`; that of
size and mtime is the value cast to `unsigned` (modulo `2^32`). -/
theorem numeric_header_fields (w : World) (file_name : List Nat) (f : file_t) (h : tar_header)
    (hl : w.files.lookup (cstr file_name) = some f)
    (hfill : fill_tar_header w file_name = some h) :
    (octal_field 7 h.mode ∧ octal_value h.mode = f.st_mode % 4096)
      ∧ (octal_field 7 h.uid ∧ (f.st_uid < 2097152 → octal_value h.uid = f.st_uid))
      ∧ (octal_field 7 h.gid ∧ (f.st_gid < 2097152 → octal_value h.gid = f.st_gid))
      ∧ (octal_field 7 h.devmajor
        ∧ (f.dev_major < 2097152 → octal_value h.devmajor = f.dev_major))
      ∧ (octal_field 7 h.devminor
        ∧ (f.dev_minor < 2097152 → octal_value h.devminor = f.dev_minor))
      ∧ (octal_field 11 h.size ∧ octal_value h.size = f.content.length % 4294967296)
      ∧ (octal_field 11 h.mtime
        ∧ octal_value h.mtime = (f.st_mtime % 4294967296).toNat) := by
  obtain ⟨f2, pw, gr, hl2, _, _, rfl⟩ := fill_tar_header_eq w file_name h hfill
  rw [hl] at hl2
  cases hl2
  have small : ∀ v, v < 2097152 →
      octal_value (snprintf (7 + 1) (printf_o 7 v)) = v := by
    intro v hv
    have hmod : v % 4294967296 = v := Nat.mod_eq_of_lt (by omega)
    have := octal_value_snprintf 7 v (by decide) (by decide) (by rw [hmod]; exact hv)
    rw [this, hmod]
  have large : ∀ v, octal_value (snprintf (11 + 1) (printf_o 11 v)) = v % 4294967296 := by
    intro v
    exact octal_value_snprintf 11 v (by decide) (by decide)
      (lt_trans (Nat.mod_lt _ (by decide)) (by decide))
  refine ⟨⟨octal_field_snprintf 7 _, ?_⟩, ⟨octal_field_snprintf 7 _, ?_⟩,
    ⟨octal_field_snprintf 7 _, ?_⟩, ⟨octal_field_snprintf 7 _, ?_⟩,
    ⟨octal_field_snprintf 7 _, ?_⟩, ⟨octal_field_snprintf 11 _, ?_⟩,
    ⟨octal_field_snprintf 11 _, ?_⟩⟩
  · exact small _ (lt_trans (Nat.mod_lt _ (by decide)) (by decide))
  · exact fun hv => small _ hv
  · exact fun hv => small _ hv
  · exact fun hv => small _ hv
  · exact fun hv => small _ hv
  · exact large _
  · have := large (f.st_mtime % 4294967296).toNat
    have hm : (f.st_mtime % 4294967296).toNat % 4294967296 = (f.st_mtime % 4294967296).toNat := by
      omega
    rw [hm] at this
    exact this

/-- C15, witness: the file `x` of the sample world. -/
theorem numeric_header_fields_witness :
    world_xyz.files.lookup (cstr name_x) = some (sample_file hello)
    ∧ fill_tar_header world_xyz name_x = some (header_of world_xyz name_x)
    ∧ (header_of world_xyz name_x).mode = [48, 48, 48, 48, 54, 52, 52, 0]
    ∧ ((octal_field 7 (header_of world_xyz name_x).mode
        ∧ octal_value (header_of world_xyz name_x).mode = (sample_file hello).st_mode % 4096)
      ∧ (octal_field 7 (header_of world_xyz name_x).uid
        ∧ ((sample_file hello).st_uid < 2097152 →
          octal_value (header_of world_xyz name_x).uid = (sample_file hello).st_uid))
      ∧ (octal_field 7 (header_of world_xyz name_x).gid
        ∧ ((sample_file hello).st_gid < 2097152 →
          octal_value (header_of world_xyz name_x).gid = (sample_file hello).st_gid))
      ∧ (octal_field 7 (header_of world_xyz name_x).devmajor
        ∧ ((sample_file hello).dev_major < 2097152 →
          octal_value (header_of world_xyz name_x).devmajor = (sample_file hello).dev_major))
      ∧ (octal_field 7 (header_of world_xyz name_x).devminor
        ∧ ((sample_file hello).dev_minor < 2097152 →
          octal_value (header_of world_xyz name_x).devminor = (sample_file hello).dev_minor))
      ∧ (octal_field 11 (header_of world_xyz name_x).size
        ∧ octal_value (header_of world_xyz name_x).size
          = (sample_file hello).content.length % 4294967296)
      ∧ (octal_field 11 (header_of world_xyz name_x).mtime
        ∧ octal_value (header_of world_xyz name_x).mtime
          = ((sample_file hello).st_mtime % 4294967296).toNat)) :=
  ⟨by decide, sample_header_x, by decide!,
    numeric_header_fields world_xyz name_x (sample_file hello) _ (by decide) sample_header_x⟩

/-- C15, counterexample: a file whose owner has the id `8^7 = 2097152`.  The
text `10000000` of `%07o` is cut by `snprintf` to the 7 characters `1000000`:
the field reads `8^6 = 262144`. -/
theorem uid_field_truncated :
    world_big_uid.files.lookup (cstr name_x) = some file_big_uid
      ∧ fill_tar_header world_big_uid name_x = some (header_of world_big_uid name_x)
      ∧ file_big_uid.st_uid = 2097152
      ∧ (header_of world_big_uid name_x).uid = [49, 48, 48, 48, 48, 48, 48, 0]
      ∧ octal_value (header_of world_big_uid name_x).uid = 262144
      ∧ octal_value (header_of world_big_uid name_x).uid ≠ file_big_uid.st_uid := by
  decide!

/-! ## The checksum value -/

theorem sum_schar_ascii (l : List Nat) (h : ∀ b ∈ l, b < 128) :
    (l.map schar).sum = (((l.map (fun b => b % 256)).sum : Nat) : Int)
      ∧ (l.map (fun b => b % 256)).sum ≤ 127 * l.length := by
  induction l with
  | nil => simp
  | cons b l ih =>
    have hb := h b (List.mem_cons_self _ _)
    obtain ⟨h1, h2⟩ := ih (fun c hc => h c (List.mem_cons_of_mem _ hc))
    have hmod : b % 256 = b := Nat.mod_eq_of_lt (by omega)
    have hs : schar b = (b : Int) := by
      unfold schar
      rw [hmod]
      simp [hb]
    simp only [List.map_cons, List.sum_cons, List.length_cons, hs, h1, hmod]
    constructor
    · push_cast
      rfl
    · omega

/-- For a header of 512 bytes that are all below `0x80` the checksum field
holds the unsigned sum of the bytes, the field itself counted as spaces. -/
theorem checksum_value_ascii (h : tar_header) (hs : ustar_sized h)
    (hascii : ∀ b ∈ ({ h with chksum := List.replicate 8 32 } : tar_header).bytes, b < 128) :
    octal_value (compute_checksum h).chksum = unsigned_sum h := by
  have hlen : ({ h with chksum := List.replicate 8 32 } : tar_header).bytes.length = 512 := by
    simp only [ustar_sized] at hs
    obtain ⟨h1, h2, h3, h4, h5, h6, h7, h8, h9, h10, h11, h12, h13, h14, h15, h16⟩ := hs
    simp only [tar_header.bytes, List.length_append, List.length_replicate,
      List.length_singleton, h1, h2, h3, h4, h5, h6, h8, h9, h10, h11, h12, h13, h14, h15, h16]
  obtain ⟨hsum, hbound⟩ := sum_schar_ascii _ hascii
  rw [hlen] at hbound
  have hval : (compute_checksum h).chksum
      = snprintf (7 + 1) (printf_o 7 (unsigned_sum h)) := by
    simp only [compute_checksum]
    rw [hsum]
    have : ((((({ h with chksum := List.replicate 8 32 } : tar_header).bytes.map
        (fun b => b % 256)).sum : Nat) : Int) % 4294967296).toNat = unsigned_sum h := by
      unfold unsigned_sum
      omega
    rw [this]
  have hu : unsigned_sum h ≤ 127 * 512 := hbound
  have hmod : unsigned_sum h % 4294967296 = unsigned_sum h := Nat.mod_eq_of_lt (by omega)
  rw [hval, octal_value_snprintf 7 _ (by decide) (by decide) (by rw [hmod]; omega), hmod]

/-- C14, failing input: the header of the file named `é`, whose name holds
the bytes 195 and 169.  The unsigned sum of the 512 bytes is 4360; the field
holds `0007410`, that is 3848: each of the two bytes counted 256 less, as a
negative `char`. -/
theorem checksum_counts_high_bytes_negative :
    fill_tar_header world_e_acute name_e_acute = some (header_of world_e_acute name_e_acute)
      ∧ (header_of world_e_acute name_e_acute).name.take 3 = [195, 169, 0]
      ∧ (header_of world_e_acute name_e_acute).bytes.length = 512
      ∧ unsigned_sum (header_of world_e_acute name_e_acute) = 4360
      ∧ (compute_checksum (header_of world_e_acute name_e_acute)).chksum
        = [48, 48, 48, 55, 52, 49, 48, 0]
      ∧ octal_value (compute_checksum (header_of world_e_acute name_e_acute)).chksum = 3848
      ∧ octal_value (header_of world_e_acute name_e_acute).chksum
        ≠ unsigned_sum (header_of world_e_acute name_e_acute) := by
  decide!

/-! ## The size field read back -/

theorem cstr_of_take (l ds : List Nat) (n : Nat) (h : l.take n = ds ++ [0]) (h0 : 0 ∉ ds) :
    cstr l = ds := by
  have hl : l = ds ++ 0 :: l.drop n := by
    conv_lhs => rw [← List.take_append_drop n l, h]
    simp
  rw [hl]
  exact cstr_append_nul ds _ h0

theorem sscanf_i_cstr (a b : List Nat) (old : Int) (h : cstr a = cstr b) :
    sscanf_i a old = sscanf_i b old := by
  unfold sscanf_i
  rw [h]

theorem size_field_string (h : tar_header) (hs : ustar_sized h) (ds : List Nat)
    (hsz : h.size = ds ++ [0]) (h0 : 0 ∉ ds) : cstr (h.bytes.drop SIZE_OFFSET) = ds := by
  have hsl := (bytes_slices h hs).2.2.2.2.1
  rw [hsz] at hsl
  exact cstr_of_take _ ds 12 hsl h0

theorem printf_o_leading_zero (v : Nat) (hv : v < 1073741824) :
    printf_o 11 v = 48 :: printf_o 10 v := by
  have hmod : v % 4294967296 = v := Nat.mod_eq_of_lt (by omega)
  have hl := (octal_digits_value 11 v 10 (by decide) (by decide) (by
    have : (8 : Nat) ^ 10 = 1073741824 := by decide
    omega)).1
  unfold printf_o
  rw [hmod]
  obtain ⟨k, hk⟩ : ∃ k, 10 - (octal_digits 11 v).length = k := ⟨_, rfl⟩
  have h11 : 11 - (octal_digits 11 v).length = k + 1 := by omega
  rw [h11, hk, List.replicate_succ, List.cons_append]

theorem sscanf_i_octal_string (c : Nat) (t : List Nat) (old : Int) (hc : 48 ≤ c ∧ c ≤ 55)
    (ht : ∀ d ∈ t, 48 ≤ d ∧ d ≤ 55) :
    sscanf_i (48 :: c :: t) old
      = toInt32 (clamp_long (digits_value 8 ((c :: t).map (fun d => d - 48)) : Nat)) := by
  have hall : ∀ d ∈ 48 :: c :: t, 48 ≤ d ∧ d ≤ 55 := by
    intro d hd
    rcases List.mem_cons.mp hd with hd | hd
    · omega
    · rcases List.mem_cons.mp hd with hd | hd
      · omega
      · exact ht d hd
  have h0 : 0 ∉ 48 :: c :: t := by
    intro h0
    have := (hall 0 h0).1
    omega
  have hscan : scan_unsigned (48 :: c :: t)
      = some (digits_value 8 ((c :: t).map (fun d => d - 48))) := by
    unfold scan_unsigned
    split
    · rename_i heq
      have : c = 120 := (List.cons.inj (List.cons.inj heq).2).1
      omega
    · rename_i heq
      have : c = 88 := (List.cons.inj (List.cons.inj heq).2).1
      omega
    · rename_i t2 _ _ heq
      have ht2 : c :: t = t2 := (List.cons.inj heq).2
      subst ht2
      rw [scan_digits_octal _ hall]
      simp [digits_value]
    · rename_i _ _ hno
      exact absurd rfl (hno (c :: t))
  unfold sscanf_i
  rw [cstr_of_no_nul _ h0]
  have hdrop : (48 :: c :: t).dropWhile isspace = 48 :: c :: t := by
    rw [List.dropWhile_cons]
    simp [isspace]
  rw [hdrop]
  split
  · rename_i heq
    exact absurd (List.cons.inj heq).1 (by decide)
  · rename_i heq
    exact absurd (List.cons.inj heq).1 (by decide)
  · rw [hscan]

/-- For a member shorter than `2^30` bytes the readers parse out of the header
the size the writer put there. -/
theorem size_field_parse (w : World) (file_name : List Nat) (f : file_t) (h : tar_header)
    (hl : w.files.lookup (cstr file_name) = some f)
    (hfill : fill_tar_header w file_name = some h)
    (hlen : f.content.length < 1073741824) (old : Int) :
    sscanf_i (h.bytes.drop SIZE_OFFSET) old = (f.content.length : Int) := by
  have hs := ustar_sized_fill w file_name h hfill
  obtain ⟨f2, pw, gr, hl2, _, _, rfl⟩ := fill_tar_header_eq w file_name h hfill
  rw [hl] at hl2
  cases hl2
  have hmod : f.content.length % 4294967296 = f.content.length := Nat.mod_eq_of_lt (by omega)
  have h11 := (printf_o_exact 11 f.content.length (by decide) (by decide) (by
    have : (8 : Nat) ^ 11 = 8589934592 := by decide
    omega)).1
  obtain ⟨h10l, h10v⟩ := printf_o_exact 10 f.content.length (by decide) (by decide) (by
    have : (8 : Nat) ^ 10 = 1073741824 := by decide
    omega)
  have hsz : (compute_checksum (raw_header file_name f pw gr)).size
      = printf_o 11 f.content.length ++ [0] := by
    show snprintf (11 + 1) (printf_o 11 f.content.length) = _
    rw [snprintf_printf_o, List.take_of_length_le (by omega)]
  have h0 : 0 ∉ printf_o 11 f.content.length := by
    intro h0
    have := (printf_o_chars 11 _ 0 h0).1
    omega
  have hstr := size_field_string _ hs _ hsz h0
  rw [sscanf_i_cstr _ (printf_o 11 f.content.length) old
    (by rw [hstr, cstr_of_no_nul _ h0])]
  rw [printf_o_leading_zero _ hlen]
  cases hq : printf_o 10 f.content.length with
  | nil => rw [hq] at h10l; simp at h10l
  | cons c t =>
    have hchars := printf_o_chars 10 f.content.length
    rw [hq] at hchars h10v
    rw [sscanf_i_octal_string c t old (hchars c (List.mem_cons_self _ _))
      (fun d hd => hchars d (List.mem_cons_of_mem _ hd)), h10v, hmod]
    unfold clamp_long toInt32
    have h1 : ¬ ((f.content.length : Int) > 9223372036854775807) := by omega
    have h2 : ¬ ((f.content.length : Int) < -9223372036854775808) := by omega
    simp only [h1, h2, if_false]
    omega

theorem gib_lookup :
    world_gib.files.lookup (cstr name_x) = some (sample_file (List.replicate 1073741824 0)) := by
  rfl

theorem gib_header : (fill_tar_header world_gib name_x).isSome = true := by
  rfl

theorem gib_size_text :
    snprintf 12 (printf_o 11 1073741824) = [49, 48, 48, 48, 48, 48, 48, 48, 48, 48, 48] ++ [0] := by
  decide

theorem sscanf_i_gib (old : Int) :
    sscanf_i [49, 48, 48, 48, 48, 48, 48, 48, 48, 48, 48] old = 1410065408 := by
  rfl

/-- C17, failing input: a member of `2^30` bytes.  `fill_tar_header` writes
its size as the 11 octal digits `10000000000`; there is no leading `0`, so
`%i` reads them as the decimal number `10^10`, and the `int` gets
`10^10 mod 2^32 = 1410065408`, not `1073741824`. -/
theorem size_field_misread_at_one_gibibyte :
    ∃ h, fill_tar_header world_gib name_x = some h
      ∧ member_size world_gib name_x = 1073741824
      ∧ h.size = [49, 48, 48, 48, 48, 48, 48, 48, 48, 48, 48, 0]
      ∧ octal_value h.size = 1073741824
      ∧ (∀ old, sscanf_i (h.bytes.drop SIZE_OFFSET) old = 1410065408)
      ∧ (1410065408 : Int) ≠ ((member_size world_gib name_x : Nat) : Int) := by
  obtain ⟨h, hfill⟩ := Option.isSome_iff_exists.mp gib_header
  have hs := ustar_sized_fill world_gib name_x h hfill
  obtain ⟨f, pw, gr, hl, _, _, rfl⟩ := fill_tar_header_eq world_gib name_x h hfill
  rw [gib_lookup] at hl
  cases hl
  have hlen : (sample_file (List.replicate 1073741824 0)).content.length = 1073741824 := by
    show (List.replicate 1073741824 0).length = 1073741824
    rw [List.length_replicate]
  have hm : member_size world_gib name_x = 1073741824 := by
    unfold member_size
    rw [gib_lookup]
    exact hlen
  have hsz : (compute_checksum (raw_header name_x
      (sample_file (List.replicate 1073741824 0)) pw gr)).size
      = [49, 48, 48, 48, 48, 48, 48, 48, 48, 48, 48] ++ [0] := by
    show snprintf 12 (printf_o 11
      (sample_file (List.replicate 1073741824 0)).content.length) = _
    rw [hlen]
    exact gib_size_text
  refine ⟨_, hfill, hm, hsz, ?_, ?_, ?_⟩
  · rw [hsz]
    decide
  · intro old
    have hstr := size_field_string _ hs _ hsz (by decide)
    rw [sscanf_i_cstr _ [49, 48, 48, 48, 48, 48, 48, 48, 48, 48, 48] old
      (by rw [hstr]; decide)]
    exact sscanf_i_gib old
  · rw [hm]
    decide

/-! ## The readers after an entry -/

/-- One pass of the lister's loop: seek `list_advance size` bytes forward, read
the next block as a header. -/
theorem list_loop_step (a : List Nat) (end_ : Int) (fuel : Nat) (pos : Int) (header : List Nat)
    (size : Int) (files : file_list_t)
    (hc : pos + size + ((MAX_MSG_LEN * 2 : Nat) : Int) < end_) :
    list_loop a end_ (fuel + 1) pos header size files
      = list_loop a end_ fuel
          (pos + list_advance size
            + ((a.drop (pos + list_advance size).toNat).take MAX_MSG_LEN).length)
          (fread header MAX_MSG_LEN (a.drop (pos + list_advance size).toNat))
          (sscanf_i ((fread header MAX_MSG_LEN
            (a.drop (pos + list_advance size).toNat)).drop SIZE_OFFSET) size)
          (file_list_add files (fread header MAX_MSG_LEN
            (a.drop (pos + list_advance size).toNat))) := by
  simp only [list_loop, list_advance, hc, if_true]
  by_cases h1 : size ≤ ((MAX_MSG_LEN : Nat) : Int)
  · simp only [h1, if_true]
  · simp only [h1, if_false]
    by_cases h2 : size % ((MAX_MSG_LEN : Nat) : Int) = 0
    · simp only [h2, if_true]
    · simp only [h2, if_false]

/-- The extractor seeks forward by `extract_advance size` from the position it
seeks back to. -/
theorem extract_entry_advance (a : List Nat) (pos : Int) (header : List Nat) (size : Int)
    (buffer : List Nat) (disk : Disk) (hname : cstr header ≠ []) (hsize : 0 ≤ size) :
    ∃ pos1 buffer1 disk1,
      extract_entry a pos header size buffer disk
        = seek_next pos1 size (extract_advance size) buffer1 disk1 := by
  unfold extract_entry extract_advance
  simp only [hname, if_false]
  by_cases h1 : size < ((MAX_MSG_LEN : Nat) : Int)
  · have h0 : ¬ size < 0 := by omega
    simp only [h1, h0, if_true, if_false]
    exact ⟨_, _, _, rfl⟩
  · simp only [h1, if_false]
    by_cases h2 : size % ((MAX_MSG_LEN : Nat) : Int) = 0
    · simp only [h2, if_true]
      exact ⟨_, _, _, rfl⟩
    · simp only [h2, if_false]
      exact ⟨_, _, _, rfl⟩

/-- Both readers move `ceil(s / 512) * 512` bytes forward for every size
`s ≥ 1`, and 512 bytes for `s = 0`. -/
theorem advance_values (s : Nat) :
    (1 ≤ s → list_advance (s : Int) = (padded_size s : Int)
      ∧ extract_advance (s : Int) = (padded_size s : Int))
    ∧ list_advance 0 = 512 ∧ extract_advance 0 = 512 ∧ padded_size 0 = 0 := by
  refine ⟨?_, by decide, by decide, by decide⟩
  intro hs
  unfold list_advance extract_advance padded_size
  simp only [MAX_MSG_LEN]
  push_cast
  constructor
  · split
    · omega
    · split <;> omega
  · split
    · omega
    · split <;> omega

/-- C19, failing input: the archive created from `z` (0 bytes) followed by `x`
(5 bytes).  After the entry of size 0 both readers are 512 bytes past the end
of its header, not 0: the header of `x` is stepped over, the lister decodes
the content block of `x` as a header and lists the name `hello`, and the
extractor writes `z` and nothing for `x`. -/
theorem readers_skip_block_after_empty_entry :
    create_archive world_zx none (file_list_of [name_z, name_x]) []
        = Outcome.returned 0 archive_zx
      ∧ archive_zx.map List.length = some 2560
      ∧ list_advance 0 = 512
      ∧ extract_advance 0 = 512
      ∧ listed_names archive_zx locals0 = [name_z, hello]
      ∧ extract_files_from_archive archive_zx [] [] [] 0 = Outcome.returned 0 [(name_z, [])] := by
  decide!

/-! ## Membership and subset queries -/

theorem cstr_cstr (s : List Nat) : cstr (cstr s) = cstr s := by
  induction s with
  | nil => rfl
  | cons c s ih =>
    by_cases hc : c = 0
    · subst hc
      rw [cstr_cons_nul]
      rfl
    · rw [cstr_cons_ne c s hc, cstr_cons_ne c _ hc, ih]

/-- C21 (as amended): for every list whose nodes all hold a terminator (the
names added were shorter than `MAX_NAME_LEN` bytes) and every name,
`file_list_contains` returns 1 when the name equals (as a C string) the name of
some node of the list and 0 otherwise; for two such lists
`file_list_is_subset` returns 1 when every name of the first list is contained
in the second and 0 otherwise; every name of the list is found in it, the
empty list is a subset of every list and every list is a subset of itself. -/
theorem membership_and_subset (l1 l2 : file_list_t) (name : List Nat)
    (h1 : ∀ node ∈ l1.head, 0 ∈ node) (h2 : ∀ node ∈ l2.head, 0 ∈ node) :
    file_list_contains l1 (arg_string name)
        = some (if cstr name ∈ l1.names then 1 else 0)
      ∧ file_list_is_subset l1 l2
        = some (if ∀ n ∈ l1.names, n ∈ l2.names then 1 else 0)
      ∧ (∀ n ∈ l1.names, file_list_contains l1 (arg_string n) = some 1)
      ∧ file_list_is_subset file_list_init l2 = some 1
      ∧ file_list_is_subset l1 l1 = some 1 := by
  refine ⟨file_list_contains_terminated l1 name h1,
    file_list_is_subset_terminated l1 l2 h1 h2, ?_, rfl, ?_⟩
  · intro n hn
    have hcn : cstr n = n := by
      simp only [file_list_t.names, List.mem_map] at hn
      obtain ⟨node, _, rfl⟩ := hn
      exact cstr_cstr node
    rw [file_list_contains_terminated l1 n h1, hcn, if_pos hn]
  · rw [file_list_is_subset_terminated l1 l1 h1 h1, if_pos (fun _ h => h)]

/-- C21 at the list `x`, `y`: `x` is a name of the list and is found, `z` is not
and is not found; the list `x` is a subset of it, the list `z` is not. -/
theorem membership_and_subset_witness :
    (∀ node ∈ (file_list_of [name_x, name_y]).head, 0 ∈ node)
      ∧ (∀ node ∈ (file_list_of [name_x]).head, 0 ∈ node)
      ∧ (∀ node ∈ (file_list_of [name_z]).head, 0 ∈ node)
      ∧ file_list_contains (file_list_of [name_x, name_y]) (arg_string name_x) = some 1
      ∧ file_list_contains (file_list_of [name_x, name_y]) (arg_string name_z) = some 0
      ∧ file_list_is_subset (file_list_of [name_x]) (file_list_of [name_x, name_y]) = some 1
      ∧ file_list_is_subset (file_list_of [name_z]) (file_list_of [name_x, name_y])
        = some 0 :=
  ⟨by decide, by decide, by decide,
    (membership_and_subset (file_list_of [name_x, name_y]) file_list_init name_x
      (by decide) (by decide)).1,
    (membership_and_subset (file_list_of [name_x, name_y]) file_list_init name_z
      (by decide) (by decide)).1,
    (membership_and_subset (file_list_of [name_x]) (file_list_of [name_x, name_y]) name_x
      (by decide) (by decide)).2.1,
    (membership_and_subset (file_list_of [name_z]) (file_list_of [name_x, name_y]) name_x
      (by decide) (by decide)).2.1⟩

/-- C21, counterexample: the list built from a name of 40 bytes and then `x`.
Its first node holds the first 32 bytes of the name and no terminator, and it
is not the last node: `strcmp` on it reads on into the bytes of the pointer
`next`.  The first 32 bytes of the name are a name of the list, yet the lookup
of that name does not return 1: its result depends on the bytes of an address.
The same holds for the list as a subset of itself.  A name that differs from
the 32 bytes in a known byte is still looked up as the claim says. -/
theorem membership_fails_behind_long_name :
    (file_list_of [name_40, name_x]).names = [List.replicate 32 97, name_x]
      ∧ cstr (List.replicate 32 97) ∈ (file_list_of [name_40, name_x]).names
      ∧ file_list_contains (file_list_of [name_40, name_x])
          (arg_string (List.replicate 32 97)) = none
      ∧ file_list_contains (file_list_of [name_40, name_x]) (arg_string name_40) = none
      ∧ file_list_is_subset (file_list_of [name_40, name_x]) (file_list_of [name_40, name_x])
        = none
      ∧ file_list_contains (file_list_of [name_40, name_x]) (arg_string name_x) = some 1 := by
  decide

/-! ## The checksum field -/

theorem chksum_compute_checksum (h : tar_header) :
    (compute_checksum h).chksum = snprintf (7 + 1) (printf_o 7 (checksum_sum h)) := by
  simp only [compute_checksum, checksum_sum]

theorem checksum_sum_compute_checksum (h : tar_header) :
    checksum_sum (compute_checksum h) = checksum_sum h := by
  cases h
  simp only [compute_checksum, checksum_sum]

/-- C24 (as amended): for every header `fill_tar_header` produces, the 8-byte
checksum field holds exactly 7 octal digits followed by a NUL; their value is
the sum computed whenever that sum is below `8^7`. -/
theorem checksum_field_format (w : World) (file_name : List Nat) (h : tar_header)
    (hfill : fill_tar_header w file_name = some h) :
    octal_field 7 h.chksum ∧ h.chksum.length = 8
      ∧ (checksum_sum h < 2097152 → octal_value h.chksum = checksum_sum h) := by
  obtain ⟨h0, rfl⟩ := fill_tar_header_checksummed w file_name h hfill
  rw [checksum_sum_compute_checksum, chksum_compute_checksum]
  refine ⟨octal_field_snprintf 7 _, length_snprintf _ _, ?_⟩
  intro hlt
  have hmod : checksum_sum h0 % 4294967296 = checksum_sum h0 := Nat.mod_eq_of_lt (by omega)
  rw [octal_value_snprintf 7 _ (by decide) (by decide) (by rw [hmod]; exact hlt), hmod]

theorem sample_chksum_x :
    (header_of world_xyz name_x).chksum = [48, 48, 49, 48, 48, 50, 52, 0] := by
  decide!

/-- C24, witness: the header of `x` in the sample world, with the sum 4116. -/
theorem checksum_field_format_witness :
    fill_tar_header world_xyz name_x = some (header_of world_xyz name_x)
    ∧ checksum_sum (header_of world_xyz name_x) = 4116
    ∧ (octal_field 7 (header_of world_xyz name_x).chksum
      ∧ (header_of world_xyz name_x).chksum.length = 8
      ∧ (checksum_sum (header_of world_xyz name_x) < 2097152 →
        octal_value (header_of world_xyz name_x).chksum
          = checksum_sum (header_of world_xyz name_x))) :=
  ⟨sample_header_x, by decide!, checksum_field_format world_xyz name_x _ sample_header_x⟩

/-- C24, counterexample: the checksum field of the header of `x` is
`0010024` and a NUL: its seventh byte is the digit `4`, not a NUL or a
space, so the field is not 6 digits followed by terminators. -/
theorem checksum_field_is_not_six_digits :
    fill_tar_header world_xyz name_x = some (header_of world_xyz name_x)
      ∧ (header_of world_xyz name_x).chksum = [48, 48, 49, 48, 48, 50, 52, 0]
      ∧ ¬ six_digit_checksum (header_of world_xyz name_x).chksum := by
  refine ⟨sample_header_x, sample_chksum_x, ?_⟩
  rw [sample_chksum_x]
  unfold six_digit_checksum
  decide

/-! ## Names longer than their field -/

theorem strncpy_long (name : List Nat) (n : Nat) (h0 : 0 ∉ name) (hlong : n ≤ name.length) :
    strncpy name n = name.take n ∧ 0 ∉ name.take n := by
  constructor
  · unfold strncpy
    rw [cstr_of_no_nul name h0, List.length_take, Nat.min_eq_left hlong, Nat.sub_self]
    show name.take n ++ [] = name.take n
    rw [List.append_nil]
  · intro h
    exact h0 (List.mem_of_mem_take h)

/-- The call of `fill_tar_header` succeeds exactly when the file can be stat'ed
and its owner and group have names. -/
theorem fill_tar_header_isSome (w : World) (file_name : List Nat) :
    (fill_tar_header w file_name).isSome = true
      ↔ ∃ f, w.files.lookup (cstr file_name) = some f
          ∧ (w.passwd.lookup f.st_uid).isSome = true
          ∧ (w.group.lookup f.st_gid).isSome = true := by
  constructor
  · intro h
    obtain ⟨hdr, hh⟩ := Option.isSome_iff_exists.mp h
    obtain ⟨f, pw, gr, hf, hpw, hgr, _⟩ := fill_tar_header_eq w file_name hdr hh
    exact ⟨f, hf, by rw [hpw]; rfl, by rw [hgr]; rfl⟩
  · rintro ⟨f, hf, hpw, hgr⟩
    obtain ⟨pw, hpw2⟩ := Option.isSome_iff_exists.mp hpw
    obtain ⟨gr, hgr2⟩ := Option.isSome_iff_exists.mp hgr
    simp only [fill_tar_header, hf, hpw2, hgr2, Option.isSome_some]

/-- C26 (as amended): a member name that does not fit its field is not
rejected; the code has no check of the length.  For every name (a C string),
of whatever length and so also for one longer than the `MAX_NAME_LEN` bytes of
a node or the 100 bytes of the header field, `file_list_add` returns 0 and the
list has one node more, and `fill_tar_header` returns 0 exactly when the file
of that name can be stat'ed and its owner and group have names. -/
theorem long_names_are_accepted (list : file_list_t) (name : List Nat) (w : World)
    (h0 : 0 ∉ name) :
    (file_list_add_status true list name).1 = 0
      ∧ (file_list_add_status true list name).2.head.length = list.head.length + 1
      ∧ ((fill_tar_header w name).isSome = true
        ↔ ∃ f, w.files.lookup name = some f
            ∧ (w.passwd.lookup f.st_uid).isSome = true
            ∧ (w.group.lookup f.st_gid).isSome = true) := by
  refine ⟨rfl, ?_, ?_⟩
  · show (file_list_add list name).head.length = _
    rw [file_list_add_head, List.length_append]
    rfl
  · have h := fill_tar_header_isSome w name
    rw [cstr_of_no_nul name h0] at h
    exact h

/-- C26, witness: the name of 101 bytes, longer than both fields, in a world
that holds a file of that name: the node is added and the header is
filled. -/
theorem long_names_are_accepted_witness :
    0 ∉ name_101 ∧ MAX_NAME_LEN ≤ name_101.length ∧ 100 < name_101.length
    ∧ (fill_tar_header world_long_name name_101).isSome = true
    ∧ ((file_list_add_status true file_list_init name_101).1 = 0
      ∧ (file_list_add_status true file_list_init name_101).2.head.length
          = file_list_init.head.length + 1
      ∧ ((fill_tar_header world_long_name name_101).isSome = true
        ↔ ∃ f, world_long_name.files.lookup name_101 = some f
            ∧ (world_long_name.passwd.lookup f.st_uid).isSome = true
            ∧ (world_long_name.group.lookup f.st_gid).isSome = true)) :=
  ⟨by decide, by decide, by decide, by decide!,
    long_names_are_accepted file_list_init name_101 world_long_name (by decide)⟩

/-- C26, counterexample: a name of 40 bytes is added to the list with the
return value 0, the node holding its first 32 bytes; a name of 101 bytes gets
a header, the name field holding its first 100 bytes.  No call fails. -/
theorem long_name_is_not_rejected :
    name_40.length = 40
      ∧ (file_list_add_status true file_list_init name_40).1 = 0
      ∧ (file_list_add_status true file_list_init name_40).2.head = [List.replicate 32 97]
      ∧ name_101.length = 101
      ∧ (fill_tar_header world_long_name name_101).isSome = true
      ∧ (header_of world_long_name name_101).name = List.replicate 100 97 := by
  decide!

/-! ## A member that cannot be archived -/

theorem helper_loop_stops (w : World) (pre : List (List Nat)) (node : List Nat)
    (rest : List (List Nat)) (buffer out : List Nat)
    (hterm : ∀ n ∈ pre, 0 ∈ n) (hnode : 0 ∈ node)
    (hok : ∀ n ∈ pre, member_ok w n = true) :
    (w.files.lookup (cstr node) = none →
      helper_loop w (pre ++ node :: rest) buffer out = Outcome.undefined (out ++ layout w pre))
    ∧ ((w.files.lookup (cstr node)).isSome = true → fill_tar_header w node = none →
      helper_loop w (pre ++ node :: rest) buffer out
        = Outcome.returned (-1) (out ++ layout w pre)) := by
  have hpre := helper_loop_ok w pre buffer out hterm hok
  have happ := helper_loop_append w pre buffer out _ hterm hpre (node :: rest)
  have hrun := node_string_terminated node rest.isEmpty hnode
  rw [happ]
  constructor
  · intro hl
    simp only [helper_loop, hrun, Bool.false_eq_true, if_false, hl]
  · intro hsome hfill
    obtain ⟨f, hf⟩ := Option.isSome_iff_exists.mp hsome
    simp only [helper_loop, hrun, Bool.false_eq_true, if_false, hf, hfill]

/-- When the member after `pre` exists but cannot be described, `create_archive`
returns -1 and the archive holds the records of `pre` and no footer; when it
cannot be opened, the call ends in the `fclose` of a null pointer.  The names
up to that member are shorter than `MAX_NAME_LEN` bytes. -/
theorem create_archive_stops (w : World) (archive : Option (List Nat)) (pre : List (List Nat))
    (name : List Nat) (rest : List (List Nat)) (buffer : List Nat)
    (hshort : ∀ n ∈ pre, (cstr n).length < MAX_NAME_LEN)
    (hname : (cstr name).length < MAX_NAME_LEN)
    (hok : ∀ n ∈ pre.map (fun n => strncpy n MAX_NAME_LEN), member_ok w n = true) :
    (w.files.lookup (cstr (strncpy name MAX_NAME_LEN)) = none →
      create_archive w archive (file_list_of (pre ++ name :: rest)) buffer
        = Outcome.undefined (some (layout w (pre.map (fun n => strncpy n MAX_NAME_LEN)))))
    ∧ ((w.files.lookup (cstr (strncpy name MAX_NAME_LEN))).isSome = true →
      fill_tar_header w (strncpy name MAX_NAME_LEN) = none →
      create_archive w archive (file_list_of (pre ++ name :: rest)) buffer
        = Outcome.returned (-1)
            (some (layout w (pre.map (fun n => strncpy n MAX_NAME_LEN))))) := by
  have hs := helper_loop_stops w (pre.map (fun n => strncpy n MAX_NAME_LEN))
    (strncpy name MAX_NAME_LEN) (rest.map (fun n => strncpy n MAX_NAME_LEN)) buffer []
    (nodes_terminated pre hshort) (strncpy_terminated name MAX_NAME_LEN hname) hok
  rw [create_archive_eq_finish, file_list_of_nodes, List.map_append, List.map_cons]
  constructor
  · intro hl
    rw [hs.1 hl]
    rfl
  · intro hsome hfill
    rw [hs.2 hsome hfill, finish_archive_of_ne _ _ (by decide)]
    rfl

/-- C25, failing input: the member list `x`, `w` in a world that has no file
`w`.  `fopen` returns a null pointer and the error path calls `fclose` on it:
`create_archive` does not return -1 but ends in undefined behaviour, the
stream of the archive holding the record of `x`; the same for an append.  The
sibling failure, a member whose owner has no name, returns -1 with the record
of `x` and no footer. -/
theorem create_with_missing_member_is_undefined :
    world_xyz.files.lookup (cstr (strncpy name_w MAX_NAME_LEN)) = none
      ∧ create_archive world_xyz none (file_list_of [name_x, name_w]) []
        = Outcome.undefined (some (layout world_xyz [strncpy name_x MAX_NAME_LEN]))
      ∧ append_files_to_archive world_xyz archive_xy (file_list_of [name_w]) []
        = Outcome.undefined (some ((archive_xy.getD []).take 2560))
      ∧ create_archive world_unknown_owner none (file_list_of [name_x, name_y]) []
        = Outcome.returned (-1)
            (some (layout world_unknown_owner [strncpy name_x MAX_NAME_LEN])) := by
  decide!

/-! ## The readers against each other -/

/-- C22, failing input: the archive of `x` (5 bytes) and `y` (600 bytes), 3584
bytes long.  After the header of `y` the stream is at 1536 and the test of the
code, on the size 600, holds, while the test on the padded size 1024 does not;
the lister goes on to offset 2560, where the first footer block lies, decodes
it and adds its empty name: three names for two entries. -/
theorem lister_decodes_footer_block :
    archive_xy.map List.length = some 3584
      ∧ ((archive_xy.getD []).drop 2560).take 512 = zeros 512
      ∧ (1536 : Int) + 600 + ((MAX_MSG_LEN * 2 : Nat) : Int) < 3584
      ∧ ¬ ((1536 : Int) + (padded_size 600 : Int) + 1024 < 3584)
      ∧ (1536 : Int) + list_advance 600 = 2560
      ∧ get_archive_file_list archive_xy file_list_init [] 0
        = Outcome.returned 0
            { head := [strncpy name_x 32, strncpy name_y 32,
                strncpy (((archive_xy.getD []).drop 2560).take 512) 32],
              size := 3 }
      ∧ strncpy (((archive_xy.getD []).drop 2560).take 512) 32 = zeros 32 := by
  decide!

/-- C23, failing input: the archive of `x` (5 bytes) and `y` (600 bytes), and
the archive of `x` (5 bytes) and `y` (512 bytes).  On the first the lister
returns `x`, `y` and the empty name while the extractor opens `x` and `y`; on
the second the lister returns `x`, `y` while the extractor opens `x` only. -/
theorem extract_and_list_disagree :
    listed_names archive_xy locals0 = [name_x, name_y, []]
      ∧ (extract_files_from_archive archive_xy [] [] [] 0).final.map
          (fun d => (d.map Prod.fst).reverse) = some [name_x, name_y]
      ∧ listed_names archive_x_y512 locals0 = [name_x, name_y]
      ∧ (extract_files_from_archive archive_x_y512 [] [] [] 0).final.map
          (fun d => (d.map Prod.fst).reverse) = some [name_x] := by
  decide!

/-! ## The lister and the extractor read the same headers -/

/-- Every pass of the lister moves at least one block forward. -/
theorem list_advance_ge (size : Int) : 512 ≤ list_advance size := by
  unfold list_advance
  simp only [MAX_MSG_LEN]
  push_cast
  split
  · omega
  · split <;> omega

theorem length_fwrite_last (disk : Disk) (bytes : List Nat) :
    (fwrite_last disk bytes).length = disk.length := by
  unfold fwrite_last
  split <;> rfl

theorem length_take_drop_full (a : List Nat) (pos : Int) (n : Nat) (h0 : 0 ≤ pos)
    (h : pos + (n : Int) ≤ (a.length : Int)) :
    (((a.drop pos.toNat).take n).length : Int) = (n : Int) := by
  rw [List.length_take, List.length_drop]
  omega

theorem copy_blocks_full (a : List Nat) : ∀ (k : Nat) (pos : Int) (buffer : List Nat)
    (disk : Disk), 0 ≤ pos → pos + 512 * (k : Int) ≤ (a.length : Int) →
    (copy_blocks a k pos buffer disk).1 = pos + 512 * (k : Int)
      ∧ (copy_blocks a k pos buffer disk).2.2.length = disk.length := by
  intro k
  induction k with
  | zero =>
    intro pos buffer disk _ _
    simp [copy_blocks]
  | succ k ih =>
    intro pos buffer disk h0 h
    have hfull := length_take_drop_full a pos MAX_MSG_LEN h0 (by
      simp only [MAX_MSG_LEN]
      push_cast at h ⊢
      omega)
    simp only [copy_blocks]
    obtain ⟨h1, h2⟩ := ih (pos + (((a.drop pos.toNat).take MAX_MSG_LEN).length : Int))
      (fread buffer MAX_MSG_LEN (a.drop pos.toNat))
      (fwrite_last disk ((fread buffer MAX_MSG_LEN (a.drop pos.toNat)).take MAX_MSG_LEN))
      (by omega) (by
        rw [hfull]
        simp only [MAX_MSG_LEN]
        push_cast at h ⊢
        omega)
    rw [h1, h2, length_fwrite_last, hfull]
    simp only [MAX_MSG_LEN]
    push_cast
    constructor
    · omega
    · trivial

theorem seek_next_next (pos size advance : Int) (buffer : List Nat) (disk : Disk)
    (q : Int) (b2 : List Nat) (d2 : Disk) (h0 : 0 ≤ pos) (ha : 0 ≤ advance)
    (h : seek_next (pos + size) size advance buffer disk = EntryResult.next q b2 d2) :
    q = pos + advance ∧ d2 = disk := by
  have hb : fseek_cur (pos + size) (-size) = pos := by
    unfold fseek_cur
    have : ¬ (pos + size + -size < 0) := by omega
    simp only [this, if_false]
    omega
  have hf : fseek_cur pos advance = pos + advance := by
    unfold fseek_cur
    have : ¬ (pos + advance < 0) := by omega
    simp only [this, if_false]
  unfold seek_next at h
  rw [hb, hf] at h
  split at h
  · exact absurd h (by simp)
  · split at h
    · exact absurd h (by simp)
    · simp only [EntryResult.next.injEq] at h
      exact ⟨h.1.symm, h.2.2.symm⟩

theorem seek_next_not_success (pos1 size advance : Int) (buffer : List Nat) (disk : Disk)
    (o : Outcome Disk) (d : Disk)
    (h : seek_next pos1 size advance buffer disk = EntryResult.stop o) :
    o ≠ Outcome.returned 0 d := by
  unfold seek_next at h
  split at h
  · simp only [EntryResult.stop.injEq] at h
    rw [← h]
    simp
  · split at h
    · simp only [EntryResult.stop.injEq] at h
      rw [← h]
      simp
    · exact absurd h (by simp)

/-- One pass of the extractor that goes on, on an entry that lies inside the
file: it opens one file and ends `list_advance size` bytes after the header. -/
theorem extract_entry_next (a : List Nat) (pos : Int) (header : List Nat) (size : Int)
    (buffer : List Nat) (disk : Disk) (q : Int) (b2 : List Nat) (d2 : Disk)
    (h0 : 0 ≤ pos) (hlen : pos + size ≤ (a.length : Int))
    (h : extract_entry a pos header size buffer disk = EntryResult.next q b2 d2) :
    q = pos + list_advance size ∧ d2.length = disk.length + 1 := by
  unfold extract_entry at h
  unfold list_advance
  simp only [MAX_MSG_LEN, Nat.cast_ofNat] at h ⊢
  split at h
  · exact absurd h (by simp)
  · by_cases h1 : size < 512
    · simp only [h1, if_true] at h
      split at h
      · exact absurd h (by simp)
      · rename_i hneg
        have hl := length_take_drop_full a pos size.toNat h0 (by omega)
        rw [hl, Int.toNat_of_nonneg (by omega)] at h
        obtain ⟨hq, hd⟩ := seek_next_next pos size 512 _ _ q b2 d2 h0 (by omega) h
        have h2 : size ≤ 512 := by omega
        simp only [h2, if_true]
        refine ⟨hq, ?_⟩
        rw [hd, length_fwrite_last]
        rfl
    · simp only [h1, if_false] at h
      have h1b : ¬ size ≤ 512 ∨ size = 512 := by omega
      have hk : ((size / 512).toNat : Int) = size / 512 := Int.toNat_of_nonneg (by omega)
      obtain ⟨hc1, hc2⟩ := copy_blocks_full a (size / 512).toNat pos buffer
        (fopen_w disk (cstr header)) h0 (by omega)
      rcases hcb : copy_blocks a (size / 512).toNat pos buffer (fopen_w disk (cstr header))
        with ⟨p1, b1, d1⟩
      rw [hcb] at hc1 hc2 h
      simp only at hc1 hc2 h
      by_cases h2 : size % 512 = 0
      · simp only [h2, if_true] at h ⊢
        have hp : p1 = pos + size := by omega
        rw [hp] at h
        obtain ⟨hq, hd⟩ := seek_next_next pos size _ _ _ q b2 d2 h0 (by omega) h
        refine ⟨?_, ?_⟩
        · split <;> omega
        · rw [hd, hc2]
          rfl
      · simp only [h2, if_false] at h ⊢
        have hl := length_take_drop_full a p1 (size % 512).toNat (by omega) (by omega)
        rw [hl, Int.toNat_of_nonneg (by omega)] at h
        have hp : p1 + size % 512 = pos + size := by omega
        rw [hp] at h
        obtain ⟨hq, hd⟩ := seek_next_next pos size _ _ _ q b2 d2 h0 (by omega) h
        refine ⟨?_, ?_⟩
        · split <;> omega
        · rw [hd, length_fwrite_last, hc2]
          rfl

/-- A pass of the extractor that stops never stops with success. -/
theorem extract_entry_stop (a : List Nat) (pos : Int) (header : List Nat) (size : Int)
    (buffer : List Nat) (disk : Disk) (o : Outcome Disk) (d : Disk)
    (h : extract_entry a pos header size buffer disk = EntryResult.stop o) :
    o ≠ Outcome.returned 0 d := by
  unfold extract_entry at h
  split at h
  · simp only [EntryResult.stop.injEq] at h
    rw [← h]
    simp
  · split at h
    · split at h
      · simp only [EntryResult.stop.injEq] at h
        rw [← h]
        simp
      · exact seek_next_not_success _ _ _ _ _ o d h
    · split at h
      · exact seek_next_not_success _ _ _ _ _ o d h
      · exact seek_next_not_success _ _ _ _ _ o d h

/-- While the extractor goes on to success the lister makes the same passes:
the two loops read their headers at the same offsets, the extractor opens one
file and the lister adds one name in each pass. -/
theorem readers_simulation (a : List Nat) (end_ : Int) (hend : end_ ≤ (a.length : Int)) :
    ∀ (fuel : Nat) (pos : Int) (header : List Nat) (size : Int) (buffer : List Nat)
      (opened : Bool) (disk disk2 : Disk) (files : file_list_t),
    0 ≤ pos →
    extract_loop a end_ fuel pos header size buffer opened disk = Outcome.returned 0 disk2 →
    extract_offsets a end_ fuel pos header size buffer disk
        = list_offsets a end_ fuel pos header size
      ∧ disk2.length = disk.length + (list_offsets a end_ fuel pos header size).length
      ∧ ∃ fl, list_loop a end_ fuel pos header size files = Outcome.returned 0 fl
          ∧ fl.head.length
            = files.head.length + (list_offsets a end_ fuel pos header size).length := by
  intro fuel
  induction fuel with
  | zero =>
    intro pos header size buffer opened disk disk2 files _ h
    simp [extract_loop] at h
  | succ k ih =>
    intro pos header size buffer opened disk disk2 files h0 h
    by_cases hc : pos + size + ((MAX_MSG_LEN * 2 : Nat) : Int) < end_
    · have hc2 : pos + size + 1024 < end_ := by simpa [MAX_MSG_LEN] using hc
      rw [list_loop_step a end_ k pos header size files hc]
      simp only [extract_loop, extract_offsets, list_offsets, hc, if_true] at h ⊢
      cases he : extract_entry a pos header size buffer disk with
      | stop o =>
        rw [he] at h
        simp only at h
        exact absurd h (extract_entry_stop a pos header size buffer disk o disk2 he)
      | next q b2 d2 =>
        rw [he] at h
        simp only at h ⊢
        obtain ⟨hq, hd⟩ := extract_entry_next a pos header size buffer disk q b2 d2 h0
          (by omega) he
        have hadv := list_advance_ge size
        subst hq
        obtain ⟨i1, i2, fl, i3, i4⟩ := ih _ _ _ _ _ _ _
          (file_list_add files (fread header MAX_MSG_LEN
            (a.drop (pos + list_advance size).toNat))) (by omega) h
        refine ⟨by rw [i1], ?_, fl, i3, ?_⟩
        · rw [i2, hd, List.length_cons]
          omega
        · rw [i4, file_list_add_head, List.length_append, List.length_cons]
          simp only [List.length_nil, List.length_cons]
          omega
    · simp only [extract_loop, extract_offsets, list_offsets, list_loop, hc, if_false] at h ⊢
      split at h
      · simp only [Outcome.returned.injEq, true_and] at h
        subst h
        exact ⟨trivial, rfl, files, rfl, rfl⟩
      · exact absurd h (by simp)

/-- The two readers started in the same state after the first header, with
any number of passes allowed: what `readers_simulation` gives, counted from
the first header on. -/
theorem readers_agree (a : List Nat) (fuel : Nat) (pos : Int) (header : List Nat) (size : Int)
    (buffer : List Nat) (disk disk2 : Disk) (files : file_list_t) (h0 : 0 ≤ pos)
    (h : extract_loop a (toInt32 (a.length : Int)) fuel pos header size buffer false disk
      = Outcome.returned 0 disk2) :
    ∃ fl, list_loop a (toInt32 (a.length : Int)) fuel pos header size
          (file_list_add files header) = Outcome.returned 0 fl
      ∧ (0 :: extract_offsets a (toInt32 (a.length : Int)) fuel pos header size buffer disk)
          = (0 :: list_offsets a (toInt32 (a.length : Int)) fuel pos header size)
      ∧ fl.head.length = files.head.length
          + (0 :: list_offsets a (toInt32 (a.length : Int)) fuel pos header size).length
      ∧ disk2.length + 1 = disk.length
          + (0 :: extract_offsets a (toInt32 (a.length : Int)) fuel pos header size
              buffer disk).length
      ∧ fl.head.length + disk.length = files.head.length + disk2.length + 1 := by
  obtain ⟨i1, i2, fl, i3, i4⟩ := readers_simulation a (toInt32 (a.length : Int))
    (toInt32_le_self a.length) fuel pos header size buffer false disk disk2
    (file_list_add files header) h0 h
  refine ⟨fl, i3, by rw [i1], ?_, ?_, ?_⟩
  · rw [i4, file_list_add_head, List.length_append, List.length_cons]
    simp only [List.length_nil, List.length_cons]
    omega
  · rw [i1, i2, List.length_cons]
    omega
  · rw [i4, i2, file_list_add_head, List.length_append]
    simp only [List.length_nil, List.length_cons]
    omega

theorem extract_files_from_archive_some (a : List Nat) (disk : Disk)
    (buffer header : List Nat) (size : Int) :
    extract_files_from_archive (some a) disk buffer header size
      = if toInt32 (a.length : Int) = -1 then Outcome.returned (-1) disk
        else
          extract_loop a (toInt32 (a.length : Int)) LOOP_BUDGET
            ((a.take MAX_MSG_LEN).length : Nat)
            (fread header MAX_MSG_LEN a)
            (sscanf_i ((fread header MAX_MSG_LEN a).drop SIZE_OFFSET) (toInt32 size))
            buffer false disk := rfl

theorem get_archive_file_list_some (a : List Nat) (files : file_list_t) (header : List Nat)
    (size : Int) :
    get_archive_file_list (some a) files header size
      = if toInt32 (a.length : Int) = -1 then Outcome.returned (-1) files
        else
          list_loop a (toInt32 (a.length : Int)) LOOP_BUDGET
            ((a.take MAX_MSG_LEN).length : Nat)
            (fread header MAX_MSG_LEN a)
            (sscanf_i ((fread header MAX_MSG_LEN a).drop SIZE_OFFSET) (toInt32 size))
            (file_list_add files (fread header MAX_MSG_LEN a)) := rfl

/-- C27 (as amended): whenever `extract_files_from_archive` returns 0 on an
archive and both functions hold the same header bytes and the same size once
they have read the first header (as they do when their uninitialised locals
start with the same values), `get_archive_file_list` returns 0 too, both read
their headers at the same offsets, and the lister adds exactly one more name
than the extractor opens files.  Both advance by the same number of bytes
after an entry of any size from 0 up, sizes 0 and 512 included. -/
theorem readers_read_same_headers (a : List Nat) (disk disk2 : Disk) (files : file_list_t)
    (l1 l2 : Locals)
    (hheader : fread l1.header MAX_MSG_LEN a = fread l2.header MAX_MSG_LEN a)
    (hfield : sscanf_i ((fread l1.header MAX_MSG_LEN a).drop SIZE_OFFSET) (toInt32 l1.size)
      = sscanf_i ((fread l1.header MAX_MSG_LEN a).drop SIZE_OFFSET) (toInt32 l2.size))
    (hex : extract_files_from_archive (some a) disk l1.buffer l1.header l1.size
      = Outcome.returned 0 disk2) :
    (∃ fl, get_archive_file_list (some a) files l2.header l2.size = Outcome.returned 0 fl
      ∧ extract_header_offsets a disk l1.buffer l1.header l1.size
          = list_header_offsets a l2.header l2.size
      ∧ fl.head.length = files.head.length + (list_header_offsets a l2.header l2.size).length
      ∧ disk2.length + 1
          = disk.length + (extract_header_offsets a disk l1.buffer l1.header l1.size).length
      ∧ fl.head.length + disk.length = files.head.length + disk2.length + 1)
    ∧ ∀ s : Int, 0 ≤ s → extract_advance s = list_advance s := by
  constructor
  · rw [extract_files_from_archive_some] at hex
    rw [get_archive_file_list_some]
    unfold extract_header_offsets list_header_offsets
    rw [← hheader, ← hfield]
    by_cases hne : toInt32 (a.length : Int) = -1
    · rw [if_pos hne] at hex
      exact absurd hex (by simp)
    · rw [if_neg hne] at hex
      rw [if_neg hne]
      exact readers_agree a LOOP_BUDGET _ _ _ _ _ _ _ (Int.ofNat_nonneg _) hex
  · intro s hs
    unfold extract_advance list_advance
    simp only [MAX_MSG_LEN, Nat.cast_ofNat]
    split
    · split <;> omega
    · split
      · split <;> omega
      · split <;> omega

/-- C27 at the archive of `x` (5 bytes) and `y` (600 bytes), the extractor
started with the size 0 and the lister with the size 77: the size field of the
first header converts, the extractor returns 0 after opening `x` and `y`, both
readers read headers at the offsets 0, 1024 and 2560, and the lister returns
three names. -/
theorem readers_read_same_headers_witness :
    extract_files_from_archive (some (archive_xy.getD [])) [] locals0.buffer locals0.header
        locals0.size
      = Outcome.returned 0 [(name_y, List.replicate 600 97), (name_x, hello)]
    ∧ list_header_offsets (archive_xy.getD []) locals_77.header locals_77.size
      = [0, 1024, 2560]
    ∧ ((∃ fl, get_archive_file_list (some (archive_xy.getD [])) file_list_init
          locals_77.header locals_77.size = Outcome.returned 0 fl
        ∧ extract_header_offsets (archive_xy.getD []) [] locals0.buffer locals0.header
            locals0.size
          = list_header_offsets (archive_xy.getD []) locals_77.header locals_77.size
        ∧ fl.head.length = file_list_init.head.length
            + (list_header_offsets (archive_xy.getD []) locals_77.header
                locals_77.size).length
        ∧ [(name_y, List.replicate 600 97), (name_x, hello)].length + 1
            = ([] : Disk).length
              + (extract_header_offsets (archive_xy.getD []) [] locals0.buffer locals0.header
                  locals0.size).length
        ∧ fl.head.length + ([] : Disk).length
            = file_list_init.head.length
              + [(name_y, List.replicate 600 97), (name_x, hello)].length + 1)
      ∧ ∀ s : Int, 0 ≤ s → extract_advance s = list_advance s) :=
  ⟨by decide!, by decide!,
    readers_read_same_headers (archive_xy.getD []) []
      [(name_y, List.replicate 600 97), (name_x, hello)] file_list_init locals0 locals_77
      (by decide!) (by decide!) (by decide!)⟩

/-- C27, counterexample: an archive of 3584 bytes whose size fields are empty,
the extractor started with the size 5 and the lister with the size 600.
`sscanf` converts nothing and each function goes on with the first value of
its own `size`.  Both return 0; the extractor reads headers at 0, 1024 and
2048 and opens two files, the lister reads headers at 0 and 1536 and returns
two names: not the same offsets, and not one name more. -/
theorem readers_differ_on_unconverted_size :
    archive_unsized.length = 3584
      ∧ extract_files_from_archive (some archive_unsized) [] [] [] 5
        = Outcome.returned 0 [([120], [0, 0, 0, 0, 0]), ([120], [0, 0, 0, 0, 0])]
      ∧ get_archive_file_list (some archive_unsized) file_list_init [] 600
        = Outcome.returned 0 { head := [strncpy [120] 32, zeros 32], size := 2 }
      ∧ extract_header_offsets archive_unsized [] [] [] 5 = [0, 1024, 2048]
      ∧ list_header_offsets archive_unsized [] 600 = [0, 1536] := by
  decide!

/-! ## The lister's loop ends -/

theorem list_loop_parsing_sscanf (a : List Nat) (end_ : Int) : ∀ (fuel : Nat) (pos : Int)
    (header : List Nat) (size : Int) (files : file_list_t),
    list_loop_parsing sscanf_i a end_ fuel pos header size files
      = list_loop a end_ fuel pos header size files := by
  intro fuel
  induction fuel with
  | zero =>
    intro pos header size files
    simp only [list_loop_parsing, list_loop]
  | succ k ih =>
    intro pos header size files
    by_cases hc : pos + size + ((MAX_MSG_LEN * 2 : Nat) : Int) < end_
    · rw [list_loop_step a end_ k pos header size files hc]
      simp only [list_loop_parsing, hc, if_true]
      exact ih _ _ _ _
    · simp only [list_loop_parsing, list_loop, hc, if_false]

theorem fread_past_end (a header : List Nat) (n p : Nat) (h : a.length ≤ p) :
    fread header n (a.drop p) = header := by
  rw [List.drop_eq_nil_of_le h]
  simp [fread]

/-- The conversion either stores a value that depends on the field alone or
leaves the old one. -/
theorem sscanf_i_cases (field : List Nat) :
    ∃ r : Option Int, ∀ old : Int, sscanf_i field old = r.getD old := by
  unfold sscanf_i
  split
  · split
    · exact ⟨some _, fun _ => rfl⟩
    · exact ⟨none, fun _ => rfl⟩
  · split
    · exact ⟨some _, fun _ => rfl⟩
    · exact ⟨none, fun _ => rfl⟩
  · split
    · exact ⟨some _, fun _ => rfl⟩
    · exact ⟨none, fun _ => rfl⟩

theorem sscanf_i_stable (field : List Nat) (old : Int) :
    sscanf_i field (sscanf_i field old) = sscanf_i field old := by
  obtain ⟨r, hr⟩ := sscanf_i_cases field
  rw [hr, hr]
  cases r <;> rfl

/-- Past the end of the file with a size the conversion leaves alone: every
pass moves at least 512 bytes and changes nothing else. -/
theorem list_loop_parsing_past_end (parse : List Nat → Int → Int) (a : List Nat) (end_ : Int)
    (header : List Nat) (size : Int) (hs : parse (header.drop SIZE_OFFSET) size = size) :
    ∀ (fuel : Nat) (pos : Int) (files : file_list_t), (a.length : Int) ≤ pos → 0 < fuel →
    end_ - size - 1024 - pos ≤ 512 * ((fuel : Int) - 1) →
    ∃ fl, list_loop_parsing parse a end_ fuel pos header size files
      = Outcome.returned 0 fl := by
  intro fuel
  induction fuel with
  | zero => intro _ _ _ h; exact absurd h (by decide)
  | succ k ih =>
    intro pos files hpos _ hfuel
    by_cases hc : pos + size + ((MAX_MSG_LEN * 2 : Nat) : Int) < end_
    · have hc2 : pos + size + 1024 < end_ := by simpa [MAX_MSG_LEN] using hc
      have hadv := list_advance_ge size
      have hk : 0 < k := by
        push_cast at hfuel
        omega
      simp only [list_loop_parsing, hc, if_true]
      rw [fread_past_end a header MAX_MSG_LEN (pos + list_advance size).toNat (by omega), hs]
      apply ih _ _ _ hk
      · push_cast at hfuel ⊢
        omega
      · omega
    · simp only [list_loop_parsing, hc, if_false]
      exact ⟨files, rfl⟩

/-- Past the end of the file with any size: after one pass the size is the
one the conversion leaves alone. -/
theorem list_loop_parsing_ends_past_end (parse : List Nat → Int → Int)
    (hstable : ∀ field old, parse field (parse field old) = parse field old)
    (a : List Nat) (end_ : Int) (pos : Int) (header : List Nat) (size : Int)
    (files : file_list_t) (hpos : (a.length : Int) ≤ pos) :
    ∃ N : Nat, ∀ fuel : Nat, N ≤ fuel →
      ∃ fl, list_loop_parsing parse a end_ fuel pos header size files
        = Outcome.returned 0 fl := by
  by_cases hc : pos + size + ((MAX_MSG_LEN * 2 : Nat) : Int) < end_
  · have hadv := list_advance_ge size
    refine ⟨(end_ - parse (header.drop SIZE_OFFSET) size - 1024 - pos).toNat + 2, ?_⟩
    intro fuel hfuel
    obtain ⟨k, rfl⟩ : ∃ k, fuel = k + 1 := ⟨fuel - 1, by omega⟩
    simp only [list_loop_parsing, hc, if_true]
    rw [fread_past_end a header MAX_MSG_LEN (pos + list_advance size).toNat (by omega)]
    apply list_loop_parsing_past_end parse a end_ header _ (hstable _ _)
    · omega
    · omega
    · omega
  · refine ⟨1, ?_⟩
    intro fuel hfuel
    obtain ⟨k, rfl⟩ : ∃ k, fuel = k + 1 := ⟨fuel - 1, by omega⟩
    simp only [list_loop_parsing, hc, if_false]
    exact ⟨files, rfl⟩

/-- The loop ends from every state, whatever the bytes and whatever the
conversion yields, as long as the conversion is stable on a fixed field. -/
theorem list_loop_parsing_ends (parse : List Nat → Int → Int)
    (hstable : ∀ field old, parse field (parse field old) = parse field old)
    (a : List Nat) (end_ : Int) : ∀ (n : Nat) (pos : Int) (header : List Nat) (size : Int)
    (files : file_list_t), (a.length : Int) - pos ≤ (n : Int) →
    ∃ N : Nat, ∀ fuel : Nat, N ≤ fuel →
      ∃ fl, list_loop_parsing parse a end_ fuel pos header size files
        = Outcome.returned 0 fl := by
  intro n
  induction n with
  | zero =>
    intro pos header size files hn
    exact list_loop_parsing_ends_past_end parse hstable a end_ pos header size files
      (by push_cast at hn; omega)
  | succ n ih =>
    intro pos header size files hn
    by_cases hpos : (a.length : Int) ≤ pos
    · exact list_loop_parsing_ends_past_end parse hstable a end_ pos header size files hpos
    · by_cases hc : pos + size + ((MAX_MSG_LEN * 2 : Nat) : Int) < end_
      · have hadv := list_advance_ge size
        obtain ⟨N, hN⟩ := ih
          (pos + list_advance size
            + (((a.drop (pos + list_advance size).toNat).take MAX_MSG_LEN).length : Nat))
          (fread header MAX_MSG_LEN (a.drop (pos + list_advance size).toNat))
          (parse ((fread header MAX_MSG_LEN
            (a.drop (pos + list_advance size).toNat)).drop SIZE_OFFSET) size)
          (file_list_add files (fread header MAX_MSG_LEN
            (a.drop (pos + list_advance size).toNat)))
          (by push_cast at hn ⊢; omega)
        refine ⟨N + 1, ?_⟩
        intro fuel hfuel
        obtain ⟨k, rfl⟩ : ∃ k, fuel = k + 1 := ⟨fuel - 1, by omega⟩
        simp only [list_loop_parsing, hc, if_true]
        exact hN k (by omega)
      · refine ⟨1, ?_⟩
        intro fuel hfuel
        obtain ⟨k, rfl⟩ : ∃ k, fuel = k + 1 := ⟨fuel - 1, by omega⟩
        simp only [list_loop_parsing, hc, if_false]
        exact ⟨files, rfl⟩

/-- C28: the loop of `get_archive_file_list` ends on every input.  From every
state (any archive bytes, any end value, position, header and size, all
unbounded integers) the loop returns once it is given enough passes; on every
archive that exists the function returns, with -1 or with 0 and a list; each
pass moves the position at least 512 bytes forward; a read past the end of
the file leaves the header as it was, and converting the same field again
leaves the size as it was.  The same holds with any conversion of the size
field that is stable on a fixed field in the place of `sscanf`. -/
theorem lister_terminates :
    (∀ (a : List Nat) (end_ pos : Int) (header : List Nat) (size : Int) (files : file_list_t),
      ∃ N : Nat, ∀ fuel : Nat, N ≤ fuel →
        ∃ fl, list_loop a end_ fuel pos header size files = Outcome.returned 0 fl)
    ∧ (∀ (a : List Nat) (files : file_list_t) (header : List Nat) (size : Int),
        get_archive_file_list (some a) files header size = Outcome.returned (-1) files
          ∨ ∃ fl, get_archive_file_list (some a) files header size = Outcome.returned 0 fl)
    ∧ (∀ size : Int, 512 ≤ list_advance size)
    ∧ (∀ (a header : List Nat) (p : Nat), a.length ≤ p →
        fread header MAX_MSG_LEN (a.drop p) = header
          ∧ ((a.drop p).take MAX_MSG_LEN).length = 0)
    ∧ (∀ (field : List Nat) (old : Int),
        sscanf_i field (sscanf_i field old) = sscanf_i field old)
    ∧ (∀ parse : List Nat → Int → Int,
        (∀ field old, parse field (parse field old) = parse field old) →
        ∀ (a : List Nat) (end_ pos : Int) (header : List Nat) (size : Int)
          (files : file_list_t),
          ∃ N : Nat, ∀ fuel : Nat, N ≤ fuel →
            ∃ fl, list_loop_parsing parse a end_ fuel pos header size files
              = Outcome.returned 0 fl) := by
  refine ⟨?_, get_archive_file_list_returns, list_advance_ge, ?_, sscanf_i_stable, ?_⟩
  · intro a end_ pos header size files
    obtain ⟨N, hN⟩ := list_loop_parsing_ends sscanf_i sscanf_i_stable a end_
      ((a.length : Int) - pos).toNat pos header size files (by omega)
    refine ⟨N, ?_⟩
    intro fuel hfuel
    rw [← list_loop_parsing_sscanf]
    exact hN fuel hfuel
  · intro a header p hp
    refine ⟨fread_past_end a header MAX_MSG_LEN p hp, ?_⟩
    rw [List.drop_eq_nil_of_le hp]
    rfl
  · intro parse hstable a end_ pos header size files
    exact list_loop_parsing_ends parse hstable a end_
      ((a.length : Int) - pos).toNat pos header size files (by omega)

/-- C28 at the archive of `x` and `y`: the loop of the lister started after the
first header ends once it is given enough passes. -/
theorem lister_terminates_witness :
    ∃ N : Nat, ∀ fuel : Nat, N ≤ fuel →
      ∃ fl, list_loop_parsing sscanf_i (archive_xy.getD []) 3584 fuel 512 (zeros 512) 0
        file_list_init = Outcome.returned 0 fl :=
  lister_terminates.2.2.2.2.2 sscanf_i lister_terminates.2.2.2.2.1 (archive_xy.getD [])
    3584 512 (zeros 512) 0 file_list_init

end Minitar
